import Mathlib

/-!
# The pattern evaluator of `source/views/view_pattern.cpp`

A shallow embedding of `ViewPattern::parsePattern`, `highlightStruct`,
`highlightUsingDecls` and `highlightEnum`.

* The member `m_patternData` (a vector of regions) is a `List PatternData` that is passed
  in and returned: `addPatternData` appends one region, `clearPatternData` empties it.
* `u64` and `size_t` values are `Nat` reduced modulo `2 ^ 64` after every addition,
  multiplication and subtraction; the `s32` return values are `Int`.
* `highlightStruct` and `highlightUsingDecls` call each other; a fuel argument bounds the depth
  of these calls and `none` stands for a run that needs more calls than the fuel allows.
* The element loops of `parsePattern` count with a `u32` against a `size_t` array size; `none`
  stands for such a loop over an array size of `2 ^ 32` or more as well, which does not end.
-/

set_option autoImplicit false

namespace ViewPattern

/-! ## Machine integers -/

/-- Value of `static_cast<u32>(x)`. -/
def u32 (x : Nat) : Nat := x % 2 ^ 32

/-- Wrap-around of `u64` and `size_t` arithmetic. -/
def u64 (x : Nat) : Nat := x % 2 ^ 64

/-- Difference `a - b` of two `u64` values. -/
def u64sub (a b : Nat) : Nat := (a + (2 ^ 64 - b % 2 ^ 64)) % 2 ^ 64

/-- Conversion of a `u64` value to the `s32` return type: the low 32 bits, read in two's
complement. -/
def s32 (x : Nat) : Int :=
  if x % 2 ^ 32 < 2 ^ 31 then ((x % 2 ^ 32 : Nat) : Int) else ((x % 2 ^ 32 : Nat) : Int) - 2 ^ 32

/-- Conversion of an `s32` value to `size_t` (sign extension to 64 bits), as in
`size_t size = this->highlightStruct(...)` and in the comparison `size == -1`. -/
def sizeT (r : Int) : Nat := (r % 2 ^ 64).toNat

/-! ## Type descriptors (`lang::Token::TypeToken::Type`) -/

/-- Modelled from the spec: the enumerator `Token::TypeToken::Type::CustomType` of the lexer
header, which is not among the sources. The spec calls the descriptor of a built-in type a packed
(signedness-class, byte-width) value; the custom descriptor carries neither. -/
def CustomType : Nat := 0

/-- Modelled from the spec: `getTypeSize` of `utils.hpp`, which is not among the sources: the byte
width packed in a descriptor. The evaluator itself reads the width as
`static_cast<u32>(type) >> 4` (lines 217, 292 and 391). -/
def getTypeSize (type : Nat) : Nat := u32 type >>> 4

/-- Modelled from the spec: `isUnsigned` of `utils.hpp`, which is not among the sources: the
class packed in the four bits below the width is the unsigned one. -/
def isUnsigned (type : Nat) : Bool := u32 type % 16 == 0

/-- Modelled from the spec: `isSigned` of `utils.hpp`, which is not among the sources. -/
def isSigned (type : Nat) : Bool := u32 type % 16 == 1

/-- Modelled from the spec: `isFloatingPoint` of `utils.hpp`, which is not among the sources. -/
def isFloatingPoint (type : Nat) : Bool := u32 type % 16 == 2

/-! ## The syntax tree -/

/-- The node `lang::ASTNodeVariableDecl`, with the values of its getters. -/
structure ASTNodeVariableDecl where
  variableType : Nat
  variableName : String
  customVariableTypeName : String
  offset : Option Nat
  arraySize : Nat
  deriving DecidableEq, Repr

/-- The node `lang::ASTNodeStruct`; `getNodes()` holds variable declarations only. -/
structure ASTNodeStruct where
  name : String
  nodes : List ASTNodeVariableDecl
  deriving DecidableEq, Repr

/-- The node `lang::ASTNodeEnum`. -/
structure ASTNodeEnum where
  name : String
  underlyingType : Nat
  values : List (String × Nat)
  deriving DecidableEq, Repr

/-- The node `lang::ASTNodeTypeDecl` (a `using` declaration). -/
structure ASTNodeTypeDecl where
  typeName : String
  assignedType : Nat
  assignedCustomTypeName : String
  deriving DecidableEq, Repr

/-- A top-level node `lang::ASTNode`, by its `getType()`. -/
inductive ASTNode where
  | VariableDecl (node : ASTNodeVariableDecl)
  | Struct (node : ASTNodeStruct)
  | Enum (node : ASTNodeEnum)
  | TypeDecl (node : ASTNodeTypeDecl)
  deriving DecidableEq, Repr

/-- The cast of `findNodes<ASTNodeVariableDecl>`. -/
def ASTNode.asVariableDecl : ASTNode → Option ASTNodeVariableDecl
  | .VariableDecl n => some n
  | _ => none

/-- The cast of `findNodes<ASTNodeStruct>`. -/
def ASTNode.asStruct : ASTNode → Option ASTNodeStruct
  | .Struct n => some n
  | _ => none

/-- The cast of `findNodes<ASTNodeEnum>`. -/
def ASTNode.asEnum : ASTNode → Option ASTNodeEnum
  | .Enum n => some n
  | _ => none

/-- The cast of `findNodes<ASTNodeTypeDecl>`. -/
def ASTNode.asTypeDecl : ASTNode → Option ASTNodeTypeDecl
  | .TypeDecl n => some n
  | _ => none

/-- The template `findNodes<T>(type, nodes)`: the nodes of one type, in their order. -/
def findNodes {α : Type} (cast : ASTNode → Option α) (nodes : List ASTNode) : List α :=
  nodes.filterMap cast

/-! ## Regions (`PatternData`) -/

/-- The regions `PatternDataUnsigned`, ..., `PatternDataEnum` with their constructor arguments. -/
inductive PatternData where
  | Unsigned (offset size : Nat) (name : String)
  | Signed (offset size : Nat) (name : String)
  | Character (offset size : Nat) (name : String)
  | String (offset size : Nat) (name : String)
  | Float (offset size : Nat) (name : String)
  | Enum (offset size : Nat) (name : String) (enumName : String) (values : List (String × Nat))
  deriving DecidableEq, Repr

/-- Offset of a region. -/
def PatternData.offset : PatternData → Nat
  | .Unsigned o _ _ | .Signed o _ _ | .Character o _ _ | .String o _ _ | .Float o _ _ => o
  | .Enum o _ _ _ _ => o

/-- Size of a region. -/
def PatternData.size : PatternData → Nat
  | .Unsigned _ s _ | .Signed _ s _ | .Character _ s _ | .String _ s _ | .Float _ s _ => s
  | .Enum _ s _ _ _ => s

/-- Display name of a region. -/
def PatternData.name (patternData : PatternData) :=
  match patternData with
  | .Unsigned _ _ n | .Signed _ _ n | .Character _ _ n | .String _ _ n | .Float _ _ n => n
  | .Enum _ _ n _ _ => n

/-- `ViewPattern::addPatternData`: `push_back` on the region list. -/
def addPatternData (rs : List PatternData) (patternData : PatternData) : List PatternData :=
  rs ++ [patternData]

/-- `ViewPattern::clearPatternData`: the region list is emptied. -/
def clearPatternData (_rs : List PatternData) : List PatternData := []

/-! ## The evaluator -/

/-- Where a loop of the evaluator leaves control. -/
inductive Flow where
  /-- The loop ran to its end (or left through `break`) with this list and running offset. -/
  | next (rs : List PatternData) (offset : Nat)
  /-- The loop reached `return -1` with this list. -/
  | failed (rs : List PatternData)
  deriving DecidableEq, Repr

/-- `ViewPattern::highlightEnum` (lines 387-399). -/
def highlightEnum (_ast : List ASTNode) (currEnumNode : ASTNodeEnum) (rs : List PatternData)
    (offset : Nat) (name : String) : List PatternData × Int :=
  if !isUnsigned currEnumNode.underlyingType then (rs, -1)
  else
    let size : Int := s32 (u32 currEnumNode.underlyingType >>> 4)
    if size > 8 then (rs, -1)
    else
      (addPatternData rs
        (.Enum offset (sizeT size) name currEnumNode.name currEnumNode.values), size)

/-- The name `name + "." + varNode->getVariableName()`, followed by `"[" + to_string(i) + "]"`
when the array size is above one (lines 294-296, 321-323, 341-343, 361-363). -/
def memberName (varNode : ASTNodeVariableDecl) (name : String) (i : Nat) : String :=
  if varNode.arraySize > 1 then
    name ++ "." ++ varNode.variableName ++ "[" ++ toString i ++ "]"
  else
    name ++ "." ++ varNode.variableName

/-- The loop over the elements of a built-in typed struct member (lines 292-315). The first
argument counts the iterations that are left, the second is the index `i`. -/
def highlightStructBuiltin (varNode : ASTNodeVariableDecl) (name : String) :
    Nat → Nat → List PatternData → Nat → List PatternData × Nat
  | 0, _, rs, offset => (rs, offset)
  | k + 1, i, rs, offset =>
    let size := u32 varNode.variableType >>> 4
    if isUnsigned varNode.variableType then
      highlightStructBuiltin varNode name k (i + 1)
        (addPatternData rs (.Unsigned offset size (memberName varNode name i)))
        (u64 (offset + size))
    else if isSigned varNode.variableType then
      if getTypeSize varNode.variableType == 1 && varNode.arraySize == 1 then
        highlightStructBuiltin varNode name k (i + 1)
          (addPatternData rs (.Character offset size (memberName varNode name i)))
          (u64 (offset + size))
      else if getTypeSize varNode.variableType == 1 && varNode.arraySize > 1 then
        (addPatternData rs
            (.String offset (u64 (size * varNode.arraySize))
              (name ++ "." ++ varNode.variableName)),
          u64 (offset + u64 (size * varNode.arraySize)))
      else
        highlightStructBuiltin varNode name k (i + 1)
          (addPatternData rs (.Signed offset size (memberName varNode name i)))
          (u64 (offset + size))
    else if isFloatingPoint varNode.variableType then
      highlightStructBuiltin varNode name k (i + 1)
        (addPatternData rs (.Float offset size (memberName varNode name i)))
        (u64 (offset + size))
    else
      highlightStructBuiltin varNode name k (i + 1) rs (u64 (offset + size))

/-- The loop `for (size_t i = 0; i < arraySize; i++)` around a nested call (lines 231-238,
320-331, ...): the call's `s32` result is read as a `size_t`; the value of `-1` returns `-1` from
the enclosing function, any other value is added to the offset. The first argument counts the
iterations that are left, the second is the index `i`. -/
def arrayLoop (call : Nat → List PatternData → Nat → Option (List PatternData × Int)) :
    Nat → Nat → List PatternData → Nat → Option Flow
  | 0, _, rs, offset => some (.next rs offset)
  | k + 1, i, rs, offset =>
    match call i rs offset with
    | none => none
    | some (rs1, r) =>
      let size := sizeT r
      if size == sizeT (-1) then some (.failed rs1)
      else arrayLoop call k (i + 1) rs1 (u64 (offset + size))

/-- One lookup loop of a custom type name inside `highlightStruct` and `highlightUsingDecls`
(lines 229-243, 318-336, ...): the first node with the name is resolved once per array element,
`foundType` is set and the search ends (`break`). -/
def lookupLoop {α : Type} (nodes : List α) (isNamed : α → Bool) (arraySize : Nat)
    (call : α → Nat → List PatternData → Nat → Option (List PatternData × Int))
    (rs : List PatternData) (offset : Nat) (foundType : Bool) : Option (Flow × Bool) :=
  match nodes.find? isNamed with
  | none => some (.next rs offset, foundType)
  | some node =>
    match arrayLoop (call node) arraySize 0 rs offset with
    | none => none
    | some flow => some (flow, true)

/-- The three lookup loops in their order (structs, enums, type declarations) and the final
`if (!foundType) return -1;` (lines 228-279 and 317-379). -/
def resolveCustom (ast : List ASTNode) (typeName : String) (arraySize : Nat)
    (structCall : ASTNodeStruct → Nat → List PatternData → Nat → Option (List PatternData × Int))
    (enumCall : ASTNodeEnum → Nat → List PatternData → Nat → Option (List PatternData × Int))
    (usingCall :
      ASTNodeTypeDecl → Nat → List PatternData → Nat → Option (List PatternData × Int))
    (rs : List PatternData) (offset : Nat) : Option Flow :=
  match lookupLoop (findNodes ASTNode.asStruct ast) (fun n => n.name == typeName) arraySize
      structCall rs offset false with
  | none => none
  | some (.failed rs1, _) => some (.failed rs1)
  | some (.next rs1 offset1, found1) =>
    match lookupLoop (findNodes ASTNode.asEnum ast) (fun n => n.name == typeName) arraySize
        enumCall rs1 offset1 found1 with
    | none => none
    | some (.failed rs2, _) => some (.failed rs2)
    | some (.next rs2 offset2, found2) =>
      match lookupLoop (findNodes ASTNode.asTypeDecl ast) (fun n => n.typeName == typeName)
          arraySize usingCall rs2 offset2 found2 with
      | none => none
      | some (.failed rs3, _) => some (.failed rs3)
      | some (.next rs3 offset3, found3) =>
        if !found3 then some (.failed rs3) else some (.next rs3 offset3)

/-- The loop over the members of a struct (line 288), with the body for one member as
argument. -/
def structLoop (member : ASTNodeVariableDecl → List PatternData → Nat → Option Flow) :
    List ASTNodeVariableDecl → List PatternData → Nat → Option Flow
  | [], rs, offset => some (.next rs offset)
  | varNode :: nodes, rs, offset =>
    match member varNode rs offset with
    | none => none
    | some (.failed rs1) => some (.failed rs1)
    | some (.next rs1 offset1) => structLoop member nodes rs1 offset1

/-- The body of the member loop of `highlightStruct` for one member (lines 289-380), with the
nested calls of `highlightStruct` and `highlightUsingDecls` as arguments. -/
def highlightStructMember (ast : List ASTNode) (name : String)
    (structCall : ASTNodeStruct → List PatternData → Nat → String →
      Option (List PatternData × Int))
    (usingCall : ASTNodeTypeDecl → ASTNodeVariableDecl → List PatternData → Nat → String →
      Option (List PatternData × Int))
    (varNode : ASTNodeVariableDecl) (rs : List PatternData) (offset : Nat) : Option Flow :=
  if varNode.variableType != CustomType then
    let r := highlightStructBuiltin varNode name varNode.arraySize 0 rs offset
    some (.next r.1 r.2)
  else
    resolveCustom ast varNode.customVariableTypeName varNode.arraySize
      (fun structNode i rs1 offset1 =>
        structCall structNode rs1 offset1 (memberName varNode name i))
      (fun enumNode i rs1 offset1 =>
        some (highlightEnum ast enumNode rs1 offset1 (memberName varNode name i)))
      (fun typeDeclNode i rs1 offset1 =>
        usingCall typeDeclNode varNode rs1 offset1 (memberName varNode name i))
      rs offset

mutual

/-- `ViewPattern::highlightUsingDecls` (lines 213-283). -/
def highlightUsingDecls : Nat → List ASTNode → ASTNodeTypeDecl → ASTNodeVariableDecl →
    List PatternData → Nat → String → Option (List PatternData × Int)
  | 0, _, _, _, _, _, _ => none
  | fuel + 1, ast, currTypeDeclNode, currVarDecl, rs, offset, name =>
    let startOffset := offset
    if currTypeDeclNode.assignedType != CustomType then
      let size := u32 currTypeDeclNode.assignedType >>> 4
      let rs1 :=
        if isUnsigned currTypeDeclNode.assignedType then
          addPatternData rs (.Unsigned offset size name)
        else if isSigned currTypeDeclNode.assignedType then
          addPatternData rs (.Signed offset size name)
        else if isFloatingPoint currTypeDeclNode.assignedType then
          addPatternData rs (.Float offset size name)
        else rs
      some (rs1, s32 (u64sub (u64 (offset + size)) startOffset))
    else
      match resolveCustom ast currTypeDeclNode.assignedCustomTypeName currVarDecl.arraySize
          (fun structNode _ rs1 offset1 => highlightStruct fuel ast structNode rs1 offset1 name)
          (fun enumNode _ rs1 offset1 => some (highlightEnum ast enumNode rs1 offset1 name))
          (fun typeDeclNode _ rs1 offset1 =>
            highlightUsingDecls fuel ast typeDeclNode currVarDecl rs1 offset1 name)
          rs offset with
      | none => none
      | some (.failed rs1) => some (rs1, -1)
      | some (.next rs1 offset1) => some (rs1, s32 (u64sub offset1 startOffset))

/-- `ViewPattern::highlightStruct` (lines 285-385). -/
def highlightStruct : Nat → List ASTNode → ASTNodeStruct → List PatternData → Nat → String →
    Option (List PatternData × Int)
  | 0, _, _, _, _, _ => none
  | fuel + 1, ast, currStructNode, rs, offset, name =>
    let startOffset := offset
    match structLoop
        (highlightStructMember ast name (highlightStruct fuel ast)
          (highlightUsingDecls fuel ast))
        currStructNode.nodes rs offset with
    | none => none
    | some (.failed rs1) => some (rs1, -1)
    | some (.next rs1 offset1) => some (rs1, s32 (u64sub offset1 startOffset))

end

/-! ## Notions used to state the layout of a struct -/

/-- The member is laid out as one text region: a signed type of width one with more than one
element (the test of line 303, reached when the type is not unsigned). -/
def isStringMember (varNode : ASTNodeVariableDecl) : Prop :=
  isUnsigned varNode.variableType = false ∧ isSigned varNode.variableType = true ∧
    getTypeSize varNode.variableType = 1 ∧ 1 < varNode.arraySize

instance (varNode : ASTNodeVariableDecl) : Decidable (isStringMember varNode) := by
  unfold isStringMember
  infer_instance

/-- Byte width of a built-in typed declaration: `baseWidth * arrayLength`. -/
def memberWidth (varNode : ASTNodeVariableDecl) : Nat :=
  getTypeSize varNode.variableType * varNode.arraySize

/-- Sum of the byte widths of a list of built-in typed members. -/
def totalWidth (nodes : List ASTNodeVariableDecl) : Nat :=
  (nodes.map memberWidth).sum

/-- The regions the element loop of `highlightStruct` emits for each of the given built-in typed
members in turn, one block per member, the first member starting at `offset`. -/
def builtinBlocks (name : String) : List ASTNodeVariableDecl → Nat → List (List PatternData)
  | [], _ => []
  | varNode :: nodes, offset =>
    (highlightStructBuiltin varNode name varNode.arraySize 0 [] offset).1 ::
      builtinBlocks name nodes
        (highlightStructBuiltin varNode name varNode.arraySize 0 [] offset).2

/-- The name `typeName` names the type declaration `a`, no other type declaration, no struct
and no enum of the syntax tree. -/
def namesOnlyTypeDecl (ast : List ASTNode) (typeName : String) (a : ASTNodeTypeDecl) : Prop :=
  (∀ s ∈ findNodes ASTNode.asStruct ast, s.name ≠ typeName) ∧
    (∀ e ∈ findNodes ASTNode.asEnum ast, e.name ≠ typeName) ∧
    (findNodes ASTNode.asTypeDecl ast).filter (fun n => n.typeName == typeName) = [a]

instance (ast : List ASTNode) (typeName : String) (a : ASTNodeTypeDecl) :
    Decidable (namesOnlyTypeDecl ast typeName a) := by
  unfold namesOnlyTypeDecl
  infer_instance

/-- The regions of `count` consecutive elements of the enum `e`, the first at `offset`, element
`i` under the name `names i`. -/
def enumRegions (e : ASTNodeEnum) (offset : Nat) (names : Nat → String) (count : Nat) :
    List PatternData :=
  (List.range count).map fun i =>
    .Enum (u64 (offset + i * getTypeSize e.underlyingType)) (getTypeSize e.underlyingType)
      (names i) e.name e.values

/-- The display name of the region begins with `start`. -/
def nameStartsWith (start : String) (p : PatternData) : Prop :=
  ∃ t : String, p.name = start ++ t

/-- The list `rs1` is the list `rs` followed by further regions, all of which satisfy `P`. -/
def ExtendsWith (P : PatternData → Prop) (rs rs1 : List PatternData) : Prop :=
  ∃ added : List PatternData, rs1 = rs ++ added ∧ ∀ p ∈ added, P p

/-- The region list a loop leaves behind. -/
def Flow.regions : Flow → List PatternData
  | .next rs _ => rs
  | .failed rs => rs

/-- The type declarations that satisfy `onCycle` lead in a circle: each of them names, by a name
that no struct and no enum bears, a type declaration that satisfies `onCycle` again. -/
def AliasCycle (ast : List ASTNode) (onCycle : ASTNodeTypeDecl → Prop) : Prop :=
  ∀ a : ASTNodeTypeDecl, onCycle a →
    a.assignedType = CustomType ∧
    (∀ s ∈ findNodes ASTNode.asStruct ast, s.name ≠ a.assignedCustomTypeName) ∧
    (∀ e ∈ findNodes ASTNode.asEnum ast, e.name ≠ a.assignedCustomTypeName) ∧
    ∃ b : ASTNodeTypeDecl,
      (findNodes ASTNode.asTypeDecl ast).find?
        (fun n => n.typeName == a.assignedCustomTypeName) = some b ∧ onCycle b

/-- The function `rank` falls along every reference of the syntax tree: the type name of a
custom typed member of a struct is ranked below the name of the struct, and the name a type
declaration assigns is ranked below the name it declares. On a syntax tree whose type names are
unique such a function exists exactly when no struct contains itself through a chain of members
and type declarations and no chain of type declarations returns to itself. -/
def Ranked (ast : List ASTNode) (rank : String → Nat) : Prop :=
  (∀ s ∈ findNodes ASTNode.asStruct ast, ∀ v ∈ s.nodes,
      v.variableType = CustomType → rank v.customVariableTypeName < rank s.name) ∧
    (∀ a ∈ findNodes ASTNode.asTypeDecl ast,
      a.assignedType = CustomType → rank a.assignedCustomTypeName < rank a.typeName)

instance (ast : List ASTNode) (rank : String → Nat) : Decidable (Ranked ast rank) := by
  unfold Ranked
  infer_instance

/-- A number above the rank of every struct and of every type declaration of the syntax
tree. -/
def rankBound (ast : List ASTNode) (rank : String → Nat) : Nat :=
  ((findNodes ASTNode.asStruct ast).map fun s => rank s.name).sum +
    ((findNodes ASTNode.asTypeDecl ast).map fun a => rank a.typeName).sum + 1

/-- The custom type name of the declaration names a struct, an enum or a type declaration of
the syntax tree. -/
def namesType (ast : List ASTNode) (varNode : ASTNodeVariableDecl) : Prop :=
  (∃ s ∈ findNodes ASTNode.asStruct ast, s.name = varNode.customVariableTypeName) ∨
    (∃ e ∈ findNodes ASTNode.asEnum ast, e.name = varNode.customVariableTypeName) ∨
    (∃ a ∈ findNodes ASTNode.asTypeDecl ast, a.typeName = varNode.customVariableTypeName)

/-- The declaration is one that `parsePattern` runs an element loop for: it carries an offset,
is custom typed and its type name names a struct, an enum or a type declaration. -/
def runsElementLoop (ast : List ASTNode) (varNode : ASTNodeVariableDecl) : Prop :=
  varNode.offset.isSome = true ∧ varNode.variableType = CustomType ∧ namesType ast varNode

/-- Sum of the sizes of the regions. -/
def sumSizes (regions : List PatternData) : Nat :=
  (regions.map PatternData.size).sum

/-- The offset at which the last of the regions ends when they are laid one after the other from
`offset` on, in `u64` arithmetic. -/
def endOf : Nat → List PatternData → Nat
  | offset, [] => offset
  | offset, p :: ps => endOf (u64 (offset + p.size)) ps

/-- The regions lie one after the other from `offset` on: the first starts at `offset` and each
next one starts where the one before it ends, in `u64` arithmetic. -/
def Chained : Nat → List PatternData → Prop
  | _, [] => True
  | offset, p :: ps => p.offset = offset ∧ Chained (u64 (offset + p.size)) ps

/-- Every built-in descriptor of the syntax tree's struct members and type declarations is
unsigned, signed or floating point. -/
def WellClassed (ast : List ASTNode) : Prop :=
  (∀ s ∈ findNodes ASTNode.asStruct ast, ∀ v ∈ s.nodes, v.variableType ≠ CustomType →
      isUnsigned v.variableType = true ∨ isSigned v.variableType = true ∨
        isFloatingPoint v.variableType = true) ∧
    (∀ a ∈ findNodes ASTNode.asTypeDecl ast, a.assignedType ≠ CustomType →
      isUnsigned a.assignedType = true ∨ isSigned a.assignedType = true ∨
        isFloatingPoint a.assignedType = true)

/-- What a resolving call that started at `offset` with the list `rs` left behind: the list is
`rs` followed by the emitted regions, and when their sizes sum to less than `2 ^ 31` the call
either handed back the failure value, or the regions lie one after the other from `offset` on
and the value handed back is the sum of their sizes. -/
def CallTiles (offset : Nat) (rs : List PatternData) (res : List PatternData × Int) : Prop :=
  ∃ added : List PatternData, res.1 = rs ++ added ∧
    (sumSizes added < 2 ^ 31 →
      res.2 = -1 ∨ (Chained offset added ∧ res.2 = (sumSizes added : Int)))

/-- What a loop that started at `offset` with the list `rs` left behind: the list is `rs`
followed by the emitted regions, and when the loop ran to its end and the sizes sum to less than
`2 ^ 31` the regions lie one after the other from `offset` to the running offset. -/
def FlowTiles (offset : Nat) (rs : List PatternData) : Flow → Prop
  | .failed rs1 => ∃ added : List PatternData, rs1 = rs ++ added
  | .next rs1 offset1 =>
    offset1 < 2 ^ 64 ∧ ∃ added : List PatternData, rs1 = rs ++ added ∧
      (sumSizes added < 2 ^ 31 → Chained offset added ∧ endOf offset added = offset1)

/-! ## The top level: `parsePattern` -/

/-- The name of a top-level custom typed declaration: the variable name, followed by
`"[" + to_string(arraySize) + "]"` when the array size is above one (lines 164-166, 179-181,
194-196). -/
def topLevelName (varNode : ASTNodeVariableDecl) : String :=
  if varNode.arraySize > 1 then
    varNode.variableName ++ "[" ++ toString varNode.arraySize ++ "]"
  else
    varNode.variableName

/-- The loop `for (u32 i = 0; i < arraySize; i++)` of `parsePattern` around a resolving call
(lines 163-172, 178-187, 193-202), from the counter value `i` on: the counter is a `u32` and
wraps around, the array size is a `size_t`. When the call's result, read as a `size_t`, is the
value of `-1` the list is cleared and the loop goes on with the same offset; any other value is
added to the offset. The first argument bounds the number of iterations; `none` stands for a loop
that needs more of them, or whose call does not return. -/
def topLevelCounterLoop (call : List PatternData → Nat → Option (List PatternData × Int))
    (arraySize : Nat) : Nat → Nat → List PatternData → Nat → Option (List PatternData × Nat)
  | 0, i, rs, offset => if i < arraySize then none else some (rs, offset)
  | steps + 1, i, rs, offset =>
    if i < arraySize then
      match call rs offset with
      | none => none
      | some (rs1, r) =>
        let size := sizeT r
        if size == sizeT (-1) then
          topLevelCounterLoop call arraySize steps (u32 (i + 1)) (clearPatternData rs1) offset
        else topLevelCounterLoop call arraySize steps (u32 (i + 1)) rs1 (u64 (offset + size))
    else some (rs, offset)

/-- The element loop of `parsePattern` from its start `i = 0`. For an array size below `2 ^ 32`
the counter reaches the size after as many iterations as the array has elements. For an array
size of `2 ^ 32` or more the counter, which has `2 ^ 32` values only, stays below the size and
the loop has not ended after any number of iterations; `none` stands for this (both cases:
`topLevelArrayLoop_counter`). -/
def topLevelArrayLoop (call : List PatternData → Nat → Option (List PatternData × Int))
    (arraySize : Nat) (rs : List PatternData) (offset : Nat) :
    Option (List PatternData × Nat) :=
  if arraySize < 4294967296 then topLevelCounterLoop call arraySize arraySize 0 rs offset
  else none

/-- One lookup loop of `parsePattern` (lines 161-174, 176-189, 191-204): every node with the
name is resolved, once per array element; there is no `break`. -/
def topLevelLookup {α : Type} (isNamed : α → Bool) (arraySize : Nat)
    (call : α → List PatternData → Nat → Option (List PatternData × Int)) :
    List α → List PatternData → Nat → Option (List PatternData × Nat)
  | [], rs, offset => some (rs, offset)
  | node :: nodes, rs, offset =>
    if isNamed node then
      match topLevelArrayLoop (call node) arraySize rs offset with
      | none => none
      | some (rs1, offset1) => topLevelLookup isNamed arraySize call nodes rs1 offset1
    else topLevelLookup isNamed arraySize call nodes rs offset

/-- The body of the evaluation loop of `parsePattern` for one variable declaration
(lines 141-205). -/
def evaluateVariable (fuel : Nat) (ast : List ASTNode) (varNode : ASTNodeVariableDecl)
    (rs : List PatternData) : Option (List PatternData) :=
  match varNode.offset with
  | none => some rs
  | some offset =>
    if varNode.variableType != CustomType then
      let size := u64 (getTypeSize varNode.variableType * varNode.arraySize)
      if isUnsigned varNode.variableType then
        some (addPatternData rs (.Unsigned offset size varNode.variableName))
      else if isSigned varNode.variableType then
        if getTypeSize varNode.variableType == 1 && varNode.arraySize == 1 then
          some (addPatternData rs (.Character offset size varNode.variableName))
        else if getTypeSize varNode.variableType == 1 && varNode.arraySize > 1 then
          some (addPatternData rs (.String offset size varNode.variableName))
        else
          some (addPatternData rs (.Signed offset size varNode.variableName))
      else if isFloatingPoint varNode.variableType then
        some (addPatternData rs (.Float offset size varNode.variableName))
      else some rs
    else
      match topLevelLookup (fun n => varNode.customVariableTypeName == n.name) varNode.arraySize
          (fun structNode rs1 offset1 =>
            highlightStruct fuel ast structNode rs1 offset1 (topLevelName varNode))
          (findNodes ASTNode.asStruct ast) rs offset with
      | none => none
      | some (rs1, offset1) =>
        match topLevelLookup (fun n => varNode.customVariableTypeName == n.name)
            varNode.arraySize
            (fun enumNode rs2 offset2 =>
              some (highlightEnum ast enumNode rs2 offset2 (topLevelName varNode)))
            (findNodes ASTNode.asEnum ast) rs1 offset1 with
        | none => none
        | some (rs2, offset2) =>
          match topLevelLookup (fun n => varNode.customVariableTypeName == n.typeName)
              varNode.arraySize
              (fun usingNode rs3 offset3 =>
                highlightUsingDecls fuel ast usingNode varNode rs3 offset3
                  (topLevelName varNode))
              (findNodes ASTNode.asTypeDecl ast) rs2 offset2 with
          | none => none
          | some (rs3, _) => some rs3

/-- The evaluation loop of `parsePattern` (lines 140-207) over the variable declarations. -/
def evaluate (fuel : Nat) (ast : List ASTNode) :
    List ASTNodeVariableDecl → List PatternData → Option (List PatternData)
  | [], rs => some rs
  | varNode :: varNodes, rs =>
    match evaluateVariable fuel ast varNode rs with
    | none => none
    | some rs1 => evaluate fuel ast varNodes rs1

/-- The four stages before the evaluation (`lang::Preprocessor`, `Lexer`, `Parser` and
`Validator`), whose code is not among the sources: any functions that report success or failure
next to their output. -/
structure Stages (Token : Type) where
  preprocess : String → Bool × String
  lex : String → Bool × List Token
  parse : List Token → Bool × List ASTNode
  validate : List ASTNode → Bool

/-- `ViewPattern::parsePattern` (lines 110-211) on the region list `rs`; the first component of a
stage's result is `true` when the stage did not fail. -/
def parsePattern {Token : Type} (stages : Stages Token) (fuel : Nat) (buffer : String)
    (rs : List PatternData) : Option (List PatternData) :=
  let rs0 := clearPatternData rs
  let preprocessed := stages.preprocess buffer
  if !preprocessed.1 then some rs0
  else
    let lexed := stages.lex preprocessed.2
    if !lexed.1 then some rs0
    else
      let parsed := stages.parse lexed.2
      if !parsed.1 then some rs0
      else if !stages.validate parsed.2 then some rs0
      else evaluate fuel parsed.2 (findNodes ASTNode.asVariableDecl parsed.2) rs0

/-- The syntax tree without its top-level variable declarations that carry no offset. -/
def removeOffsetless (ast : List ASTNode) : List ASTNode :=
  ast.filter fun node =>
    match node with
    | .VariableDecl varNode => varNode.offset.isSome
    | _ => true

/-! ## Notions used to state the order of resolution -/

/-- Resolution of a top-level declaration against the one node of a category that bears its
type name, if there is one: the element loop of `parsePattern` around the call for this node;
without such a node the list and the offset stay as they are. -/
def topLevelCategory {α : Type} (node? : Option α)
    (call : α → List PatternData → Nat → Option (List PatternData × Int)) (arraySize : Nat)
    (rs : List PatternData) (offset : Nat) : Option (List PatternData × Nat) :=
  match node? with
  | none => some (rs, offset)
  | some node => topLevelArrayLoop (call node) arraySize rs offset

/-- Resolution of a struct member against the one node of a category that bears its type name,
if there is one: the element loop around the call for this node; without such a node the list
and the offset stay as they are. -/
def memberCategory {α : Type} (node? : Option α)
    (call : α → Nat → List PatternData → Nat → Option (List PatternData × Int))
    (arraySize : Nat) (rs : List PatternData) (offset : Nat) : Option Flow :=
  match node? with
  | none => some (.next rs offset)
  | some node => arrayLoop (call node) arraySize 0 rs offset

/-- One resolution after another inside a struct member: when the first did not return or
reached `return -1` that is the outcome, otherwise the next one starts from the list and the
offset the first one left. -/
def andThenResolve (first : Option Flow) (next : List PatternData → Nat → Option Flow) :
    Option Flow :=
  match first with
  | none => none
  | some (.failed rs) => some (.failed rs)
  | some (.next rs offset) => next rs offset

/-! ## Sample inputs -/

/-- Descriptor of the built-in type `u8`: width one, unsigned class. -/
def u8 : Nat := 0x10

/-- Descriptor of the built-in type `s8`: width one, signed class. -/
def s8 : Nat := 0x11

/-- Descriptor of the built-in type `u16`: width two, unsigned class. -/
def u16 : Nat := 0x20

/-- Descriptor of the built-in type `s16`: width two, signed class. -/
def s16 : Nat := 0x21

/-- Descriptor of the built-in type `float`: width four, floating point class. -/
def float : Nat := 0x42

/-- Stages that all succeed and hand the given syntax tree to the evaluation. -/
def stagesYielding (ast : List ASTNode) : Stages Unit where
  preprocess := fun code => (true, code)
  lex := fun _ => (true, [])
  parse := fun _ => (true, ast)
  validate := fun _ => true

/-- Stages whose preprocessor fails. -/
def stagesFailing : Stages Unit where
  preprocess := fun code => (false, code)
  lex := fun _ => (true, [])
  parse := fun _ => (true, [])
  validate := fun _ => true

/-- The struct `struct S { u8 a; u16 b[2]; s8 c[3]; }`. -/
def sampleStruct : ASTNodeStruct :=
  ⟨"S", [⟨u8, "a", "", none, 1⟩, ⟨u16, "b", "", none, 2⟩, ⟨s8, "c", "", none, 3⟩]⟩

/-- The struct `struct S { s8 a[4294967295]; }`, of total width `2 ^ 32 - 1`. -/
def wideStruct : ASTNodeStruct := ⟨"S", [⟨s8, "a", "", none, 4294967295⟩]⟩

/-- The struct `struct S { s8 a[2147483648]; }`, of total width `2 ^ 31`. -/
def halfStruct : ASTNodeStruct := ⟨"S", [⟨s8, "a", "", none, 2147483648⟩]⟩

/-- The struct `struct S { u8 a; }`. -/
def smallStruct : ASTNodeStruct := ⟨"S", [⟨u8, "a", "", none, 1⟩]⟩

/-- The enum `enum S : u8 {}`, of the same name as `smallStruct`. -/
def smallEnum : ASTNodeEnum := ⟨"S", u8, []⟩

/-- The type declaration `using S = u16;`, of the same name as `smallEnum`. -/
def smallUsing : ASTNodeTypeDecl := ⟨"S", u16, ""⟩

/-- The type declaration `using A = B;`. -/
def usingAB : ASTNodeTypeDecl := ⟨"A", CustomType, "B"⟩

/-- The type declaration `using B = u16;`. -/
def usingB : ASTNodeTypeDecl := ⟨"B", u16, ""⟩

/-- The declaration `A v @ 4;`. -/
def aliasVariable : ASTNodeVariableDecl := ⟨CustomType, "v", "A", some 4, 1⟩

/-- The struct `struct S { u8 a; u16 b[2]; }`. -/
def exampleStruct : ASTNodeStruct := ⟨"S", [⟨u8, "a", "", none, 1⟩, ⟨u16, "b", "", none, 2⟩]⟩

/-- The declaration `S s @ 0x10;`. -/
def exampleVariable : ASTNodeVariableDecl := ⟨CustomType, "s", "S", some 0x10, 1⟩

/-- The syntax tree of `struct S { u8 a; u16 b[2]; } S s @ 0x10;`. -/
def exampleAst : List ASTNode := [.Struct exampleStruct, .VariableDecl exampleVariable]

/-- The type declaration `using A = S;`. -/
def usingAS : ASTNodeTypeDecl := ⟨"A", CustomType, "S"⟩

/-- The syntax tree of `struct S { u8 a; } using A = S; A v[2] @ 0;`. -/
def aliasArrayAst : List ASTNode :=
  [.Struct smallStruct, .TypeDecl usingAS, .VariableDecl ⟨CustomType, "v", "A", some 0, 2⟩]

/-- The struct `struct S { S x; Missing m; }`, which contains itself. -/
def selfStruct : ASTNodeStruct :=
  ⟨"S", [⟨CustomType, "x", "S", none, 1⟩, ⟨CustomType, "m", "Missing", none, 1⟩]⟩

/-- The type declaration `using A = A;`. -/
def usingAA : ASTNodeTypeDecl := ⟨"A", CustomType, "A"⟩

/-- The type declaration `using B = A;`. -/
def usingBA : ASTNodeTypeDecl := ⟨"B", CustomType, "A"⟩

/-- The struct `struct A { Missing m; }`, of the same name as `usingAA`. -/
def failingStruct : ASTNodeStruct := ⟨"A", [⟨CustomType, "m", "Missing", none, 1⟩]⟩

/-- The syntax tree of
`struct Inner { u8 a; } using A = Inner; struct Outer { Inner i[2]; A x; } Outer o @ 0;`. -/
def nestedAst : List ASTNode :=
  [.Struct ⟨"Inner", [⟨u8, "a", "", none, 1⟩]⟩, .TypeDecl ⟨"A", CustomType, "Inner"⟩,
    .Struct ⟨"Outer", [⟨CustomType, "i", "Inner", none, 2⟩, ⟨CustomType, "x", "A", none, 1⟩]⟩,
    .VariableDecl ⟨CustomType, "o", "Outer", some 0, 1⟩]

/-- A rank for `nestedAst`: `Outer` above `A` above `Inner`. -/
def nestedRank (name : String) : Nat :=
  if name = "Outer" then 2 else if name = "A" then 1 else 0

/-- The struct `struct Outer { S i; S j; u8 b; }`, with `S` the struct `halfStruct` of total
width `2 ^ 31`. -/
def outerStruct : ASTNodeStruct :=
  ⟨"Outer", [⟨CustomType, "i", "S", none, 1⟩, ⟨CustomType, "j", "S", none, 1⟩,
    ⟨u8, "b", "", none, 1⟩]⟩

/-- The declaration `S v[4294967296] @ 0;`, an array of `2 ^ 32` elements. -/
def wideArrayVariable : ASTNodeVariableDecl := ⟨CustomType, "v", "S", some 0, 4294967296⟩

/-- The syntax tree of `struct S { u8 a; } S v[4294967296] @ 0;`. -/
def wideArrayAst : List ASTNode := [.Struct smallStruct, .VariableDecl wideArrayVariable]

/-- The declaration `S s @ 0;`. -/
def sampleVariable : ASTNodeVariableDecl := ⟨CustomType, "s", "S", some 0, 1⟩

/-! ## Machine arithmetic -/

theorem u64_lt (x : Nat) : u64 x < 2 ^ 64 := Nat.mod_lt _ (by norm_num)

theorem u64_of_lt {x : Nat} (h : x < 2 ^ 64) : u64 x = x := Nat.mod_eq_of_lt h

theorem u64_add_u64_left (a b : Nat) : u64 (u64 a + b) = u64 (a + b) := by
  unfold u64; omega

theorem u64_add_u64_right (a b : Nat) : u64 (a + u64 b) = u64 (a + b) := by
  unfold u64; omega

theorem u64sub_add (a b : Nat) : u64sub (u64 (a + b)) a = u64 b := by
  unfold u64sub u64; omega

theorem s32_of_lt {x : Nat} (h : x < 2 ^ 31) : s32 x = (x : Int) := by
  unfold s32
  have h1 : x % 2 ^ 32 = x := Nat.mod_eq_of_lt (by omega)
  rw [h1, if_pos h]

theorem sizeT_neg_one : sizeT (-1) = 2 ^ 64 - 1 := by decide

theorem sizeT_natCast {x : Nat} (h : x < 2 ^ 64) : sizeT (x : Int) = x := by
  unfold sizeT
  have : ((x : Int) % 2 ^ 64) = (x : Int) := Int.emod_eq_of_lt (by omega) (by omega)
  rw [this]; simp

/-! ## The loop over the elements of a built-in member -/

theorem highlightStructBuiltin_frame (varNode : ASTNodeVariableDecl) (name : String) (k : Nat) :
    ∀ (i : Nat) (rs : List PatternData) (offset : Nat),
      highlightStructBuiltin varNode name k i rs offset =
        (rs ++ (highlightStructBuiltin varNode name k i [] offset).1,
          (highlightStructBuiltin varNode name k i [] offset).2) := by
  induction k with
  | zero => intro i rs offset; simp [highlightStructBuiltin]
  | succ k ih =>
    intro i rs offset
    simp only [highlightStructBuiltin, addPatternData]
    split_ifs <;>
      first
        | (rw [ih (i + 1) (rs ++ [_]), ih (i + 1) ([] ++ [_])]; simp)
        | simp
        | exact ih _ _ _

theorem highlightStructBuiltin_string (varNode : ASTNodeVariableDecl) (name : String)
    (h : isStringMember varNode) (k i : Nat) (rs : List PatternData) (offset : Nat) :
    highlightStructBuiltin varNode name (k + 1) i rs offset =
      (rs ++ [.String offset (u64 (getTypeSize varNode.variableType * varNode.arraySize))
          (name ++ "." ++ varNode.variableName)],
        u64 (offset + getTypeSize varNode.variableType * varNode.arraySize)) := by
  obtain ⟨h1, h2, h3, h4⟩ := h
  have h5 : varNode.arraySize ≠ 1 := by omega
  have h6 : u32 varNode.variableType >>> 4 = 1 := h3
  simp [highlightStructBuiltin, h1, h2, h3, h4, h5, h6, addPatternData, u64_add_u64_right]

theorem highlightStructBuiltin_snd (varNode : ASTNodeVariableDecl) (name : String)
    (h : ¬ isStringMember varNode) (k : Nat) :
    ∀ (i : Nat) (rs : List PatternData) (offset : Nat), offset < 2 ^ 64 →
      (highlightStructBuiltin varNode name k i rs offset).2 =
        u64 (offset + getTypeSize varNode.variableType * k) := by
  induction k with
  | zero => intro i rs offset ho; simp [highlightStructBuiltin, u64_of_lt ho]
  | succ k ih =>
    intro i rs offset ho
    have hs : ∀ rs1, (highlightStructBuiltin varNode name k (i + 1) rs1
        (u64 (offset + u32 varNode.variableType >>> 4))).2 =
        u64 (offset + getTypeSize varNode.variableType * (k + 1)) := by
      intro rs1
      rw [ih (i + 1) rs1 _ (u64_lt _), u64_add_u64_left]
      unfold getTypeSize
      congr 1; ring
    simp only [highlightStructBuiltin]
    split_ifs with c1 c2 c3 c4 c5
    · exact hs _
    · exact hs _
    · exfalso
      apply h
      simp only [Bool.and_eq_true, beq_iff_eq, decide_eq_true_eq] at c4
      exact ⟨by simpa using c1, c2, c4.1, c4.2⟩
    · exact hs _
    · exact hs _
    · exact hs _

theorem highlightStructBuiltin_offset (varNode : ASTNodeVariableDecl) (name : String)
    (rs : List PatternData) (offset : Nat) (ho : offset < 2 ^ 64) :
    (highlightStructBuiltin varNode name varNode.arraySize 0 rs offset).2 =
      u64 (offset + getTypeSize varNode.variableType * varNode.arraySize) := by
  by_cases h : isStringMember varNode
  · obtain ⟨k, hk⟩ : ∃ k, varNode.arraySize = k + 1 := ⟨varNode.arraySize - 1, by
      have := h.2.2.2; omega⟩
    have := highlightStructBuiltin_string varNode name h k 0 rs offset
    rw [← hk] at this
    rw [this]
  · exact highlightStructBuiltin_snd varNode name h _ 0 rs offset ho

theorem highlightStructBuiltin_region_offset (varNode : ASTNodeVariableDecl) (name : String)
    (k : Nat) :
    ∀ (i offset : Nat), offset < 2 ^ 64 →
      ∀ (j : Nat) (p : PatternData),
        (highlightStructBuiltin varNode name k i [] offset).1[j]? = some p →
          p.offset = u64 (offset + j * getTypeSize varNode.variableType) := by
  induction k with
  | zero => intro i offset _ j p hp; simp [highlightStructBuiltin] at hp
  | succ k ih =>
    intro i offset ho j p hp
    have emit : ∀ x : PatternData,
        (highlightStructBuiltin varNode name k (i + 1) (addPatternData [] x)
          (u64 (offset + u32 varNode.variableType >>> 4))).1[j]? = some p →
        x.offset = offset →
        p.offset = u64 (offset + j * getTypeSize varNode.variableType) := by
      intro x hp hx
      rw [highlightStructBuiltin_frame] at hp
      cases j with
      | zero =>
        simp [addPatternData] at hp
        rw [← hp, hx]; simp [u64_of_lt ho]
      | succ j =>
        simp [addPatternData] at hp
        rw [ih (i + 1) _ (u64_lt _) j p hp, u64_add_u64_left]
        unfold getTypeSize
        congr 1; ring
    simp only [highlightStructBuiltin] at hp
    split_ifs at hp with c1 c2 c3 c4 c5
    · exact emit _ hp rfl
    · exact emit _ hp rfl
    · cases j with
      | zero =>
        simp [addPatternData] at hp
        rw [← hp]; simp [PatternData.offset, u64_of_lt ho]
      | succ j => simp [addPatternData] at hp
    · exact emit _ hp rfl
    · exact emit _ hp rfl
    · exfalso
      have hnil : ∀ (k i : Nat) (rs : List PatternData) (offset : Nat),
          (highlightStructBuiltin varNode name k i rs offset).1 = rs := by
        intro k
        induction k with
        | zero => intro i rs offset; simp [highlightStructBuiltin]
        | succ k ih2 =>
          intro i rs offset
          simp only [highlightStructBuiltin, c1, c2, c5]
          simpa using ih2 _ _ _
      rw [hnil] at hp
      simp at hp

/-! ## Structs whose members are all built-in typed -/

theorem highlightStructMember_builtin (ast : List ASTNode) (name : String)
    (structCall : ASTNodeStruct → List PatternData → Nat → String →
      Option (List PatternData × Int))
    (usingCall : ASTNodeTypeDecl → ASTNodeVariableDecl → List PatternData → Nat → String →
      Option (List PatternData × Int))
    (varNode : ASTNodeVariableDecl) (rs : List PatternData) (offset : Nat)
    (hb : varNode.variableType ≠ CustomType) :
    highlightStructMember ast name structCall usingCall varNode rs offset =
      some (.next (rs ++ (highlightStructBuiltin varNode name varNode.arraySize 0 [] offset).1)
        (highlightStructBuiltin varNode name varNode.arraySize 0 [] offset).2) := by
  unfold highlightStructMember
  rw [highlightStructBuiltin_frame]
  simp [hb]

theorem totalWidth_cons (varNode : ASTNodeVariableDecl) (nodes : List ASTNodeVariableDecl) :
    totalWidth (varNode :: nodes) = memberWidth varNode + totalWidth nodes := by
  simp [totalWidth]

theorem structLoop_builtin (ast : List ASTNode) (name : String)
    (structCall : ASTNodeStruct → List PatternData → Nat → String →
      Option (List PatternData × Int))
    (usingCall : ASTNodeTypeDecl → ASTNodeVariableDecl → List PatternData → Nat → String →
      Option (List PatternData × Int))
    (nodes : List ASTNodeVariableDecl) :
    (∀ v ∈ nodes, v.variableType ≠ CustomType) →
    ∀ (rs : List PatternData) (offset : Nat), offset < 2 ^ 64 →
      structLoop (highlightStructMember ast name structCall usingCall) nodes rs offset =
        some (.next (rs ++ (builtinBlocks name nodes offset).flatten)
          (u64 (offset + totalWidth nodes))) := by
  induction nodes with
  | nil => intro _ rs offset ho; simp [structLoop, builtinBlocks, totalWidth, u64_of_lt ho]
  | cons v vs ih =>
    intro hb rs offset ho
    have hv : v.variableType ≠ CustomType := hb v (List.mem_cons_self _ _)
    have hvs : ∀ w ∈ vs, w.variableType ≠ CustomType :=
      fun w hw => hb w (List.mem_cons_of_mem _ hw)
    simp only [structLoop, highlightStructMember_builtin _ _ _ _ _ _ _ hv]
    rw [highlightStructBuiltin_offset _ _ _ _ ho, ih hvs _ _ (u64_lt _), u64_add_u64_left,
      totalWidth_cons]
    simp [builtinBlocks, highlightStructBuiltin_offset _ _ _ _ ho, memberWidth, Nat.add_assoc]

theorem builtinBlocks_length (name : String) (nodes : List ASTNodeVariableDecl) :
    ∀ offset : Nat, (builtinBlocks name nodes offset).length = nodes.length := by
  induction nodes with
  | nil => intro offset; rfl
  | cons v vs ih => intro offset; simp [builtinBlocks, ih]

theorem builtinBlocks_getElem (name : String) (nodes : List ASTNodeVariableDecl) :
    ∀ (offset : Nat), offset < 2 ^ 64 → ∀ (k : Nat) (v : ASTNodeVariableDecl)
      (b : List PatternData), nodes[k]? = some v →
      (builtinBlocks name nodes offset)[k]? = some b →
      b = (highlightStructBuiltin v name v.arraySize 0 []
        (u64 (offset + totalWidth (nodes.take k)))).1 := by
  induction nodes with
  | nil => intro offset _ k v b hv; simp at hv
  | cons w ws ih =>
    intro offset ho k v b hv hb
    cases k with
    | zero =>
      simp [builtinBlocks] at hv hb
      subst hv
      simp [totalWidth, u64_of_lt ho, hb]
    | succ k =>
      simp only [builtinBlocks, List.getElem?_cons_succ] at hv hb
      rw [highlightStructBuiltin_offset _ _ _ _ ho] at hb
      rw [ih _ (u64_lt _) k v b hv hb, u64_add_u64_left, List.take_succ_cons, totalWidth_cons,
        memberWidth, Nat.add_assoc]

theorem highlightStruct_builtin (fuel : Nat) (ast : List ASTNode) (s : ASTNodeStruct)
    (rs : List PatternData) (offset : Nat) (name : String)
    (hb : ∀ v ∈ s.nodes, v.variableType ≠ CustomType) (ho : offset < 2 ^ 64) :
    highlightStruct (fuel + 1) ast s rs offset name =
      some (rs ++ (builtinBlocks name s.nodes offset).flatten, s32 (u64 (totalWidth s.nodes))) := by
  simp only [highlightStruct, structLoop_builtin _ _ _ _ _ hb _ _ ho, u64sub_add]

theorem highlightStructBuiltin_length (varNode : ASTNodeVariableDecl) (name : String)
    (hs : ¬ isStringMember varNode)
    (hc : isUnsigned varNode.variableType = true ∨ isSigned varNode.variableType = true ∨
      isFloatingPoint varNode.variableType = true) (k : Nat) :
    ∀ (i offset : Nat),
      (highlightStructBuiltin varNode name k i [] offset).1.length = k := by
  induction k with
  | zero => intro i offset; simp [highlightStructBuiltin]
  | succ k ih =>
    intro i offset
    simp only [highlightStructBuiltin]
    split_ifs with c1 c2 c3 c4 c5
    · rw [highlightStructBuiltin_frame]; simp [addPatternData, ih]
    · rw [highlightStructBuiltin_frame]; simp [addPatternData, ih]
    · exfalso
      apply hs
      simp only [Bool.and_eq_true, beq_iff_eq, decide_eq_true_eq] at c4
      exact ⟨by simpa using c1, c2, c4.1, c4.2⟩
    · rw [highlightStructBuiltin_frame]; simp [addPatternData, ih]
    · rw [highlightStructBuiltin_frame]; simp [addPatternData, ih]
    · rcases hc with h | h | h <;> simp_all

/-- C1. For a struct whose members are all built-in typed, resolved at a `u64` offset `O` under
any name, `highlightStruct` appends one block of regions per member, in member order. The block of
member `k` is what the element loop emits when started at `O` plus the sum of
`baseWidth * arrayLength` over the members `0..k-1` (in `u64` arithmetic), and the region at
position `i` of that block lies at that start plus `i * baseWidth`; so the first region of a member
begins where the span of the member before it ends. A block holds one region when the member is a
text member, and one region per array element when the type is unsigned, signed or floating
point. -/
theorem highlightStruct_member_offsets (fuel : Nat) (ast : List ASTNode) (s : ASTNodeStruct)
    (rs : List PatternData) (O : Nat) (name : String)
    (hb : ∀ v ∈ s.nodes, v.variableType ≠ CustomType) (hO : O < 2 ^ 64) :
    ∃ (blocks : List (List PatternData)) (ret : Int),
      highlightStruct (fuel + 1) ast s rs O name = some (rs ++ blocks.flatten, ret) ∧
      blocks.length = s.nodes.length ∧
      ∀ (k : Nat) (v : ASTNodeVariableDecl) (b : List PatternData),
        s.nodes[k]? = some v → blocks[k]? = some b →
          b = (highlightStructBuiltin v name v.arraySize 0 []
                (u64 (O + totalWidth (s.nodes.take k)))).1 ∧
          (∀ (i : Nat) (p : PatternData), b[i]? = some p →
            p.offset = u64 (O + totalWidth (s.nodes.take k) + i * getTypeSize v.variableType)) ∧
          (isStringMember v → b.length = 1) ∧
          (¬ isStringMember v →
            (isUnsigned v.variableType = true ∨ isSigned v.variableType = true ∨
              isFloatingPoint v.variableType = true) → b.length = v.arraySize) := by
  refine ⟨builtinBlocks name s.nodes O, _, highlightStruct_builtin fuel ast s rs O name hb hO,
    builtinBlocks_length _ _ _, ?_⟩
  intro k v b hv hbk
  have hb1 := builtinBlocks_getElem name s.nodes O hO k v b hv hbk
  refine ⟨hb1, ?_, ?_, ?_⟩
  · intro i p hp
    rw [hb1] at hp
    rw [highlightStructBuiltin_region_offset v name _ 0 _ (u64_lt _) i p hp, u64_add_u64_left]
  · intro hs
    obtain ⟨n, hn⟩ : ∃ n, v.arraySize = n + 1 := ⟨v.arraySize - 1, by
      have := hs.2.2.2; omega⟩
    have h1 := highlightStructBuiltin_string v name hs n 0 []
      (u64 (O + totalWidth (s.nodes.take k)))
    rw [← hn] at h1
    rw [hb1, h1]; simp
  · intro hs hc
    rw [hb1]
    exact highlightStructBuiltin_length v name hs hc _ 0 _

/-- C1 at `struct S { u8 a; u16 b[2]; s8 c[3]; }`, resolved at offset 16 under the name `s`:
the members start at 16, 17 and 21. -/
theorem highlightStruct_member_offsets_witness :
    (∀ v ∈ sampleStruct.nodes, v.variableType ≠ CustomType) ∧ 16 < 2 ^ 64 ∧
    highlightStruct (0 + 1) [] sampleStruct [] 16 "s" =
      some ([.Unsigned 16 1 "s.a", .Unsigned 17 2 "s.b[0]", .Unsigned 19 2 "s.b[1]",
        .String 21 3 "s.c"], 8) ∧
    ∃ (blocks : List (List PatternData)) (ret : Int),
      highlightStruct (0 + 1) [] sampleStruct [] 16 "s" = some ([] ++ blocks.flatten, ret) ∧
      blocks.length = sampleStruct.nodes.length :=
  ⟨by decide, by decide, by rfl,
    (highlightStruct_member_offsets 0 [] sampleStruct [] 16 "s" (by decide) (by decide)).imp
      fun _ h => h.imp fun _ h => ⟨h.1, h.2.1⟩⟩

/-! ## The size handed back by `highlightStruct` -/

theorem highlightStruct_builtin_size (fuel : Nat) (ast : List ASTNode) (s : ASTNodeStruct)
    (rs : List PatternData) (offset : Nat) (name : String)
    (hb : ∀ v ∈ s.nodes, v.variableType ≠ CustomType) (ho : offset < 2 ^ 64)
    (hw : totalWidth s.nodes < 2 ^ 31) :
    ∃ rs1 ret, highlightStruct (fuel + 1) ast s rs offset name = some (rs1, ret) ∧
      sizeT ret ≠ sizeT (-1) ∧ sizeT ret = totalWidth s.nodes := by
  refine ⟨_, _, highlightStruct_builtin fuel ast s rs offset name hb ho, ?_, ?_⟩
  · rw [u64_of_lt (by omega), s32_of_lt hw, sizeT_natCast (by omega), sizeT_neg_one]
    omega
  · rw [u64_of_lt (by omega), s32_of_lt hw, sizeT_natCast (by omega)]

/-- C2, the code at the failing inputs. The struct `S { s8 a[4294967295]; }` has built-in typed
members only and total width `W = 2 ^ 32 - 1`; `highlightStruct` hands back `-1`, the value
that stands for failure, and the top level clears the list for `S s @ 0;`. The struct
`S { s8 a[2147483648]; }` has total width `W = 2 ^ 31`; the caller reads back
`2 ^ 64 - 2 ^ 31`. -/
theorem highlightStruct_size_truncated :
    (∀ v ∈ wideStruct.nodes, v.variableType ≠ CustomType) ∧
    totalWidth wideStruct.nodes = 2 ^ 32 - 1 ∧
    highlightStruct 1 [.Struct wideStruct] wideStruct [] 0 "s" =
      some ([.String 0 4294967295 "s.a"], -1) ∧
    evaluateVariable 1 [.Struct wideStruct] sampleVariable [] = some [] ∧
    (∀ v ∈ halfStruct.nodes, v.variableType ≠ CustomType) ∧
    totalWidth halfStruct.nodes = 2 ^ 31 ∧
    highlightStruct 1 [.Struct halfStruct] halfStruct [] 0 "s" =
      some ([.String 0 2147483648 "s.a"], -2147483648) ∧
    sizeT (-2147483648) = 2 ^ 64 - 2 ^ 31 := by
  refine ⟨by decide, by decide, by rfl, by rfl, by decide, by decide, by rfl, by decide⟩

/-! ## The top level -/

/-- C3, the code at the failing inputs. In `struct S { s8 a[4294967295]; } S s @ 0; u8 x @ 0;`
the resolution of `s` hands back the failure value and the list is cleared, but the loop goes on:
the region of the later declaration `x` is in the list at the end of the evaluation loop. The
same happens after the failing enum of `enum E : s8 {} E e @ 0; u8 x @ 1;`. -/
theorem parsePattern_continues_after_failure :
    highlightStruct 1 [.Struct wideStruct, .VariableDecl sampleVariable,
        .VariableDecl ⟨u8, "x", "", some 0, 1⟩] wideStruct [] 0 "s" =
      some ([.String 0 4294967295 "s.a"], -1) ∧
    parsePattern (stagesYielding [.Struct wideStruct, .VariableDecl sampleVariable,
        .VariableDecl ⟨u8, "x", "", some 0, 1⟩]) 1 "" [] = some [.Unsigned 0 1 "x"] ∧
    highlightEnum [.Enum ⟨"E", s8, []⟩, .VariableDecl ⟨CustomType, "e", "E", some 0, 1⟩,
        .VariableDecl ⟨u8, "x", "", some 1, 1⟩] ⟨"E", s8, []⟩ [] 0 "e" = ([], -1) ∧
    parsePattern (stagesYielding [.Enum ⟨"E", s8, []⟩,
        .VariableDecl ⟨CustomType, "e", "E", some 0, 1⟩,
        .VariableDecl ⟨u8, "x", "", some 1, 1⟩]) 1 "" [] = some [.Unsigned 1 1 "x"] := by
  refine ⟨by rfl, by rfl, by rfl, by rfl⟩

/-- C4, the code at the failing input. In `u8 x @ 0; Missing m @ 1;` no struct, enum or type
declaration is named `Missing`; the declaration `m` is passed over without a failure, and the
region of `x` is still in the list at the end of the evaluation loop. -/
theorem parsePattern_unknown_type_ignored :
    evaluateVariable 1 [.VariableDecl ⟨u8, "x", "", some 0, 1⟩,
        .VariableDecl ⟨CustomType, "m", "Missing", some 1, 1⟩]
      ⟨CustomType, "m", "Missing", some 1, 1⟩ [.Unsigned 0 1 "x"] = some [.Unsigned 0 1 "x"] ∧
    parsePattern (stagesYielding [.VariableDecl ⟨u8, "x", "", some 0, 1⟩,
        .VariableDecl ⟨CustomType, "m", "Missing", some 1, 1⟩]) 1 "" [] =
      some [.Unsigned 0 1 "x"] := by
  refine ⟨by rfl, by rfl⟩

/-- C5 as stated fails: with a failing preprocessor and the one region `x` in the list before
the call, the list after `parsePattern` is empty, not the list before the call. -/
theorem parsePattern_failure_clears_counterexample :
    (stagesFailing.preprocess "").1 = false ∧
    parsePattern stagesFailing 1 "" [.Unsigned 0 1 "x"] = some [] ∧
    parsePattern stagesFailing 1 "" [.Unsigned 0 1 "x"] ≠ some [.Unsigned 0 1 "x"] := by
  refine ⟨by rfl, by rfl, by decide⟩

/-- C5 as amended. Whenever the preprocessor, the lexer, the parser or the validator fails (each
stage reading the output of the one before it), `parsePattern` returns with an empty region
list, whatever the list held before the call: the list is cleared at the start of the call. -/
theorem parsePattern_failure_clears {Token : Type} (stages : Stages Token) (fuel : Nat)
    (buffer : String) (rs : List PatternData)
    (h : (stages.preprocess buffer).1 = false ∨
      (stages.lex (stages.preprocess buffer).2).1 = false ∨
      (stages.parse (stages.lex (stages.preprocess buffer).2).2).1 = false ∨
      stages.validate (stages.parse (stages.lex (stages.preprocess buffer).2).2).2 = false) :
    parsePattern stages fuel buffer rs = some [] := by
  unfold parsePattern clearPatternData
  rcases h with h | h | h | h
  · simp [h]
  · by_cases h1 : (stages.preprocess buffer).1 = true <;> simp [h, h1]
  · by_cases h1 : (stages.preprocess buffer).1 = true <;>
      by_cases h2 : (stages.lex (stages.preprocess buffer).2).1 = true <;> simp [h, h1, h2]
  · by_cases h1 : (stages.preprocess buffer).1 = true <;>
      by_cases h2 : (stages.lex (stages.preprocess buffer).2).1 = true <;>
      by_cases h3 : (stages.parse (stages.lex (stages.preprocess buffer).2).2).1 = true <;>
      simp [h, h1, h2, h3]

/-- C5 as amended, at a failing preprocessor and a list of one region. -/
theorem parsePattern_failure_clears_witness :
    (stagesFailing.preprocess "").1 = false ∧
    parsePattern stagesFailing 1 "" [.Unsigned 0 1 "x"] = some [] :=
  ⟨by rfl, parsePattern_failure_clears stagesFailing 1 "" [.Unsigned 0 1 "x"] (Or.inl (by rfl))⟩

/-! ## Enums -/

theorem getTypeSize_lt (type : Nat) : getTypeSize type < 2 ^ 28 := by
  unfold getTypeSize u32
  rw [Nat.shiftRight_eq_div_pow]
  omega

/-- C8. `highlightEnum` hands back the failure value, leaving the list as it was, exactly when
the underlying type is not unsigned or its byte width is above 8. In every other case it appends
the one region `Enum` with the given offset, the width as size, the given name, the name of the
enum and its values, and hands back the width. -/
theorem highlightEnum_spec (ast : List ASTNode) (e : ASTNodeEnum) (rs : List PatternData)
    (offset : Nat) (name : String) :
    ((highlightEnum ast e rs offset name).2 = -1 ↔
      (isUnsigned e.underlyingType = false ∨ 8 < getTypeSize e.underlyingType)) ∧
    ((isUnsigned e.underlyingType = false ∨ 8 < getTypeSize e.underlyingType) →
      highlightEnum ast e rs offset name = (rs, -1)) ∧
    (¬ (isUnsigned e.underlyingType = false ∨ 8 < getTypeSize e.underlyingType) →
      highlightEnum ast e rs offset name =
        (rs ++ [.Enum offset (getTypeSize e.underlyingType) name e.name e.values],
          (getTypeSize e.underlyingType : Int))) := by
  have hlt := getTypeSize_lt e.underlyingType
  have hs : s32 (u32 e.underlyingType >>> 4) = (getTypeSize e.underlyingType : Int) :=
    s32_of_lt (by unfold getTypeSize at hlt; omega)
  have hfail : (isUnsigned e.underlyingType = false ∨ 8 < getTypeSize e.underlyingType) →
      highlightEnum ast e rs offset name = (rs, -1) := by
    intro h
    unfold highlightEnum
    rcases h with h | h
    · simp [h]
    · by_cases hu : isUnsigned e.underlyingType = true
      · have : (8 : Int) < (getTypeSize e.underlyingType : Int) := by exact_mod_cast h
        simp [hu, hs, this]
      · simp [hu]
  have hok : ¬ (isUnsigned e.underlyingType = false ∨ 8 < getTypeSize e.underlyingType) →
      highlightEnum ast e rs offset name =
        (rs ++ [.Enum offset (getTypeSize e.underlyingType) name e.name e.values],
          (getTypeSize e.underlyingType : Int)) := by
    intro h
    have hu : isUnsigned e.underlyingType = true := by
      cases hc : isUnsigned e.underlyingType
      · exact absurd (Or.inl hc) h
      · rfl
    have hle : getTypeSize e.underlyingType ≤ 8 := by
      by_contra hc
      exact h (Or.inr (by omega))
    have : ¬ (8 : Int) < (getTypeSize e.underlyingType : Int) := by
      have : (getTypeSize e.underlyingType : Int) ≤ 8 := by exact_mod_cast hle
      omega
    unfold highlightEnum
    simp only [hu, hs, addPatternData, sizeT_natCast (show getTypeSize e.underlyingType < 2 ^ 64
      by omega)]
    simp [this]
  refine ⟨⟨?_, fun h => by rw [hfail h]⟩, hfail, hok⟩
  intro h
  by_contra hc
  rw [hok hc] at h
  simp only at h
  omega

/-! ## The character and string policy -/

theorem isUnsigned_of_isSigned {type : Nat} (h : isSigned type = true) :
    isUnsigned type = false := by
  unfold isSigned at h
  unfold isUnsigned
  simp only [beq_iff_eq] at h
  simp [h]

theorem isUnsigned_of_isFloatingPoint {type : Nat} (h : isFloatingPoint type = true) :
    isUnsigned type = false := by
  unfold isFloatingPoint at h
  unfold isUnsigned
  simp only [beq_iff_eq] at h
  simp [h]

theorem isSigned_of_isFloatingPoint {type : Nat} (h : isFloatingPoint type = true) :
    isSigned type = false := by
  unfold isFloatingPoint at h
  unfold isSigned
  simp only [beq_iff_eq] at h
  simp [h]

theorem ne_CustomType_of_isSigned {type : Nat} (h : isSigned type = true) :
    type ≠ CustomType := by
  intro hc
  rw [hc] at h
  exact absurd h (by decide)

/-- C9. For a struct member of a signed built-in type of width one, reached by the member loop
with the list `rs` and the running offset `O`: when the array length is 1 the loop appends the one
region `Character` of size 1 at `O`, and when the array length is `N > 1` it appends the one region
`String` at `O` of size `N`, named without an index; in both cases the loop goes on with the next
member at `O + N` (in `u64` arithmetic). -/
theorem highlightStructMember_text (ast : List ASTNode) (name : String)
    (structCall : ASTNodeStruct → List PatternData → Nat → String →
      Option (List PatternData × Int))
    (usingCall : ASTNodeTypeDecl → ASTNodeVariableDecl → List PatternData → Nat → String →
      Option (List PatternData × Int))
    (v : ASTNodeVariableDecl) (rs : List PatternData) (O : Nat)
    (hs : isSigned v.variableType = true) (hw : getTypeSize v.variableType = 1)
    (hN : v.arraySize < 2 ^ 64) :
    (v.arraySize = 1 →
      highlightStructMember ast name structCall usingCall v rs O =
        some (.next (rs ++ [.Character O 1 (name ++ "." ++ v.variableName)]) (u64 (O + 1))) ∧
      ∀ nodes : List ASTNodeVariableDecl,
        structLoop (highlightStructMember ast name structCall usingCall) (v :: nodes) rs O =
          structLoop (highlightStructMember ast name structCall usingCall) nodes
            (rs ++ [.Character O 1 (name ++ "." ++ v.variableName)]) (u64 (O + 1))) ∧
    (1 < v.arraySize →
      highlightStructMember ast name structCall usingCall v rs O =
        some (.next (rs ++ [.String O v.arraySize (name ++ "." ++ v.variableName)])
          (u64 (O + v.arraySize))) ∧
      ∀ nodes : List ASTNodeVariableDecl,
        structLoop (highlightStructMember ast name structCall usingCall) (v :: nodes) rs O =
          structLoop (highlightStructMember ast name structCall usingCall) nodes
            (rs ++ [.String O v.arraySize (name ++ "." ++ v.variableName)])
            (u64 (O + v.arraySize))) := by
  have hu := isUnsigned_of_isSigned hs
  have hb := ne_CustomType_of_isSigned hs
  have hw2 : u32 v.variableType >>> 4 = 1 := hw
  constructor
  · intro h1
    have hm : highlightStructMember ast name structCall usingCall v rs O =
        some (.next (rs ++ [.Character O 1 (name ++ "." ++ v.variableName)])
          (u64 (O + 1))) := by
      rw [highlightStructMember_builtin _ _ _ _ _ _ _ hb, h1]
      simp [highlightStructBuiltin, hu, hs, hw, hw2, h1, addPatternData, memberName]
    exact ⟨hm, fun nodes => by simp only [structLoop, hm]⟩
  · intro h1
    have hm : highlightStructMember ast name structCall usingCall v rs O =
        some (.next (rs ++ [.String O v.arraySize (name ++ "." ++ v.variableName)])
          (u64 (O + v.arraySize))) := by
      obtain ⟨n, hn⟩ : ∃ n, v.arraySize = n + 1 := ⟨v.arraySize - 1, by omega⟩
      have h2 := highlightStructBuiltin_string v name ⟨hu, hs, hw, h1⟩ n 0 [] O
      rw [← hn] at h2
      rw [highlightStructMember_builtin _ _ _ _ _ _ _ hb, h2, hw, Nat.one_mul, u64_of_lt hN]
      simp
    exact ⟨hm, fun nodes => by simp only [structLoop, hm]⟩

/-- C9 at the members `s8 c;` and `s8 c[3];` of a struct resolved under the name `s`, reached at
offset 7. -/
theorem highlightStructMember_text_witness :
    (highlightStructMember [] "s" (highlightStruct 0 []) (highlightUsingDecls 0 [])
        ⟨s8, "c", "", none, 1⟩ [] 7 = some (.next [.Character 7 1 "s.c"] 8)) ∧
    (highlightStructMember [] "s" (highlightStruct 0 []) (highlightUsingDecls 0 [])
        ⟨s8, "c", "", none, 3⟩ [] 7 = some (.next [.String 7 3 "s.c"] 10)) :=
  ⟨((highlightStructMember_text [] "s" (highlightStruct 0 []) (highlightUsingDecls 0 [])
      ⟨s8, "c", "", none, 1⟩ [] 7 (by decide) (by decide) (by decide)).1 rfl).1,
    ((highlightStructMember_text [] "s" (highlightStruct 0 []) (highlightUsingDecls 0 [])
      ⟨s8, "c", "", none, 3⟩ [] 7 (by decide) (by decide) (by decide)).2 (by decide)).1⟩

/-! ## Built-in typed declarations at the top level -/

/-- C10. For a top-level variable declaration with the fixed offset `O`, a built-in type of
width `w` and array length `N`, the evaluation appends exactly one region, at `O`, of size `w * N`
(the product taken in `size_t`), named after the variable: `Unsigned` for an unsigned type,
`Character` for a signed type of width one with `N = 1`, `String` for a signed type of width one
with `N > 1`, `Signed` for any other signed type, `Float` for a floating point type. -/
theorem evaluateVariable_builtin (fuel : Nat) (ast : List ASTNode) (v : ASTNodeVariableDecl)
    (rs : List PatternData) (O : Nat) (ho : v.offset = some O)
    (hb : v.variableType ≠ CustomType) :
    (isUnsigned v.variableType = true →
      evaluateVariable fuel ast v rs = some (rs ++
        [.Unsigned O (u64 (getTypeSize v.variableType * v.arraySize)) v.variableName])) ∧
    (isSigned v.variableType = true → getTypeSize v.variableType = 1 → v.arraySize = 1 →
      evaluateVariable fuel ast v rs = some (rs ++
        [.Character O (u64 (getTypeSize v.variableType * v.arraySize)) v.variableName])) ∧
    (isSigned v.variableType = true → getTypeSize v.variableType = 1 → 1 < v.arraySize →
      evaluateVariable fuel ast v rs = some (rs ++
        [.String O (u64 (getTypeSize v.variableType * v.arraySize)) v.variableName])) ∧
    (isSigned v.variableType = true → getTypeSize v.variableType ≠ 1 →
      evaluateVariable fuel ast v rs = some (rs ++
        [.Signed O (u64 (getTypeSize v.variableType * v.arraySize)) v.variableName])) ∧
    (isFloatingPoint v.variableType = true →
      evaluateVariable fuel ast v rs = some (rs ++
        [.Float O (u64 (getTypeSize v.variableType * v.arraySize)) v.variableName])) := by
  refine ⟨?_, ?_, ?_, ?_, ?_⟩
  · intro hu
    simp [evaluateVariable, ho, hb, hu, addPatternData]
  · intro hs hw hn
    simp [evaluateVariable, ho, hb, isUnsigned_of_isSigned hs, hs, hw, hn, addPatternData]
  · intro hs hw hn
    have : v.arraySize ≠ 1 := by omega
    simp [evaluateVariable, ho, hb, isUnsigned_of_isSigned hs, hs, hw, hn, this, addPatternData]
  · intro hs hw
    simp [evaluateVariable, ho, hb, isUnsigned_of_isSigned hs, hs, hw, addPatternData]
  · intro hf
    simp [evaluateVariable, ho, hb, isUnsigned_of_isFloatingPoint hf,
      isSigned_of_isFloatingPoint hf, hf, addPatternData]

/-- C10 at the declaration `u16 v[3] @ 0x20;`. -/
theorem evaluateVariable_builtin_witness :
    evaluateVariable 0 [] ⟨u16, "v", "", some 0x20, 3⟩ [] = some [.Unsigned 0x20 6 "v"] :=
  (evaluateVariable_builtin 0 [] ⟨u16, "v", "", some 0x20, 3⟩ [] 0x20 rfl (by decide)).1
    (by decide)

/-! ## The element loop of `parsePattern` -/

/-- For an array size of `2 ^ 32` or more the element loop of `parsePattern` has not ended after
any number of iterations: its `u32` counter stays below the size. -/
theorem topLevelCounterLoop_no_end
    (call : List PatternData → Nat → Option (List PatternData × Int)) (arraySize : Nat)
    (h : 2 ^ 32 ≤ arraySize) (steps : Nat) :
    ∀ (i : Nat) (rs : List PatternData) (offset : Nat), i < 2 ^ 32 →
      topLevelCounterLoop call arraySize steps i rs offset = none := by
  induction steps with
  | zero =>
    intro i rs offset hi
    have : i < arraySize := by omega
    simp [topLevelCounterLoop, this]
  | succ steps ih =>
    intro i rs offset hi
    have hlt : i < arraySize := by omega
    have hu : u32 (i + 1) < 2 ^ 32 := Nat.mod_lt _ (by norm_num)
    rw [topLevelCounterLoop]
    simp only [hlt, if_true]
    cases call rs offset with
    | none => rfl
    | some res =>
      obtain ⟨rs1, r⟩ := res
      dsimp only
      split_ifs
      · exact ih _ _ _ hu
      · exact ih _ _ _ hu

/-- Below `2 ^ 32` the element loop depends on the number of elements that are left only, as
soon as it is given that many iterations. -/
theorem topLevelCounterLoop_left
    (call : List PatternData → Nat → Option (List PatternData × Int)) (d : Nat) :
    ∀ (arraySize steps i : Nat) (rs : List PatternData) (offset : Nat),
      arraySize < 2 ^ 32 → i + d = arraySize → d ≤ steps →
      topLevelCounterLoop call arraySize steps i rs offset =
        topLevelCounterLoop call d d 0 rs offset := by
  induction d with
  | zero =>
    intro arraySize steps i rs offset _ hi _
    have : ¬ i < arraySize := by omega
    cases steps <;> simp [topLevelCounterLoop, this]
  | succ d ih =>
    intro arraySize steps i rs offset hN hi hs
    obtain ⟨s, rfl⟩ : ∃ s, steps = s + 1 := ⟨steps - 1, by omega⟩
    have hlt : i < arraySize := by omega
    have hu : u32 (i + 1) = i + 1 := Nat.mod_eq_of_lt (by omega)
    have hu1 : u32 (0 + 1) = 1 := by decide
    rw [topLevelCounterLoop, topLevelCounterLoop]
    simp only [hlt, Nat.zero_lt_succ, if_true, hu, hu1]
    cases call rs offset with
    | none => rfl
    | some res =>
      obtain ⟨rs1, r⟩ := res
      dsimp only
      split_ifs
      · rw [ih arraySize s (i + 1) _ _ hN (by omega) (by omega),
          ih (d + 1) d 1 _ _ (by omega) (by omega) (le_refl _)]
      · rw [ih arraySize s (i + 1) _ _ hN (by omega) (by omega),
          ih (d + 1) d 1 _ _ (by omega) (by omega) (le_refl _)]

theorem topLevelArrayLoop_wide
    (call : List PatternData → Nat → Option (List PatternData × Int)) (arraySize : Nat)
    (h : 2 ^ 32 ≤ arraySize) (rs : List PatternData) (offset : Nat) :
    topLevelArrayLoop call arraySize rs offset = none := by
  have : ¬ arraySize < 4294967296 := by omega
  simp [topLevelArrayLoop, this]

theorem topLevelArrayLoop_zero
    (call : List PatternData → Nat → Option (List PatternData × Int))
    (rs : List PatternData) (offset : Nat) :
    topLevelArrayLoop call 0 rs offset = some (rs, offset) := by
  simp [topLevelArrayLoop, topLevelCounterLoop]

/-- Below `2 ^ 32` the element loop runs its body once for every element. -/
theorem topLevelArrayLoop_succ
    (call : List PatternData → Nat → Option (List PatternData × Int)) (k : Nat)
    (hk : k + 1 < 2 ^ 32) (rs : List PatternData) (offset : Nat) :
    topLevelArrayLoop call (k + 1) rs offset =
      match call rs offset with
      | none => none
      | some (rs1, r) =>
        if sizeT r == sizeT (-1) then topLevelArrayLoop call k (clearPatternData rs1) offset
        else topLevelArrayLoop call k rs1 (u64 (offset + sizeT r)) := by
  have h1 : ∀ rs1 offset1, topLevelCounterLoop call (k + 1) k 1 rs1 offset1 =
      topLevelCounterLoop call k k 0 rs1 offset1 := fun rs1 offset1 =>
    topLevelCounterLoop_left call k (k + 1) k 1 rs1 offset1 hk (by omega) (le_refl _)
  have hu1 : u32 (0 + 1) = 1 := by decide
  have hk1 : k + 1 < 4294967296 := by omega
  have hk0 : k < 4294967296 := by omega
  unfold topLevelArrayLoop
  rw [if_pos hk1, topLevelCounterLoop]
  simp only [Nat.zero_lt_succ, if_true, hu1, h1, hk0]

/-- The element loop from its start is the loop with the `u32` counter, given any number of
iterations that lets it end; for an array size of `2 ^ 32` or more no number does. -/
theorem topLevelArrayLoop_counter
    (call : List PatternData → Nat → Option (List PatternData × Int)) (arraySize : Nat)
    (rs : List PatternData) (offset : Nat) :
    (arraySize < 2 ^ 32 → ∀ steps, arraySize ≤ steps →
      topLevelCounterLoop call arraySize steps 0 rs offset =
        topLevelArrayLoop call arraySize rs offset) ∧
    (2 ^ 32 ≤ arraySize →
      (∀ steps, topLevelCounterLoop call arraySize steps 0 rs offset = none) ∧
        topLevelArrayLoop call arraySize rs offset = none) := by
  constructor
  · intro h steps hs
    have h1 : arraySize < 4294967296 := by omega
    rw [topLevelArrayLoop, if_pos h1,
      topLevelCounterLoop_left call arraySize arraySize steps 0 rs offset h (by omega) hs,
      topLevelCounterLoop_left call arraySize arraySize arraySize 0 rs offset h (by omega)
        (le_refl _)]
  · intro h
    exact ⟨fun steps => topLevelCounterLoop_no_end call arraySize h steps 0 rs offset
      (by norm_num), topLevelArrayLoop_wide call arraySize h rs offset⟩

/-! ## The lookup loops -/

theorem lookupLoop_none {α : Type} (nodes : List α) (isNamed : α → Bool) (arraySize : Nat)
    (call : α → Nat → List PatternData → Nat → Option (List PatternData × Int))
    (rs : List PatternData) (offset : Nat) (foundType : Bool)
    (h : nodes.find? isNamed = none) :
    lookupLoop nodes isNamed arraySize call rs offset foundType =
      some (.next rs offset, foundType) := by
  simp [lookupLoop, h]

theorem lookupLoop_some {α : Type} (nodes : List α) (isNamed : α → Bool) (arraySize : Nat)
    (call : α → Nat → List PatternData → Nat → Option (List PatternData × Int))
    (rs : List PatternData) (offset : Nat) (foundType : Bool) (node : α)
    (h : nodes.find? isNamed = some node) :
    lookupLoop nodes isNamed arraySize call rs offset foundType =
      (arrayLoop (call node) arraySize 0 rs offset).map fun flow => (flow, true) := by
  simp only [lookupLoop, h]
  cases arrayLoop (call node) arraySize 0 rs offset <;> rfl

theorem arrayLoop_one (call : Nat → List PatternData → Nat → Option (List PatternData × Int))
    (rs rs1 : List PatternData) (offset : Nat) (r : Int) (h : call 0 rs offset = some (rs1, r))
    (hr : sizeT r ≠ sizeT (-1)) :
    arrayLoop call 1 0 rs offset = some (.next rs1 (u64 (offset + sizeT r))) := by
  simp [arrayLoop, h, hr]

theorem topLevelLookup_none {α : Type} (isNamed : α → Bool) (arraySize : Nat)
    (call : α → List PatternData → Nat → Option (List PatternData × Int)) (nodes : List α)
    (rs : List PatternData) (offset : Nat) (h : ∀ n ∈ nodes, isNamed n = false) :
    topLevelLookup isNamed arraySize call nodes rs offset = some (rs, offset) := by
  induction nodes with
  | nil => rfl
  | cons n ns ih =>
    simp only [topLevelLookup, h n (List.mem_cons_self _ _)]
    exact ih fun m hm => h m (List.mem_cons_of_mem _ hm)

theorem topLevelLookup_filter {α : Type} (isNamed : α → Bool) (arraySize : Nat)
    (call : α → List PatternData → Nat → Option (List PatternData × Int)) (nodes : List α) :
    ∀ (rs : List PatternData) (offset : Nat),
      topLevelLookup isNamed arraySize call nodes rs offset =
        topLevelLookup (fun _ => true) arraySize call (nodes.filter isNamed) rs offset := by
  induction nodes with
  | nil => intro rs offset; rfl
  | cons n ns ih =>
    intro rs offset
    by_cases hn : isNamed n = true
    · simp only [topLevelLookup, hn, List.filter_cons_of_pos, if_true]
      cases topLevelArrayLoop (call n) arraySize rs offset with
      | none => rfl
      | some r => exact ih _ _
    · simp only [Bool.not_eq_true] at hn
      simp only [topLevelLookup, hn, List.filter_cons, Bool.false_eq_true, if_false]
      exact ih _ _

theorem topLevelLookup_single {α : Type} (isNamed : α → Bool)
    (call : α → List PatternData → Nat → Option (List PatternData × Int)) (nodes : List α)
    (node : α) (rs rs1 : List PatternData) (offset : Nat) (r : Int)
    (h : nodes.filter isNamed = [node]) (hc : call node rs offset = some (rs1, r))
    (hr : sizeT r ≠ sizeT (-1)) :
    topLevelLookup isNamed 1 call nodes rs offset = some (rs1, u64 (offset + sizeT r)) := by
  rw [topLevelLookup_filter, h]
  simp [topLevelLookup, topLevelArrayLoop_succ _ 0 (by norm_num), topLevelArrayLoop_zero, hc, hr]

theorem sizeT_getTypeSize (type : Nat) :
    sizeT (getTypeSize type : Int) = getTypeSize type ∧
      sizeT (getTypeSize type : Int) ≠ sizeT (-1) := by
  have h := getTypeSize_lt type
  rw [sizeT_natCast (by omega), sizeT_neg_one]
  exact ⟨rfl, by omega⟩

/-! ## Type declarations that name a built-in type -/

/-- The region `highlightUsingDecls` emits for a type declaration that names the built-in type
`type` (lines 219-224). -/
theorem highlightUsingDecls_builtin (fuel : Nat) (ast : List ASTNode) (a : ASTNodeTypeDecl)
    (v : ASTNodeVariableDecl) (rs : List PatternData) (offset : Nat) (name : String)
    (hb : a.assignedType ≠ CustomType) :
    highlightUsingDecls (fuel + 1) ast a v rs offset name =
      some (
        (if isUnsigned a.assignedType then
          rs ++ [.Unsigned offset (getTypeSize a.assignedType) name]
        else if isSigned a.assignedType then
          rs ++ [.Signed offset (getTypeSize a.assignedType) name]
        else if isFloatingPoint a.assignedType then
          rs ++ [.Float offset (getTypeSize a.assignedType) name]
        else rs), (getTypeSize a.assignedType : Int)) := by
  have h := getTypeSize_lt a.assignedType
  have hs : s32 (u64sub (u64 (offset + u32 a.assignedType >>> 4)) offset) =
      (getTypeSize a.assignedType : Int) := by
    rw [u64sub_add, u64_of_lt (by unfold getTypeSize at h; omega)]
    exact s32_of_lt (by unfold getTypeSize at h; omega)
  simp only [highlightUsingDecls, hs, addPatternData]
  simp [hb, getTypeSize]

theorem find?_eq_none_of_ne {α : Type} (nodes : List α) (getName : α → String)
    (typeName : String) (h : ∀ n ∈ nodes, getName n ≠ typeName) :
    nodes.find? (fun n => getName n == typeName) = none := by
  rw [List.find?_eq_none]
  intro n hn
  simpa using h n hn

theorem find?_of_filter_eq_singleton {α : Type} (nodes : List α) (p : α → Bool) (a : α)
    (h : nodes.filter p = [a]) : nodes.find? p = some a := by
  induction nodes with
  | nil => simp at h
  | cons n ns ih =>
    by_cases hn : p n = true
    · rw [List.filter_cons_of_pos hn] at h
      rw [List.find?_cons_of_pos _ hn]
      exact congrArg some (List.cons.inj h).1
    · rw [List.filter_cons_of_neg hn] at h
      rw [List.find?_cons_of_neg _ hn]
      exact ih h

theorem filter_beq_comm {α : Type} (nodes : List α) (getName : α → String)
    (typeName : String) :
    nodes.filter (fun n => typeName == getName n) =
      nodes.filter (fun n => getName n == typeName) := by
  congr 1
  funext n
  exact BEq.comm

/-- A type declaration that leads to the built-in type `T` directly or through one more type
declaration, resolved for a declaration of array length one: the region of `T` and its width. -/
theorem highlightUsingDecls_chain (fuel : Nat) (ast : List ASTNode) (v : ASTNodeVariableDecl)
    (T : Nat) (a b : ASTNodeTypeDecl) (hN : v.arraySize = 1) (hT : T ≠ CustomType)
    (hchain : a.assignedType = T ∨ (a.assignedType = CustomType ∧
      namesOnlyTypeDecl ast a.assignedCustomTypeName b ∧ b.assignedType = T))
    (rs : List PatternData) (offset : Nat) (name : String) :
    highlightUsingDecls (fuel + 2) ast a v rs offset name =
      some (
        (if isUnsigned T then rs ++ [.Unsigned offset (getTypeSize T) name]
        else if isSigned T then rs ++ [.Signed offset (getTypeSize T) name]
        else if isFloatingPoint T then rs ++ [.Float offset (getTypeSize T) name]
        else rs), (getTypeSize T : Int)) := by
  rcases hchain with h | ⟨h1, ⟨hS, hE, hA⟩, h3⟩
  · subst h
    exact highlightUsingDecls_builtin (fuel + 1) ast a v rs offset name hT
  · subst h3
    have hcall := highlightUsingDecls_builtin fuel ast b v rs offset name hT
    have hsz := sizeT_getTypeSize b.assignedType
    have hlt := getTypeSize_lt b.assignedType
    have hs : s32 (u64sub (u64 (offset + getTypeSize b.assignedType)) offset) =
        (getTypeSize b.assignedType : Int) := by
      rw [u64sub_add, u64_of_lt (by omega)]
      exact s32_of_lt (by omega)
    have hfS : (findNodes ASTNode.asStruct ast).find?
        (fun n => n.name == a.assignedCustomTypeName) = none :=
      find?_eq_none_of_ne _ ASTNodeStruct.name _ hS
    have hfE : (findNodes ASTNode.asEnum ast).find?
        (fun n => n.name == a.assignedCustomTypeName) = none :=
      find?_eq_none_of_ne _ ASTNodeEnum.name _ hE
    have hfA := find?_of_filter_eq_singleton _ _ _ hA
    rw [highlightUsingDecls]
    have hne : getTypeSize b.assignedType ≠ sizeT (-1) := by
      rw [sizeT_neg_one]; omega
    simp only [h1, bne_self_eq_false, Bool.false_eq_true, if_false, resolveCustom, lookupLoop,
      hfS, hfE, hfA, hN, arrayLoop, hcall, hsz.1, beq_iff_eq, if_neg hne, Bool.not_true, hs]

theorem structLoop_congr (f : ASTNodeVariableDecl → List PatternData → Nat → Option Flow)
    (x y : ASTNodeVariableDecl) (h : ∀ rs offset, f x rs offset = f y rs offset)
    (pre post : List ASTNodeVariableDecl) :
    ∀ (rs : List PatternData) (offset : Nat),
      structLoop f (pre ++ x :: post) rs offset = structLoop f (pre ++ y :: post) rs offset := by
  induction pre with
  | nil => intro rs offset; simp only [List.nil_append, structLoop, h]
  | cons p ps ih =>
    intro rs offset
    simp only [List.cons_append, structLoop]
    cases f p rs offset with
    | none => rfl
    | some flow =>
      cases flow with
      | failed rs1 => rfl
      | next rs1 offset1 => exact ih rs1 offset1

theorem highlightStruct_succ (fuel : Nat) (ast : List ASTNode) (s : ASTNodeStruct)
    (rs : List PatternData) (offset : Nat) (name : String) :
    highlightStruct (fuel + 1) ast s rs offset name =
      match structLoop
          (highlightStructMember ast name (highlightStruct fuel ast)
            (highlightUsingDecls fuel ast))
          s.nodes rs offset with
      | none => none
      | some (.failed rs1) => some (rs1, -1)
      | some (.next rs1 offset1) => some (rs1, s32 (u64sub offset1 offset)) := by
  rw [highlightStruct]

/-- The element loop around a type declaration that names the built-in type `T` directly, other
than a signed type of width one, lays out what the element loop of a member of type `T` lays
out. -/
theorem arrayLoop_alias_builtin (fuel : Nat) (ast : List ASTNode) (a : ASTNodeTypeDecl)
    (v : ASTNodeVariableDecl) (name : String) (hb : a.assignedType ≠ CustomType)
    (hchar : ¬ (isSigned a.assignedType = true ∧ getTypeSize a.assignedType = 1)) (k : Nat) :
    ∀ (i : Nat) (rs : List PatternData) (offset : Nat),
      arrayLoop
          (fun i rs0 offset0 =>
            highlightUsingDecls (fuel + 1) ast a v rs0 offset0 (memberName v name i))
          k i rs offset =
        some (.next
          (highlightStructBuiltin { v with variableType := a.assignedType } name k i rs offset).1
          (highlightStructBuiltin { v with variableType := a.assignedType } name k i rs
            offset).2) := by
  induction k with
  | zero => intro i rs offset; rfl
  | succ k ih =>
    intro i rs offset
    have hsz := sizeT_getTypeSize a.assignedType
    have hne : getTypeSize a.assignedType ≠ sizeT (-1) := by rw [← hsz.1]; exact hsz.2
    have hw : u32 a.assignedType >>> 4 = getTypeSize a.assignedType := rfl
    have hname : memberName { v with variableType := a.assignedType } name i =
        memberName v name i := rfl
    rw [arrayLoop]
    dsimp only
    rw [highlightUsingDecls_builtin fuel ast a v _ _ _ hb]
    simp only [hsz.1, beq_iff_eq, if_neg hne]
    rw [ih, highlightStructBuiltin]
    simp only [hw, hname, addPatternData]
    by_cases c1 : isUnsigned a.assignedType = true
    · simp [c1]
    · by_cases c2 : isSigned a.assignedType = true
      · have c3 : getTypeSize a.assignedType ≠ 1 := fun h => hchar ⟨c2, h⟩
        simp [c1, c2, c3]
      · by_cases c3 : isFloatingPoint a.assignedType = true <;> simp [c1, c2, c3]

/-- C7 as amended. Let `T` be a built-in type other than a signed type of width one, and `v` a
declaration whose type name names the type declaration `a` and nothing else. When `v` has array
length 1 and `a` names `T` directly or names a type declaration `b` (and nothing else) that
names `T`, `v` produces exactly the list of regions of the same declaration written with `T`
directly, as a top-level declaration and as a member of a struct. When `a` names `T` directly,
`v` as a member of a struct produces the regions of the member written with `T` for every array
length. -/
theorem alias_transparent (fuel : Nat) (ast : List ASTNode) (v : ASTNodeVariableDecl)
    (T : Nat) (a b : ASTNodeTypeDecl)
    (hv : v.variableType = CustomType) (hT : T ≠ CustomType)
    (hchar : ¬ (isSigned T = true ∧ getTypeSize T = 1))
    (ha : namesOnlyTypeDecl ast v.customVariableTypeName a) :
    (v.arraySize = 1 →
      (a.assignedType = T ∨ (a.assignedType = CustomType ∧
        namesOnlyTypeDecl ast a.assignedCustomTypeName b ∧ b.assignedType = T)) →
      (∀ rs : List PatternData,
        evaluateVariable (fuel + 2) ast v rs =
          evaluateVariable (fuel + 2) ast { v with variableType := T } rs) ∧
      (∀ (structName : String) (pre post : List ASTNodeVariableDecl) (rs : List PatternData)
          (offset : Nat) (name : String),
        highlightStruct (fuel + 3) ast ⟨structName, pre ++ v :: post⟩ rs offset name =
          highlightStruct (fuel + 3) ast
            ⟨structName, pre ++ { v with variableType := T } :: post⟩ rs offset name)) ∧
    (a.assignedType = T →
      ∀ (structName : String) (pre post : List ASTNodeVariableDecl) (rs : List PatternData)
        (offset : Nat) (name : String),
      highlightStruct (fuel + 2) ast ⟨structName, pre ++ v :: post⟩ rs offset name =
        highlightStruct (fuel + 2) ast
          ⟨structName, pre ++ { v with variableType := T } :: post⟩ rs offset name) := by
  obtain ⟨hS, hE, hA⟩ := ha
  have hsz := sizeT_getTypeSize T
  have hlt := getTypeSize_lt T
  have hw : u32 T >>> 4 = getTypeSize T := rfl
  have hfS : (findNodes ASTNode.asStruct ast).find?
      (fun n => n.name == v.customVariableTypeName) = none :=
    find?_eq_none_of_ne _ ASTNodeStruct.name _ hS
  have hfE : (findNodes ASTNode.asEnum ast).find?
      (fun n => n.name == v.customVariableTypeName) = none :=
    find?_eq_none_of_ne _ ASTNodeEnum.name _ hE
  have hfA := find?_of_filter_eq_singleton _ _ _ hA
  refine ⟨fun hN hchain => ⟨?_, ?_⟩, ?_⟩
  · intro rs
    cases ho : v.offset with
    | none => simp [evaluateVariable, ho]
    | some O =>
      have hcall := highlightUsingDecls_chain fuel ast v T a b hN hT hchain rs O
        (topLevelName v)
      have hname : topLevelName v = v.variableName := by simp [topLevelName, hN]
      have h1 : topLevelLookup (fun n => v.customVariableTypeName == n.name) v.arraySize
          (fun structNode rs1 offset1 =>
            highlightStruct (fuel + 2) ast structNode rs1 offset1 (topLevelName v))
          (findNodes ASTNode.asStruct ast) rs O = some (rs, O) :=
        topLevelLookup_none _ _ _ _ _ _ fun n hn => by
          simpa using fun h => hS n hn h.symm
      have h2 : topLevelLookup (fun n => v.customVariableTypeName == n.name) v.arraySize
          (fun enumNode rs2 offset2 =>
            some (highlightEnum ast enumNode rs2 offset2 (topLevelName v)))
          (findNodes ASTNode.asEnum ast) rs O = some (rs, O) :=
        topLevelLookup_none _ _ _ _ _ _ fun n hn => by
          simpa using fun h => hE n hn h.symm
      have hA2 : (findNodes ASTNode.asTypeDecl ast).filter
          (fun n => v.customVariableTypeName == n.typeName) = [a] := by
        rw [filter_beq_comm _ ASTNodeTypeDecl.typeName]; exact hA
      have h3 := topLevelLookup_single (fun n => v.customVariableTypeName == n.typeName)
          (fun usingNode rs3 offset3 =>
            highlightUsingDecls (fuel + 2) ast usingNode v rs3 offset3 (topLevelName v))
          (findNodes ASTNode.asTypeDecl ast) a rs _ O _ hA2 hcall hsz.2
      have hl : evaluateVariable (fuel + 2) ast v rs = some
          (if isUnsigned T then rs ++ [.Unsigned O (getTypeSize T) v.variableName]
          else if isSigned T then rs ++ [.Signed O (getTypeSize T) v.variableName]
          else if isFloatingPoint T then rs ++ [.Float O (getTypeSize T) v.variableName]
          else rs) := by
        rw [hN, hname] at h1 h2
        rw [hname] at h3
        simp only [evaluateVariable, ho, hv, bne_self_eq_false, Bool.false_eq_true, if_false,
          hN, h1, h2, h3, hname]
      rw [hl]
      have hu64 : u64 (getTypeSize T * 1) = getTypeSize T := by
        rw [Nat.mul_one]; exact u64_of_lt (by omega)
      have hbne : (T != CustomType) = true := by simpa using hT
      simp only [evaluateVariable, ho, hbne, if_true, hN, hu64, addPatternData]
      by_cases c1 : isUnsigned T = true
      · simp [c1]
      · by_cases c2 : isSigned T = true
        · have c3 : getTypeSize T ≠ 1 := fun h => hchar ⟨c2, h⟩
          simp [c1, c2, c3]
        · by_cases c3 : isFloatingPoint T = true <;> simp [c1, c2, c3]
  · intro structName pre post rs offset name
    have hm : ∀ rs1 offset1,
        highlightStructMember ast name (highlightStruct (fuel + 2) ast)
          (highlightUsingDecls (fuel + 2) ast) v rs1 offset1 =
        highlightStructMember ast name (highlightStruct (fuel + 2) ast)
          (highlightUsingDecls (fuel + 2) ast) { v with variableType := T } rs1 offset1 := by
      intro rs1 offset1
      have hcall := highlightUsingDecls_chain fuel ast v T a b hN hT hchain rs1 offset1
        (memberName v name 0)
      have hne : getTypeSize T ≠ sizeT (-1) := by rw [sizeT_neg_one]; omega
      have hl : highlightStructMember ast name (highlightStruct (fuel + 2) ast)
          (highlightUsingDecls (fuel + 2) ast) v rs1 offset1 = some (.next
          (if isUnsigned T then rs1 ++ [.Unsigned offset1 (getTypeSize T) (memberName v name 0)]
          else if isSigned T then
            rs1 ++ [.Signed offset1 (getTypeSize T) (memberName v name 0)]
          else if isFloatingPoint T then
            rs1 ++ [.Float offset1 (getTypeSize T) (memberName v name 0)]
          else rs1) (u64 (offset1 + getTypeSize T))) := by
        simp only [highlightStructMember, hv, bne_self_eq_false, Bool.false_eq_true, if_false,
          resolveCustom, lookupLoop, hfS, hfE, hfA, hN, arrayLoop, hcall, hsz.1, beq_iff_eq,
          if_neg hne, Bool.not_true]
      rw [hl, highlightStructMember_builtin _ _ _ _ _ _ _ hT]
      simp only [hN, highlightStructBuiltin, hw, addPatternData]
      by_cases c1 : isUnsigned T = true
      · simp [c1, memberName, hN]
      · by_cases c2 : isSigned T = true
        · have c3 : getTypeSize T ≠ 1 := fun h => hchar ⟨c2, h⟩
          simp [c1, c2, c3, memberName, hN]
        · by_cases c3 : isFloatingPoint T = true <;> simp [c1, c2, c3, memberName, hN]
    rw [highlightStruct_succ, highlightStruct_succ, structLoop_congr _ _ _ hm pre post rs offset]
  · intro hdirect structName pre post rs offset name
    subst hdirect
    have hm : ∀ rs1 offset1,
        highlightStructMember ast name (highlightStruct (fuel + 1) ast)
          (highlightUsingDecls (fuel + 1) ast) v rs1 offset1 =
        highlightStructMember ast name (highlightStruct (fuel + 1) ast)
          (highlightUsingDecls (fuel + 1) ast) { v with variableType := a.assignedType } rs1
          offset1 := by
      intro rs1 offset1
      have hloop := arrayLoop_alias_builtin fuel ast a v name hT hchar v.arraySize 0 rs1 offset1
      have hbne : (a.assignedType != CustomType) = true := by simpa using hT
      simp only [highlightStructMember, hv, bne_self_eq_false, Bool.false_eq_true, if_false,
        resolveCustom, lookupLoop, hfS, hfE, hfA, hloop, Bool.not_true, hbne, if_true]
    rw [highlightStruct_succ, highlightStruct_succ, structLoop_congr _ _ _ hm pre post rs offset]

/-! ## Arrays of enums -/

theorem highlightEnum_valid (ast : List ASTNode) (e : ASTNodeEnum) (rs : List PatternData)
    (offset : Nat) (name : String) (hu : isUnsigned e.underlyingType = true)
    (hw : getTypeSize e.underlyingType ≤ 8) :
    highlightEnum ast e rs offset name =
      (rs ++ [.Enum offset (getTypeSize e.underlyingType) name e.name e.values],
        (getTypeSize e.underlyingType : Int)) := by
  have hlt := getTypeSize_lt e.underlyingType
  have hs : s32 (u32 e.underlyingType >>> 4) = (getTypeSize e.underlyingType : Int) :=
    s32_of_lt (by unfold getTypeSize at hlt; omega)
  have : ¬ (8 : Int) < (getTypeSize e.underlyingType : Int) := by
    have : (getTypeSize e.underlyingType : Int) ≤ 8 := by exact_mod_cast hw
    omega
  unfold highlightEnum
  simp only [hu, hs, addPatternData, sizeT_natCast (show getTypeSize e.underlyingType < 2 ^ 64
    by omega)]
  simp [this]

theorem enumRegions_succ (e : ASTNodeEnum) (offset : Nat) (names : Nat → String) (k : Nat)
    (ho : offset < 2 ^ 64) :
    enumRegions e offset names (k + 1) =
      .Enum offset (getTypeSize e.underlyingType) (names 0) e.name e.values ::
        enumRegions e (u64 (offset + getTypeSize e.underlyingType)) (fun i => names (i + 1)) k := by
  unfold enumRegions
  rw [List.range_succ_eq_map, List.map_cons, List.map_map]
  congr 1
  · simp [u64_of_lt ho]
  · apply List.map_congr_left
    intro j _
    simp only [Function.comp, u64_add_u64_left, Nat.succ_eq_add_one]
    congr 2
    ring

theorem arrayLoop_enum (ast : List ASTNode) (e : ASTNodeEnum)
    (hu : isUnsigned e.underlyingType = true) (hw : getTypeSize e.underlyingType ≤ 8)
    (k : Nat) :
    ∀ (names : Nat → String) (i : Nat) (rs : List PatternData) (offset : Nat),
      offset < 2 ^ 64 →
      arrayLoop (fun j rs1 offset1 => some (highlightEnum ast e rs1 offset1 (names j))) k i rs
          offset =
        some (.next (rs ++ enumRegions e offset (fun j => names (i + j)) k)
          (u64 (offset + k * getTypeSize e.underlyingType))) := by
  induction k with
  | zero => intro names i rs offset ho; simp [arrayLoop, enumRegions, u64_of_lt ho]
  | succ k ih =>
    intro names i rs offset ho
    have hsz := sizeT_getTypeSize e.underlyingType
    have hne : getTypeSize e.underlyingType ≠ sizeT (-1) := by rw [← hsz.1]; exact hsz.2
    rw [arrayLoop]
    dsimp only
    rw [highlightEnum_valid ast e _ _ _ hu hw]
    simp only [hsz.1, beq_iff_eq, if_neg hne]
    have hnames : (fun j => names (i + 1 + j)) = fun j => names (i + (j + 1)) := by
      funext j
      congr 1
      omega
    have harith : offset + getTypeSize e.underlyingType + k * getTypeSize e.underlyingType =
        offset + (k + 1) * getTypeSize e.underlyingType := by ring
    rw [ih names (i + 1) _ _ (u64_lt _), enumRegions_succ _ _ _ _ ho, u64_add_u64_left, hnames,
      harith]
    simp

theorem topLevelArrayLoop_enum (ast : List ASTNode) (e : ASTNodeEnum)
    (hu : isUnsigned e.underlyingType = true) (hw : getTypeSize e.underlyingType ≤ 8)
    (name : String) (k : Nat) (hk : k < 2 ^ 32) :
    ∀ (rs : List PatternData) (offset : Nat), offset < 2 ^ 64 →
      topLevelArrayLoop (fun rs1 offset1 => some (highlightEnum ast e rs1 offset1 name)) k rs
          offset =
        some (rs ++ enumRegions e offset (fun _ => name) k,
          u64 (offset + k * getTypeSize e.underlyingType)) := by
  induction k with
  | zero => intro rs offset ho; simp [topLevelArrayLoop_zero, enumRegions, u64_of_lt ho]
  | succ k ih =>
    intro rs offset ho
    have hsz := sizeT_getTypeSize e.underlyingType
    have hne : getTypeSize e.underlyingType ≠ sizeT (-1) := by rw [← hsz.1]; exact hsz.2
    rw [topLevelArrayLoop_succ _ _ hk]
    dsimp only
    rw [highlightEnum_valid ast e _ _ _ hu hw]
    simp only [hsz.1, beq_iff_eq, if_neg hne]
    have harith : offset + getTypeSize e.underlyingType + k * getTypeSize e.underlyingType =
        offset + (k + 1) * getTypeSize e.underlyingType := by ring
    rw [ih (by omega) _ _ (u64_lt _), enumRegions_succ _ _ _ _ ho, u64_add_u64_left, harith]
    simp

/-! ## A type name that names nodes of two kinds -/

theorem topLevelLookup_singleton {α : Type} (isNamed : α → Bool) (arraySize : Nat)
    (call : α → List PatternData → Nat → Option (List PatternData × Int)) (nodes : List α)
    (node : α) (rs : List PatternData) (offset : Nat) (h : nodes.filter isNamed = [node]) :
    topLevelLookup isNamed arraySize call nodes rs offset =
      topLevelArrayLoop (call node) arraySize rs offset := by
  rw [topLevelLookup_filter, h]
  simp only [topLevelLookup, if_true]
  cases topLevelArrayLoop (call node) arraySize rs offset with
  | none => rfl
  | some r => rfl

/-- A top-level declaration whose custom type name names no struct, no enum and no type
declaration leaves the region list as it is: nothing fails and nothing is cleared. -/
theorem evaluateVariable_unknown (fuel : Nat) (ast : List ASTNode) (v : ASTNodeVariableDecl)
    (rs : List PatternData) (hv : v.variableType = CustomType)
    (hS : ∀ s ∈ findNodes ASTNode.asStruct ast, s.name ≠ v.customVariableTypeName)
    (hE : ∀ e ∈ findNodes ASTNode.asEnum ast, e.name ≠ v.customVariableTypeName)
    (hA : ∀ a ∈ findNodes ASTNode.asTypeDecl ast, a.typeName ≠ v.customVariableTypeName) :
    evaluateVariable fuel ast v rs = some rs := by
  cases ho : v.offset with
  | none => simp [evaluateVariable, ho]
  | some O =>
    have h1 : ∀ rs1 offset1,
        topLevelLookup (fun n => v.customVariableTypeName == n.name) v.arraySize
          (fun structNode rs1 offset1 =>
            highlightStruct fuel ast structNode rs1 offset1 (topLevelName v))
          (findNodes ASTNode.asStruct ast) rs1 offset1 = some (rs1, offset1) :=
      fun rs1 offset1 => topLevelLookup_none _ _ _ _ _ _ fun n hn => by
        simpa using fun h => hS n hn h.symm
    have h2 : ∀ rs1 offset1,
        topLevelLookup (fun n => v.customVariableTypeName == n.name) v.arraySize
          (fun enumNode rs2 offset2 =>
            some (highlightEnum ast enumNode rs2 offset2 (topLevelName v)))
          (findNodes ASTNode.asEnum ast) rs1 offset1 = some (rs1, offset1) :=
      fun rs1 offset1 => topLevelLookup_none _ _ _ _ _ _ fun n hn => by
        simpa using fun h => hE n hn h.symm
    have h3 : ∀ rs1 offset1,
        topLevelLookup (fun n => v.customVariableTypeName == n.typeName) v.arraySize
          (fun usingNode rs3 offset3 =>
            highlightUsingDecls fuel ast usingNode v rs3 offset3 (topLevelName v))
          (findNodes ASTNode.asTypeDecl ast) rs1 offset1 = some (rs1, offset1) :=
      fun rs1 offset1 => topLevelLookup_none _ _ _ _ _ _ fun n hn => by
        simpa using fun h => hA n hn h.symm
    simp only [evaluateVariable, ho, hv, bne_self_eq_false, Bool.false_eq_true, if_false,
      h1, h2, h3]

theorem find?_of_filter_eq_toList {α : Type} (nodes : List α) (p : α → Bool) (node? : Option α)
    (h : nodes.filter p = node?.toList) : nodes.find? p = node? := by
  cases node? with
  | some a => exact find?_of_filter_eq_singleton nodes p a h
  | none =>
    rw [List.find?_eq_none]
    intro x hx hp
    have : x ∈ nodes.filter p := List.mem_filter.mpr ⟨hx, hp⟩
    rw [h] at this
    simp at this

theorem topLevelLookup_category {α : Type} (isNamed : α → Bool) (arraySize : Nat)
    (call : α → List PatternData → Nat → Option (List PatternData × Int)) (nodes : List α)
    (node? : Option α) (h : nodes.filter isNamed = node?.toList) (rs : List PatternData)
    (offset : Nat) :
    topLevelLookup isNamed arraySize call nodes rs offset =
      topLevelCategory node? call arraySize rs offset := by
  cases node? with
  | some a => exact topLevelLookup_singleton isNamed arraySize call nodes a rs offset h
  | none =>
    rw [topLevelLookup_filter, h]
    rfl

theorem lookupLoop_category {α : Type} (nodes : List α) (isNamed : α → Bool) (arraySize : Nat)
    (call : α → Nat → List PatternData → Nat → Option (List PatternData × Int))
    (node? : Option α) (h : nodes.filter isNamed = node?.toList) (rs : List PatternData)
    (offset : Nat) (foundType : Bool) :
    lookupLoop nodes isNamed arraySize call rs offset foundType =
      (memberCategory node? call arraySize rs offset).map fun flow =>
        (flow, foundType || node?.isSome) := by
  have hf := find?_of_filter_eq_toList nodes isNamed node? h
  cases node? with
  | none => simp [lookupLoop, hf, memberCategory]
  | some a =>
    simp only [lookupLoop, hf, memberCategory, Option.isSome_some, Bool.or_true]
    cases arrayLoop (call a) arraySize 0 rs offset <;> rfl

/-- The three lookup loops of a struct member or a type declaration for a type name that names
at most one struct, one enum and one type declaration: the three resolutions one after another,
and failure at the end when no category bears the name. -/
theorem resolveCustom_category (ast : List ASTNode) (typeName : String) (arraySize : Nat)
    (structCall : ASTNodeStruct → Nat → List PatternData → Nat → Option (List PatternData × Int))
    (enumCall : ASTNodeEnum → Nat → List PatternData → Nat → Option (List PatternData × Int))
    (usingCall :
      ASTNodeTypeDecl → Nat → List PatternData → Nat → Option (List PatternData × Int))
    (S : Option ASTNodeStruct) (E : Option ASTNodeEnum) (A : Option ASTNodeTypeDecl)
    (hS : (findNodes ASTNode.asStruct ast).filter (fun n => n.name == typeName) = S.toList)
    (hE : (findNodes ASTNode.asEnum ast).filter (fun n => n.name == typeName) = E.toList)
    (hA : (findNodes ASTNode.asTypeDecl ast).filter (fun n => n.typeName == typeName)
      = A.toList)
    (rs : List PatternData) (offset : Nat) :
    resolveCustom ast typeName arraySize structCall enumCall usingCall rs offset =
      andThenResolve (memberCategory S structCall arraySize rs offset) fun rs1 offset1 =>
      andThenResolve (memberCategory E enumCall arraySize rs1 offset1) fun rs2 offset2 =>
      andThenResolve (memberCategory A usingCall arraySize rs2 offset2) fun rs3 offset3 =>
      if S.isNone && E.isNone && A.isNone then some (.failed rs3)
      else some (.next rs3 offset3) := by
  have h1 := fun rs0 offset0 found =>
    lookupLoop_category (findNodes ASTNode.asStruct ast) (fun n => n.name == typeName)
      arraySize structCall S hS rs0 offset0 found
  have h2 := fun rs0 offset0 found =>
    lookupLoop_category (findNodes ASTNode.asEnum ast) (fun n => n.name == typeName)
      arraySize enumCall E hE rs0 offset0 found
  have h3 := fun rs0 offset0 found =>
    lookupLoop_category (findNodes ASTNode.asTypeDecl ast) (fun n => n.typeName == typeName)
      arraySize usingCall A hA rs0 offset0 found
  simp only [resolveCustom, h1, h2, h3]
  cases memberCategory S structCall arraySize rs offset with
  | none => rfl
  | some f1 =>
    cases f1 with
    | failed rs1 => rfl
    | next rs1 o1 =>
      simp only [Option.map_some', andThenResolve]
      cases memberCategory E enumCall arraySize rs1 o1 with
      | none => rfl
      | some f2 =>
        cases f2 with
        | failed rs2 => rfl
        | next rs2 o2 =>
          simp only [Option.map_some']
          cases memberCategory A usingCall arraySize rs2 o2 with
          | none => rfl
          | some f3 =>
            cases f3 with
            | failed rs3 => rfl
            | next rs3 o3 =>
              simp only [Option.map_some']
              cases S <;> cases E <;> cases A <;> rfl

/-- C6 as amended. Let the type name `typeName` name at most one struct, at most one enum and
at most one type declaration. For a top-level declaration of this type the name is resolved
against the struct, then against the enum, then against the type declaration (each one that
exists, by the element loop of `parsePattern`), every one from the list and the offset the one
before left. For a struct member of this type, and for a type declaration that is assigned this
name, the same three resolutions follow one another, the first one that reaches `return -1`
ends the whole with failure, and so does a name that no category bears. No match in one category
keeps a later category from being resolved. -/
theorem colliding_names_resolve_in_turn (fuel : Nat) (ast : List ASTNode) (typeName : String)
    (S : Option ASTNodeStruct) (E : Option ASTNodeEnum) (A : Option ASTNodeTypeDecl)
    (hS : (findNodes ASTNode.asStruct ast).filter (fun n => n.name == typeName) = S.toList)
    (hE : (findNodes ASTNode.asEnum ast).filter (fun n => n.name == typeName) = E.toList)
    (hA : (findNodes ASTNode.asTypeDecl ast).filter (fun n => n.typeName == typeName)
      = A.toList) :
    (∀ (v : ASTNodeVariableDecl) (rs : List PatternData) (O : Nat),
      v.variableType = CustomType → v.customVariableTypeName = typeName → v.offset = some O →
      evaluateVariable fuel ast v rs =
        (topLevelCategory S
          (fun structNode rs0 offset0 =>
            highlightStruct fuel ast structNode rs0 offset0 (topLevelName v))
          v.arraySize rs O).bind fun afterStruct =>
        (topLevelCategory E
          (fun enumNode rs0 offset0 =>
            some (highlightEnum ast enumNode rs0 offset0 (topLevelName v)))
          v.arraySize afterStruct.1 afterStruct.2).bind fun afterEnum =>
        (topLevelCategory A
          (fun usingNode rs0 offset0 =>
            highlightUsingDecls fuel ast usingNode v rs0 offset0 (topLevelName v))
          v.arraySize afterEnum.1 afterEnum.2).map Prod.fst) ∧
    (∀ (v : ASTNodeVariableDecl) (name : String)
      (structCall : ASTNodeStruct → List PatternData → Nat → String →
        Option (List PatternData × Int))
      (usingCall : ASTNodeTypeDecl → ASTNodeVariableDecl → List PatternData → Nat → String →
        Option (List PatternData × Int))
      (rs : List PatternData) (offset : Nat),
      v.variableType = CustomType → v.customVariableTypeName = typeName →
      highlightStructMember ast name structCall usingCall v rs offset =
        andThenResolve
          (memberCategory S
            (fun structNode i rs0 offset0 =>
              structCall structNode rs0 offset0 (memberName v name i))
            v.arraySize rs offset)
          fun rs1 offset1 =>
        andThenResolve
          (memberCategory E
            (fun enumNode i rs0 offset0 =>
              some (highlightEnum ast enumNode rs0 offset0 (memberName v name i)))
            v.arraySize rs1 offset1)
          fun rs2 offset2 =>
        andThenResolve
          (memberCategory A
            (fun typeDeclNode i rs0 offset0 =>
              usingCall typeDeclNode v rs0 offset0 (memberName v name i))
            v.arraySize rs2 offset2)
          fun rs3 offset3 =>
        if S.isNone && E.isNone && A.isNone then some (.failed rs3)
        else some (.next rs3 offset3)) ∧
    (∀ (a : ASTNodeTypeDecl) (v : ASTNodeVariableDecl) (rs : List PatternData) (offset : Nat)
      (name : String),
      a.assignedType = CustomType → a.assignedCustomTypeName = typeName →
      highlightUsingDecls (fuel + 1) ast a v rs offset name =
        (andThenResolve
          (memberCategory S
            (fun structNode _ rs0 offset0 => highlightStruct fuel ast structNode rs0 offset0 name)
            v.arraySize rs offset)
          fun rs1 offset1 =>
        andThenResolve
          (memberCategory E
            (fun enumNode _ rs0 offset0 => some (highlightEnum ast enumNode rs0 offset0 name))
            v.arraySize rs1 offset1)
          fun rs2 offset2 =>
        andThenResolve
          (memberCategory A
            (fun typeDeclNode _ rs0 offset0 =>
              highlightUsingDecls fuel ast typeDeclNode v rs0 offset0 name)
            v.arraySize rs2 offset2)
          fun rs3 offset3 =>
        if S.isNone && E.isNone && A.isNone then some (.failed rs3)
        else some (.next rs3 offset3)).map fun flow =>
          match flow with
          | .failed rs1 => (rs1, -1)
          | .next rs1 offset1 => (rs1, s32 (u64sub offset1 offset))) := by
  refine ⟨?_, ?_, ?_⟩
  · intro v rs O hv hname ho
    subst hname
    have hS2 : (findNodes ASTNode.asStruct ast).filter
        (fun n => v.customVariableTypeName == n.name) = S.toList := by
      rw [filter_beq_comm _ ASTNodeStruct.name]; exact hS
    have hE2 : (findNodes ASTNode.asEnum ast).filter
        (fun n => v.customVariableTypeName == n.name) = E.toList := by
      rw [filter_beq_comm _ ASTNodeEnum.name]; exact hE
    have hA2 : (findNodes ASTNode.asTypeDecl ast).filter
        (fun n => v.customVariableTypeName == n.typeName) = A.toList := by
      rw [filter_beq_comm _ ASTNodeTypeDecl.typeName]; exact hA
    have h1 := fun rs0 offset0 =>
      topLevelLookup_category (fun n => v.customVariableTypeName == n.name) v.arraySize
        (fun structNode rs1 offset1 =>
          highlightStruct fuel ast structNode rs1 offset1 (topLevelName v))
        _ S hS2 rs0 offset0
    have h2 := fun rs0 offset0 =>
      topLevelLookup_category (fun n => v.customVariableTypeName == n.name) v.arraySize
        (fun enumNode rs2 offset2 =>
          some (highlightEnum ast enumNode rs2 offset2 (topLevelName v)))
        _ E hE2 rs0 offset0
    have h3 := fun rs0 offset0 =>
      topLevelLookup_category (fun n => v.customVariableTypeName == n.typeName) v.arraySize
        (fun usingNode rs3 offset3 =>
          highlightUsingDecls fuel ast usingNode v rs3 offset3 (topLevelName v))
        _ A hA2 rs0 offset0
    simp only [evaluateVariable, ho, hv, bne_self_eq_false, Bool.false_eq_true, if_false,
      h1, h2, h3]
    cases topLevelCategory S
        (fun structNode rs0 offset0 =>
          highlightStruct fuel ast structNode rs0 offset0 (topLevelName v))
        v.arraySize rs O with
    | none => rfl
    | some r1 =>
      obtain ⟨rs1, o1⟩ := r1
      simp only [Option.bind]
      cases topLevelCategory E
          (fun enumNode rs0 offset0 =>
            some (highlightEnum ast enumNode rs0 offset0 (topLevelName v)))
          v.arraySize rs1 o1 with
      | none => rfl
      | some r2 =>
        obtain ⟨rs2, o2⟩ := r2
        simp only
        cases topLevelCategory A
            (fun usingNode rs0 offset0 =>
              highlightUsingDecls fuel ast usingNode v rs0 offset0 (topLevelName v))
            v.arraySize rs2 o2 with
        | none => rfl
        | some r3 => rfl
  · intro v name structCall usingCall rs offset hv hname
    subst hname
    simp only [highlightStructMember, hv, bne_self_eq_false, Bool.false_eq_true, if_false]
    exact resolveCustom_category ast _ _ _ _ _ S E A hS hE hA rs offset
  · intro a v rs offset name hb hname
    subst hname
    rw [highlightUsingDecls]
    simp only [hb, bne_self_eq_false, Bool.false_eq_true, if_false]
    rw [resolveCustom_category ast _ _ _ _ _ S E A hS hE hA rs offset]
    cases andThenResolve
        (memberCategory S
          (fun structNode _ rs0 offset0 => highlightStruct fuel ast structNode rs0 offset0 name)
          v.arraySize rs offset)
        fun rs1 offset1 =>
      andThenResolve
        (memberCategory E
          (fun enumNode _ rs0 offset0 => some (highlightEnum ast enumNode rs0 offset0 name))
          v.arraySize rs1 offset1)
        fun rs2 offset2 =>
      andThenResolve
        (memberCategory A
          (fun typeDeclNode _ rs0 offset0 =>
            highlightUsingDecls fuel ast typeDeclNode v rs0 offset0 name)
          v.arraySize rs2 offset2)
        fun rs3 offset3 =>
      if S.isNone && E.isNone && A.isNone then some (.failed rs3)
      else some (.next rs3 offset3) with
    | none => rfl
    | some flow => cases flow <;> rfl

/-- C6 at `struct S { u8 a; } enum S : u8 {} using S = u16;`, where the name `S` names a
struct, an enum and a type declaration. The declaration `S s @ 0;` yields the region of the
struct, then the region of the enum, then the region of the type declaration, and so do the
struct member `S m;` and the type declaration `using T = S;`. With the enum `enum S : s8 {}`,
which is not valid, the top-level declaration ends with the list cleared and the region of the
type declaration alone, and the struct member ends with failure after the region of the
struct. -/
theorem colliding_names_resolve_in_turn_witness :
    evaluateVariable 1
        [.Struct smallStruct, .Enum smallEnum, .TypeDecl smallUsing, .VariableDecl sampleVariable]
        sampleVariable [] =
      some [.Unsigned 0 1 "s.a", .Enum 1 1 "s" "S" [], .Unsigned 2 2 "s"] ∧
    highlightStructMember [.Struct smallStruct, .Enum smallEnum, .TypeDecl smallUsing] "t"
        (highlightStruct 1 [.Struct smallStruct, .Enum smallEnum, .TypeDecl smallUsing])
        (highlightUsingDecls 1 [.Struct smallStruct, .Enum smallEnum, .TypeDecl smallUsing])
        ⟨CustomType, "m", "S", none, 1⟩ [] 0 =
      some (.next [.Unsigned 0 1 "t.m.a", .Enum 1 1 "t.m" "S" [], .Unsigned 2 2 "t.m"] 4) ∧
    highlightUsingDecls 2 [.Struct smallStruct, .Enum smallEnum, .TypeDecl smallUsing]
        ⟨"T", CustomType, "S"⟩ sampleVariable [] 0 "s" =
      some ([.Unsigned 0 1 "s.a", .Enum 1 1 "s" "S" [], .Unsigned 2 2 "s"], 4) ∧
    evaluateVariable 1
        [.Struct smallStruct, .Enum ⟨"S", s8, []⟩, .TypeDecl smallUsing,
          .VariableDecl sampleVariable]
        sampleVariable [] =
      some [.Unsigned 1 2 "s"] ∧
    highlightStructMember [.Struct smallStruct, .Enum ⟨"S", s8, []⟩, .TypeDecl smallUsing] "t"
        (highlightStruct 1 [.Struct smallStruct, .Enum ⟨"S", s8, []⟩, .TypeDecl smallUsing])
        (highlightUsingDecls 1 [.Struct smallStruct, .Enum ⟨"S", s8, []⟩, .TypeDecl smallUsing])
        ⟨CustomType, "m", "S", none, 1⟩ [] 0 =
      some (.failed [.Unsigned 0 1 "t.m.a"]) :=
  ⟨((colliding_names_resolve_in_turn 1
      [.Struct smallStruct, .Enum smallEnum, .TypeDecl smallUsing, .VariableDecl sampleVariable]
      "S" (some smallStruct) (some smallEnum) (some smallUsing) (by decide) (by decide)
      (by decide)).1 sampleVariable [] 0 rfl rfl rfl).trans (by rfl),
    ((colliding_names_resolve_in_turn 1
      [.Struct smallStruct, .Enum smallEnum, .TypeDecl smallUsing] "S" (some smallStruct)
      (some smallEnum) (some smallUsing) (by decide) (by decide) (by decide)).2.1
      ⟨CustomType, "m", "S", none, 1⟩ "t" _ _ [] 0 rfl rfl).trans (by rfl),
    ((colliding_names_resolve_in_turn 1
      [.Struct smallStruct, .Enum smallEnum, .TypeDecl smallUsing] "S" (some smallStruct)
      (some smallEnum) (some smallUsing) (by decide) (by decide) (by decide)).2.2
      ⟨"T", CustomType, "S"⟩ sampleVariable [] 0 "s" rfl rfl).trans (by rfl),
    ((colliding_names_resolve_in_turn 1
      [.Struct smallStruct, .Enum ⟨"S", s8, []⟩, .TypeDecl smallUsing,
        .VariableDecl sampleVariable]
      "S" (some smallStruct) (some ⟨"S", s8, []⟩) (some smallUsing) (by decide) (by decide)
      (by decide)).1 sampleVariable [] 0 rfl rfl rfl).trans (by rfl),
    ((colliding_names_resolve_in_turn 1
      [.Struct smallStruct, .Enum ⟨"S", s8, []⟩, .TypeDecl smallUsing] "S" (some smallStruct)
      (some ⟨"S", s8, []⟩) (some smallUsing) (by decide) (by decide) (by decide)).2.1
      ⟨CustomType, "m", "S", none, 1⟩ "t" _ _ [] 0 rfl rfl).trans (by rfl)⟩

/-- C6 as stated fails. In `struct S { u8 a; } enum S : u8 {} S s @ 0;` the name `S` names a
struct and an enum; the evaluation emits the region of the struct and then a region for the enum,
while the same tree without the enum yields the region of the struct alone. In
`enum S : u8 {} using S = u16; S s @ 0;` the enum does not win over the type declaration either,
and the same happens for a struct member `S m;`. -/
theorem colliding_names_counterexample :
    parsePattern (stagesYielding
        [.Struct smallStruct, .Enum smallEnum, .VariableDecl sampleVariable]) 1 "" [] =
      some [.Unsigned 0 1 "s.a", .Enum 1 1 "s" "S" []] ∧
    parsePattern (stagesYielding [.Struct smallStruct, .VariableDecl sampleVariable]) 1 "" [] =
      some [.Unsigned 0 1 "s.a"] ∧
    parsePattern (stagesYielding
        [.Enum smallEnum, .TypeDecl smallUsing, .VariableDecl sampleVariable]) 1 "" [] =
      some [.Enum 0 1 "s" "S" [], .Unsigned 1 2 "s"] ∧
    parsePattern (stagesYielding [.Enum smallEnum, .VariableDecl sampleVariable]) 1 "" [] =
      some [.Enum 0 1 "s" "S" []] ∧
    highlightStruct 2 [.Struct smallStruct, .Enum smallEnum]
        ⟨"T", [⟨CustomType, "m", "S", none, 1⟩]⟩ [] 0 "t" =
      some ([.Unsigned 0 1 "t.m.a", .Enum 1 1 "t.m" "S" []], 2) ∧
    highlightStruct 2 [.Struct smallStruct]
        ⟨"T", [⟨CustomType, "m", "S", none, 1⟩]⟩ [] 0 "t" =
      some ([.Unsigned 0 1 "t.m.a"], 1) := by
  refine ⟨by rfl, by rfl, by rfl, by rfl, by rfl, by rfl⟩

/-- C7 at `using A = B; using B = u16; A v @ 4;`, which yields the region of `u16 v @ 4;`, at
the struct member `A v;` of `struct S { u8 a; A v; }`, which yields the regions of
`struct S { u8 a; u16 v; }`, and at the struct member `B w[3];` of `struct S { B w[3]; }`, which
yields the regions of `struct S { u16 w[3]; }`. -/
theorem alias_transparent_witness :
    namesOnlyTypeDecl [.TypeDecl usingAB, .TypeDecl usingB] "A" usingAB ∧
    namesOnlyTypeDecl [.TypeDecl usingAB, .TypeDecl usingB] "B" usingB ∧
    evaluateVariable 2 [.TypeDecl usingAB, .TypeDecl usingB] aliasVariable [] =
      some [.Unsigned 4 2 "v"] ∧
    evaluateVariable 2 [.TypeDecl usingAB, .TypeDecl usingB]
        { aliasVariable with variableType := u16 } [] = some [.Unsigned 4 2 "v"] ∧
    highlightStruct 3 [.TypeDecl usingAB, .TypeDecl usingB]
        ⟨"S", [⟨u8, "a", "", none, 1⟩] ++ aliasVariable :: []⟩ [] 0 "s" =
      some ([.Unsigned 0 1 "s.a", .Unsigned 1 2 "s.v"], 3) ∧
    highlightStruct 3 [.TypeDecl usingAB, .TypeDecl usingB]
        ⟨"S", [⟨u8, "a", "", none, 1⟩] ++ { aliasVariable with variableType := u16 } :: []⟩
        [] 0 "s" =
      some ([.Unsigned 0 1 "s.a", .Unsigned 1 2 "s.v"], 3) ∧
    highlightStruct 2 [.TypeDecl usingAB, .TypeDecl usingB]
        ⟨"S", [] ++ ⟨CustomType, "w", "B", none, 3⟩ :: []⟩ [] 0 "s" =
      some ([.Unsigned 0 2 "s.w[0]", .Unsigned 2 2 "s.w[1]", .Unsigned 4 2 "s.w[2]"], 6) ∧
    highlightStruct 2 [.TypeDecl usingAB, .TypeDecl usingB]
        ⟨"S", [] ++ ⟨u16, "w", "B", none, 3⟩ :: []⟩ [] 0 "s" =
      some ([.Unsigned 0 2 "s.w[0]", .Unsigned 2 2 "s.w[1]", .Unsigned 4 2 "s.w[2]"], 6) :=
  have h := (alias_transparent 0 [.TypeDecl usingAB, .TypeDecl usingB] aliasVariable u16
    usingAB usingB rfl (by decide) (by decide) (by decide)).1 rfl (Or.inr ⟨rfl, by decide, rfl⟩)
  have h3 := (alias_transparent 0 [.TypeDecl usingAB, .TypeDecl usingB]
    ⟨CustomType, "w", "B", none, 3⟩ u16 usingB usingB rfl (by decide) (by decide)
    (by decide)).2 rfl "S" [] [] [] 0 "s"
  ⟨by decide, by decide, (h.1 []).trans (by rfl), by rfl,
    (h.2 "S" [⟨u8, "a", "", none, 1⟩] [] [] 0 "s").trans (by rfl), by rfl,
    h3.trans (by rfl), by rfl⟩

/-- C7 as stated fails. For `using A = s8; A v @ 0;` the evaluation emits a region `Signed`,
for `s8 v @ 0;` a region `Character`. For `using A = u8; A v[2] @ 0;` it emits two regions of
size one named `v[2]`, for `u8 v[2] @ 0;` one region of size two named `v`. For the struct member
`A v[2];` with `using A = B; using B = u8;` it emits four regions, for the member `u8 v[2];`
two. For the struct member `A v[2];` with `using A = s8;` it emits two regions `Signed`, for the
member `s8 v[2];` one region `String`; for the struct member `A v;` a region `Signed`, for the
member `s8 v;` a region `Character`. -/
theorem alias_transparency_counterexample :
    evaluateVariable 2 [.TypeDecl ⟨"A", s8, ""⟩] ⟨CustomType, "v", "A", some 0, 1⟩ [] =
      some [.Signed 0 1 "v"] ∧
    evaluateVariable 2 [.TypeDecl ⟨"A", s8, ""⟩] ⟨s8, "v", "A", some 0, 1⟩ [] =
      some [.Character 0 1 "v"] ∧
    evaluateVariable 2 [.TypeDecl ⟨"A", u8, ""⟩] ⟨CustomType, "v", "A", some 0, 2⟩ [] =
      some [.Unsigned 0 1 "v[2]", .Unsigned 1 1 "v[2]"] ∧
    evaluateVariable 2 [.TypeDecl ⟨"A", u8, ""⟩] ⟨u8, "v", "A", some 0, 2⟩ [] =
      some [.Unsigned 0 2 "v"] ∧
    highlightStruct 3 [.TypeDecl usingAB, .TypeDecl ⟨"B", u8, ""⟩]
        ⟨"S", [⟨CustomType, "v", "A", none, 2⟩]⟩ [] 0 "s" =
      some ([.Unsigned 0 1 "s.v[0]", .Unsigned 1 1 "s.v[0]", .Unsigned 2 1 "s.v[1]",
        .Unsigned 3 1 "s.v[1]"], 4) ∧
    highlightStruct 3 [.TypeDecl usingAB, .TypeDecl ⟨"B", u8, ""⟩]
        ⟨"S", [⟨u8, "v", "A", none, 2⟩]⟩ [] 0 "s" =
      some ([.Unsigned 0 1 "s.v[0]", .Unsigned 1 1 "s.v[1]"], 2) ∧
    highlightStruct 2 [.TypeDecl ⟨"A", s8, ""⟩] ⟨"S", [⟨CustomType, "v", "A", none, 2⟩]⟩ []
        0 "s" =
      some ([.Signed 0 1 "s.v[0]", .Signed 1 1 "s.v[1]"], 2) ∧
    highlightStruct 2 [.TypeDecl ⟨"A", s8, ""⟩] ⟨"S", [⟨s8, "v", "A", none, 2⟩]⟩ [] 0 "s" =
      some ([.String 0 2 "s.v"], 2) ∧
    highlightStruct 2 [.TypeDecl ⟨"A", s8, ""⟩] ⟨"S", [⟨CustomType, "v", "A", none, 1⟩]⟩ []
        0 "s" =
      some ([.Signed 0 1 "s.v"], 1) ∧
    highlightStruct 2 [.TypeDecl ⟨"A", s8, ""⟩] ⟨"S", [⟨s8, "v", "A", none, 1⟩]⟩ [] 0 "s" =
      some ([.Character 0 1 "s.v"], 1) := by
  refine ⟨by rfl, by rfl, by rfl, by rfl, by rfl, by rfl, by rfl, by rfl, by rfl, by rfl⟩

/-! ## The example of the specification -/

/-- C13. For the syntax tree of `struct S { u8 a; u16 b[2]; } S s @ 0x10;`, evaluated from an
empty region list with any fuel of at least one, the list is exactly `Unsigned "s.a"` at `0x10`
of size 1, `Unsigned "s.b[0]"` at `0x11` of size 2 and `Unsigned "s.b[1]"` at `0x13` of size 2,
in this order, and `highlightStruct` hands back 5. -/
theorem example_end_to_end (fuel : Nat) :
    parsePattern (stagesYielding exampleAst) (fuel + 1) "" [] =
      some [.Unsigned 0x10 1 "s.a", .Unsigned 0x11 2 "s.b[0]", .Unsigned 0x13 2 "s.b[1]"] ∧
    highlightStruct (fuel + 1) exampleAst exampleStruct [] 0x10 "s" =
      some ([.Unsigned 0x10 1 "s.a", .Unsigned 0x11 2 "s.b[0]", .Unsigned 0x13 2 "s.b[1]"],
        5) := by
  have h : highlightStruct (fuel + 1) exampleAst exampleStruct [] 0x10 "s" =
      some ([.Unsigned 0x10 1 "s.a", .Unsigned 0x11 2 "s.b[0]", .Unsigned 0x13 2 "s.b[1]"],
        5) := by
    rw [highlightStruct_builtin fuel exampleAst exampleStruct [] 0x10 "s" (by decide)
      (by decide)]
    rfl
  refine ⟨?_, h⟩
  have h1 := topLevelLookup_single (fun n => exampleVariable.customVariableTypeName == n.name)
    (fun structNode rs1 offset1 =>
      highlightStruct (fuel + 1) exampleAst structNode rs1 offset1 (topLevelName exampleVariable))
    (findNodes ASTNode.asStruct exampleAst) exampleStruct [] _ 0x10 _ (by decide) h (by decide)
  show (match evaluateVariable (fuel + 1) exampleAst exampleVariable [] with
    | none => none
    | some rs1 => some rs1) = _
  have h2 : evaluateVariable (fuel + 1) exampleAst exampleVariable [] =
      some [.Unsigned 0x10 1 "s.a", .Unsigned 0x11 2 "s.b[0]", .Unsigned 0x13 2 "s.b[1]"] := by
    unfold evaluateVariable
    show (match topLevelLookup (fun n => exampleVariable.customVariableTypeName == n.name) 1
        (fun structNode rs1 offset1 =>
          highlightStruct (fuel + 1) exampleAst structNode rs1 offset1
            (topLevelName exampleVariable))
        (findNodes ASTNode.asStruct exampleAst) [] 0x10 with
      | none => none
      | some (rs1, offset1) => some rs1) = _
    rw [h1]
  rw [h2]

/-! ## An array of a type declaration that names a struct -/

/-- C15, the code at the failing input. In `struct S { u8 a; } using A = S; A v[2] @ 0;` one
instance of `S` has size 1 and one region, and the declaration `v` has array length 2; the
evaluation lays out four instances of `S`, at the offsets 0 to 3, not two. The same happens for
the struct member `A v[2];`, for which `highlightStruct` hands back 4. -/
theorem alias_array_squared :
    highlightStruct 1 aliasArrayAst smallStruct [] 0 "v[2]" =
      some ([.Unsigned 0 1 "v[2].a"], 1) ∧
    parsePattern (stagesYielding aliasArrayAst) 2 "" [] =
      some [.Unsigned 0 1 "v[2].a", .Unsigned 1 1 "v[2].a", .Unsigned 2 1 "v[2].a",
        .Unsigned 3 1 "v[2].a"] ∧
    highlightStruct 3 aliasArrayAst ⟨"T", [⟨CustomType, "v", "A", none, 2⟩]⟩ [] 0 "t" =
      some ([.Unsigned 0 1 "t.v[0].a", .Unsigned 1 1 "t.v[0].a", .Unsigned 2 1 "t.v[1].a",
        .Unsigned 3 1 "t.v[1].a"], 4) := by
  refine ⟨by rfl, by rfl, by rfl⟩

/-! ## Regions are only appended -/

theorem ExtendsWith.refl (P : PatternData → Prop) (rs : List PatternData) :
    ExtendsWith P rs rs :=
  ⟨[], by simp, by simp⟩

theorem ExtendsWith.trans {P : PatternData → Prop} {rs rs1 rs2 : List PatternData}
    (h1 : ExtendsWith P rs rs1) (h2 : ExtendsWith P rs1 rs2) : ExtendsWith P rs rs2 := by
  obtain ⟨a1, e1, p1⟩ := h1
  obtain ⟨a2, e2, p2⟩ := h2
  refine ⟨a1 ++ a2, by rw [e2, e1, List.append_assoc], ?_⟩
  intro p hp
  rcases List.mem_append.mp hp with h | h
  · exact p1 p h
  · exact p2 p h

theorem ExtendsWith.add {P : PatternData → Prop} (rs : List PatternData) (p : PatternData)
    (hp : P p) : ExtendsWith P rs (addPatternData rs p) :=
  ⟨[p], rfl, by simpa using hp⟩

theorem ExtendsWith.mono {P Q : PatternData → Prop} {rs rs1 : List PatternData}
    (h : ExtendsWith P rs rs1) (hPQ : ∀ p, P p → Q p) : ExtendsWith Q rs rs1 := by
  obtain ⟨a, e, hp⟩ := h
  exact ⟨a, e, fun p hm => hPQ p (hp p hm)⟩

theorem nameStartsWith_append (start t : String) (p : PatternData)
    (h : nameStartsWith (start ++ t) p) : nameStartsWith start p := by
  obtain ⟨u, hu⟩ := h
  exact ⟨t ++ u, by rw [hu, String.append_assoc]⟩

theorem memberName_eq (varNode : ASTNodeVariableDecl) (name : String) (i : Nat) :
    ∃ t : String, memberName varNode name i = name ++ t := by
  unfold memberName
  split_ifs
  · exact ⟨"." ++ varNode.variableName ++ "[" ++ toString i ++ "]", by
      simp only [String.append_assoc]⟩
  · exact ⟨"." ++ varNode.variableName, by simp only [String.append_assoc]⟩

theorem nameStartsWith_memberName (varNode : ASTNodeVariableDecl) (name : String) (i : Nat)
    (p : PatternData) (h : nameStartsWith (memberName varNode name i) p) :
    nameStartsWith name p := by
  obtain ⟨t, ht⟩ := memberName_eq varNode name i
  rw [ht] at h
  exact nameStartsWith_append _ _ _ h

theorem highlightEnum_extends (ast : List ASTNode) (e : ASTNodeEnum) (rs : List PatternData)
    (offset : Nat) (name : String) :
    ExtendsWith (nameStartsWith name) rs (highlightEnum ast e rs offset name).1 := by
  unfold highlightEnum
  dsimp only
  split_ifs
  · exact ExtendsWith.refl _ _
  · exact ExtendsWith.refl _ _
  · exact ExtendsWith.add _ _ ⟨"", by simp [PatternData.name]⟩

theorem highlightStructBuiltin_extends (varNode : ASTNodeVariableDecl) (name : String)
    (k : Nat) :
    ∀ (i : Nat) (rs : List PatternData) (offset : Nat),
      ExtendsWith (nameStartsWith name) rs
        (highlightStructBuiltin varNode name k i rs offset).1 := by
  induction k with
  | zero => intro i rs offset; exact ExtendsWith.refl _ _
  | succ k ih =>
    intro i rs offset
    have hm : ∀ (x : PatternData), x.name = memberName varNode name i →
        nameStartsWith name x := by
      intro x hx
      obtain ⟨t, ht⟩ := memberName_eq varNode name i
      exact ⟨t, by rw [hx, ht]⟩
    simp only [highlightStructBuiltin]
    split_ifs
    · refine ExtendsWith.trans ?_ (ih _ _ _)
      exact ExtendsWith.add rs _ (hm _ rfl)
    · refine ExtendsWith.trans ?_ (ih _ _ _)
      exact ExtendsWith.add rs _ (hm _ rfl)
    · exact ExtendsWith.add rs _ ⟨"." ++ varNode.variableName, by
        simp [PatternData.name, String.append_assoc]⟩
    · refine ExtendsWith.trans ?_ (ih _ _ _)
      exact ExtendsWith.add rs _ (hm _ rfl)
    · refine ExtendsWith.trans ?_ (ih _ _ _)
      exact ExtendsWith.add rs _ (hm _ rfl)
    · exact ih _ _ _

theorem arrayLoop_extends (P : PatternData → Prop)
    (call : Nat → List PatternData → Nat → Option (List PatternData × Int))
    (hcall : ∀ i rs offset res, call i rs offset = some res → ExtendsWith P rs res.1)
    (k : Nat) :
    ∀ (i : Nat) (rs : List PatternData) (offset : Nat) (flow : Flow),
      arrayLoop call k i rs offset = some flow → ExtendsWith P rs flow.regions := by
  induction k with
  | zero =>
    intro i rs offset flow h
    simp only [arrayLoop, Option.some.injEq] at h
    subst h
    exact ExtendsWith.refl _ _
  | succ k ih =>
    intro i rs offset flow h
    rw [arrayLoop] at h
    cases hc : call i rs offset with
    | none => simp [hc] at h
    | some res =>
      obtain ⟨rs1, r⟩ := res
      have h1 := hcall i rs offset _ hc
      simp only [hc] at h
      split_ifs at h
      · simp only [Option.some.injEq] at h
        subst h
        exact h1
      · exact h1.trans (ih _ _ _ _ h)

theorem lookupLoop_extends {α : Type} (P : PatternData → Prop) (nodes : List α)
    (isNamed : α → Bool) (arraySize : Nat)
    (call : α → Nat → List PatternData → Nat → Option (List PatternData × Int))
    (hcall : ∀ node ∈ nodes, ∀ i rs offset res,
      call node i rs offset = some res → ExtendsWith P rs res.1)
    (rs : List PatternData) (offset : Nat) (foundType : Bool) (res : Flow × Bool)
    (h : lookupLoop nodes isNamed arraySize call rs offset foundType = some res) :
    ExtendsWith P rs res.1.regions := by
  unfold lookupLoop at h
  cases hf : nodes.find? isNamed with
  | none =>
    simp only [hf, Option.some.injEq] at h
    subst h
    exact ExtendsWith.refl _ _
  | some node =>
    simp only [hf] at h
    cases ha : arrayLoop (call node) arraySize 0 rs offset with
    | none => simp [ha] at h
    | some flow =>
      simp only [ha, Option.some.injEq] at h
      subst h
      exact arrayLoop_extends P _ (hcall node (List.mem_of_find?_eq_some hf)) _ _ _ _ _ ha

theorem resolveCustom_extends (P : PatternData → Prop) (ast : List ASTNode)
    (typeName : String) (arraySize : Nat)
    (structCall : ASTNodeStruct → Nat → List PatternData → Nat → Option (List PatternData × Int))
    (enumCall : ASTNodeEnum → Nat → List PatternData → Nat → Option (List PatternData × Int))
    (usingCall :
      ASTNodeTypeDecl → Nat → List PatternData → Nat → Option (List PatternData × Int))
    (hS : ∀ node ∈ findNodes ASTNode.asStruct ast, ∀ i rs offset res,
      structCall node i rs offset = some res → ExtendsWith P rs res.1)
    (hE : ∀ node ∈ findNodes ASTNode.asEnum ast, ∀ i rs offset res,
      enumCall node i rs offset = some res → ExtendsWith P rs res.1)
    (hU : ∀ node ∈ findNodes ASTNode.asTypeDecl ast, ∀ i rs offset res,
      usingCall node i rs offset = some res → ExtendsWith P rs res.1)
    (rs : List PatternData) (offset : Nat) (flow : Flow)
    (h : resolveCustom ast typeName arraySize structCall enumCall usingCall rs offset
      = some flow) :
    ExtendsWith P rs flow.regions := by
  unfold resolveCustom at h
  split at h
  · simp at h
  · next rs1 b1 h1 =>
    simp only [Option.some.injEq] at h
    subst h
    exact lookupLoop_extends P _ _ _ _ hS _ _ _ _ h1
  · next rs1 offset1 found1 h1 =>
    have e1 : ExtendsWith P rs rs1 := lookupLoop_extends P _ _ _ _ hS _ _ _ _ h1
    split at h
    · simp at h
    · next rs2 b2 h2 =>
      simp only [Option.some.injEq] at h
      subst h
      exact e1.trans (lookupLoop_extends P _ _ _ _ hE _ _ _ _ h2)
    · next rs2 offset2 found2 h2 =>
      have e2 : ExtendsWith P rs1 rs2 := lookupLoop_extends P _ _ _ _ hE _ _ _ _ h2
      split at h
      · simp at h
      · next rs3 b3 h3 =>
        simp only [Option.some.injEq] at h
        subst h
        exact (e1.trans e2).trans (lookupLoop_extends P _ _ _ _ hU _ _ _ _ h3)
      · next rs3 offset3 found3 h3 =>
        have e3 : ExtendsWith P rs2 rs3 := lookupLoop_extends P _ _ _ _ hU _ _ _ _ h3
        split_ifs at h <;>
          · simp only [Option.some.injEq] at h
            subst h
            exact (e1.trans e2).trans e3

theorem structLoop_extends (P : PatternData → Prop)
    (member : ASTNodeVariableDecl → List PatternData → Nat → Option Flow)
    (nodes : List ASTNodeVariableDecl)
    (hm : ∀ v ∈ nodes, ∀ rs offset flow, member v rs offset = some flow →
      ExtendsWith P rs flow.regions) :
    ∀ (rs : List PatternData) (offset : Nat) (flow : Flow),
      structLoop member nodes rs offset = some flow → ExtendsWith P rs flow.regions := by
  induction nodes with
  | nil =>
    intro rs offset flow h
    simp only [structLoop, Option.some.injEq] at h
    subst h
    exact ExtendsWith.refl _ _
  | cons v vs ih =>
    intro rs offset flow h
    rw [structLoop] at h
    split at h
    · simp at h
    · next rs1 h1 =>
      simp only [Option.some.injEq] at h
      subst h
      exact hm v (List.mem_cons_self _ _) _ _ _ h1
    · next rs1 offset1 h1 =>
      exact (hm v (List.mem_cons_self _ _) _ _ _ h1).trans
        (ih (fun w hw => hm w (List.mem_cons_of_mem _ hw)) _ _ _ h)

theorem highlightStructMember_extends (ast : List ASTNode) (name : String)
    (structCall : ASTNodeStruct → List PatternData → Nat → String →
      Option (List PatternData × Int))
    (usingCall : ASTNodeTypeDecl → ASTNodeVariableDecl → List PatternData → Nat → String →
      Option (List PatternData × Int))
    (hS : ∀ s rs offset nm res, structCall s rs offset nm = some res →
      ExtendsWith (nameStartsWith nm) rs res.1)
    (hU : ∀ a v rs offset nm res, usingCall a v rs offset nm = some res →
      ExtendsWith (nameStartsWith nm) rs res.1)
    (varNode : ASTNodeVariableDecl) (rs : List PatternData) (offset : Nat) (flow : Flow)
    (h : highlightStructMember ast name structCall usingCall varNode rs offset = some flow) :
    ExtendsWith (nameStartsWith name) rs flow.regions := by
  unfold highlightStructMember at h
  split_ifs at h
  · simp only [Option.some.injEq] at h
    subst h
    exact highlightStructBuiltin_extends _ _ _ _ _ _
  · refine resolveCustom_extends _ _ _ _ _ _ _ ?_ ?_ ?_ _ _ _ h
    · intro node _ i rs1 offset1 res hc
      exact (hS _ _ _ _ _ hc).mono (nameStartsWith_memberName varNode name i)
    · intro node _ i rs1 offset1 res hc
      simp only [Option.some.injEq] at hc
      subst hc
      exact (highlightEnum_extends _ _ _ _ _).mono (nameStartsWith_memberName varNode name i)
    · intro node _ i rs1 offset1 res hc
      exact (hU _ _ _ _ _ _ hc).mono (nameStartsWith_memberName varNode name i)

/-- Every call of `highlightStruct` and of `highlightUsingDecls` that returns leaves the list
it was given in place and appends regions whose names begin with the name it was given. -/
theorem highlight_extends (fuel : Nat) :
    (∀ ast s rs offset name res, highlightStruct fuel ast s rs offset name = some res →
      ExtendsWith (nameStartsWith name) rs res.1) ∧
    (∀ ast a v rs offset name res, highlightUsingDecls fuel ast a v rs offset name = some res →
      ExtendsWith (nameStartsWith name) rs res.1) := by
  induction fuel with
  | zero =>
    constructor
    · intro ast s rs offset name res h; simp [highlightStruct] at h
    · intro ast a v rs offset name res h; simp [highlightUsingDecls] at h
  | succ fuel ih =>
    obtain ⟨ihS, ihU⟩ := ih
    constructor
    · intro ast s rs offset name res h
      rw [highlightStruct_succ] at h
      have hl := structLoop_extends (nameStartsWith name)
        (highlightStructMember ast name (highlightStruct fuel ast)
          (highlightUsingDecls fuel ast)) s.nodes
        (fun v _ rs1 offset1 flow hf =>
          highlightStructMember_extends ast name _ _ (ihS ast) (ihU ast) v rs1 offset1 flow hf)
        rs offset
      split at h
      · simp at h
      · next rs1 h1 =>
        simp only [Option.some.injEq] at h
        subst h
        exact hl _ h1
      · next rs1 offset1 h1 =>
        simp only [Option.some.injEq] at h
        subst h
        exact hl _ h1
    · intro ast a v rs offset name res h
      rw [highlightUsingDecls] at h
      dsimp only at h
      split_ifs at h
      · simp only [Option.some.injEq] at h
        subst h
        exact ExtendsWith.add _ _ ⟨"", by simp [PatternData.name]⟩
      · simp only [Option.some.injEq] at h
        subst h
        exact ExtendsWith.add _ _ ⟨"", by simp [PatternData.name]⟩
      · simp only [Option.some.injEq] at h
        subst h
        exact ExtendsWith.add _ _ ⟨"", by simp [PatternData.name]⟩
      · simp only [Option.some.injEq] at h
        subst h
        exact ExtendsWith.refl _ _
      · have hl := resolveCustom_extends (nameStartsWith name) ast
          a.assignedCustomTypeName v.arraySize
          (fun structNode _ rs1 offset1 => highlightStruct fuel ast structNode rs1 offset1 name)
          (fun enumNode _ rs1 offset1 => some (highlightEnum ast enumNode rs1 offset1 name))
          (fun typeDeclNode _ rs1 offset1 =>
            highlightUsingDecls fuel ast typeDeclNode v rs1 offset1 name)
          (fun node _ i rs1 offset1 res hc => ihS _ _ _ _ _ _ hc)
          (fun node _ i rs1 offset1 res hc => by
            simp only [Option.some.injEq] at hc
            subst hc
            exact highlightEnum_extends _ _ _ _ _)
          (fun node _ i rs1 offset1 res hc => ihU _ _ _ _ _ _ _ hc)
          rs offset
        split at h
        · simp at h
        · next rs1 h1 =>
          simp only [Option.some.injEq] at h
          subst h
          exact hl _ h1
        · next rs1 offset1 h1 =>
          simp only [Option.some.injEq] at h
          subst h
          exact hl _ h1

/-- C18. `highlightStruct`, `highlightEnum` and `highlightUsingDecls` only append to the region
list: for every call that returns, with a size or with the failure value alike, the list after
the call is the list before the call followed by the regions the call emitted. -/
theorem highlight_append_only (fuel : Nat) (ast : List ASTNode) :
    (∀ (s : ASTNodeStruct) (rs : List PatternData) (offset : Nat) (name : String)
        (rs1 : List PatternData) (r : Int),
      highlightStruct fuel ast s rs offset name = some (rs1, r) →
        ∃ added : List PatternData, rs1 = rs ++ added) ∧
    (∀ (e : ASTNodeEnum) (rs : List PatternData) (offset : Nat) (name : String),
      ∃ added : List PatternData, (highlightEnum ast e rs offset name).1 = rs ++ added) ∧
    (∀ (a : ASTNodeTypeDecl) (v : ASTNodeVariableDecl) (rs : List PatternData) (offset : Nat)
        (name : String) (rs1 : List PatternData) (r : Int),
      highlightUsingDecls fuel ast a v rs offset name = some (rs1, r) →
        ∃ added : List PatternData, rs1 = rs ++ added) := by
  refine ⟨?_, ?_, ?_⟩
  · intro s rs offset name rs1 r h
    obtain ⟨added, e, _⟩ := (highlight_extends fuel).1 ast s rs offset name _ h
    exact ⟨added, e⟩
  · intro e rs offset name
    obtain ⟨added, e, _⟩ := highlightEnum_extends ast e rs offset name
    exact ⟨added, e⟩
  · intro a v rs offset name rs1 r h
    obtain ⟨added, e, _⟩ := (highlight_extends fuel).2 ast a v rs offset name _ h
    exact ⟨added, e⟩

/-- C18 at `struct S { u8 a; Missing m; }`, resolved after the region `x`: the call fails, and
the list holds `x` followed by the region of `a`, emitted before the failure. -/
theorem highlight_append_only_witness :
    highlightStruct 1 [] ⟨"S", [⟨u8, "a", "", none, 1⟩, ⟨CustomType, "m", "Missing", none, 1⟩]⟩
        [.Unsigned 0 1 "x"] 8 "s" =
      some ([.Unsigned 0 1 "x", .Unsigned 8 1 "s.a"], -1) ∧
    ∃ added : List PatternData,
      [PatternData.Unsigned 0 1 "x", .Unsigned 8 1 "s.a"] = [.Unsigned 0 1 "x"] ++ added :=
  ⟨by rfl, (highlight_append_only 1 []).1
    ⟨"S", [⟨u8, "a", "", none, 1⟩, ⟨CustomType, "m", "Missing", none, 1⟩]⟩
    [.Unsigned 0 1 "x"] 8 "s" _ (-1) (by rfl)⟩

/-! ## Names of the regions of a top-level declaration -/

theorem topLevelArrayLoop_names (P : PatternData → Prop)
    (call : List PatternData → Nat → Option (List PatternData × Int))
    (hcall : ∀ rs offset res, call rs offset = some res → ExtendsWith P rs res.1) (k : Nat) :
    ∀ (rs : List PatternData) (offset : Nat) (res : List PatternData × Nat),
      topLevelArrayLoop call k rs offset = some res → ∀ p ∈ res.1, p ∈ rs ∨ P p := by
  induction k with
  | zero =>
    intro rs offset res h p hp
    simp only [topLevelArrayLoop_zero, Option.some.injEq] at h
    subst h
    exact Or.inl hp
  | succ k ih =>
    intro rs offset res h p hp
    have hk : k + 1 < 2 ^ 32 := by
      by_contra hwide
      rw [topLevelArrayLoop_wide _ _ (by omega)] at h
      simp at h
    rw [topLevelArrayLoop_succ _ _ hk] at h
    cases hc : call rs offset with
    | none => simp [hc] at h
    | some res1 =>
      obtain ⟨rs1, r⟩ := res1
      obtain ⟨added, e, hadd⟩ := hcall rs offset _ hc
      simp only [hc] at h
      split_ifs at h
      · rcases ih _ _ _ h p hp with h1 | h1
        · simp [clearPatternData] at h1
        · exact Or.inr h1
      · rcases ih _ _ _ h p hp with h1 | h1
        · simp only at e
          rw [e] at h1
          rcases List.mem_append.mp h1 with h2 | h2
          · exact Or.inl h2
          · exact Or.inr (hadd p h2)
        · exact Or.inr h1

theorem topLevelLookup_names {α : Type} (P : PatternData → Prop) (isNamed : α → Bool)
    (arraySize : Nat) (call : α → List PatternData → Nat → Option (List PatternData × Int))
    (hcall : ∀ node rs offset res, call node rs offset = some res → ExtendsWith P rs res.1)
    (nodes : List α) :
    ∀ (rs : List PatternData) (offset : Nat) (res : List PatternData × Nat),
      topLevelLookup isNamed arraySize call nodes rs offset = some res →
        ∀ p ∈ res.1, p ∈ rs ∨ P p := by
  induction nodes with
  | nil =>
    intro rs offset res h p hp
    simp only [topLevelLookup, Option.some.injEq] at h
    subst h
    exact Or.inl hp
  | cons n ns ih =>
    intro rs offset res h p hp
    rw [topLevelLookup] at h
    split_ifs at h
    · split at h
      · simp at h
      · next rs1 offset1 h1 =>
        rcases ih _ _ _ h p hp with h2 | h2
        · exact topLevelArrayLoop_names P _ (hcall n) _ _ _ _ h1 p h2
        · exact Or.inr h2
    · exact ih _ _ _ h p hp

/-- C11 as amended. For a top-level variable declaration of custom type and array length
`N > 1`, every region in the list after its evaluation is a region of the list before it or has
a display name that begins with the variable name followed by `[N]`. -/
theorem topLevel_custom_array_names (fuel : Nat) (ast : List ASTNode)
    (v : ASTNodeVariableDecl) (rs rs1 : List PatternData)
    (hv : v.variableType = CustomType) (hN : 1 < v.arraySize)
    (h : evaluateVariable fuel ast v rs = some rs1) :
    ∀ p ∈ rs1, p ∈ rs ∨
      ∃ t : String, p.name = v.variableName ++ "[" ++ toString v.arraySize ++ "]" ++ t := by
  have hname : topLevelName v = v.variableName ++ "[" ++ toString v.arraySize ++ "]" := by
    simp [topLevelName, hN]
  rw [← hname]
  intro p hp
  unfold evaluateVariable at h
  cases ho : v.offset with
  | none =>
    simp only [ho, Option.some.injEq] at h
    subst h
    exact Or.inl hp
  | some O =>
    simp only [ho, hv, bne_self_eq_false, Bool.false_eq_true, if_false] at h
    split at h
    · simp at h
    · next rsA offsetA hA =>
      split at h
      · simp at h
      · next rsB offsetB hB =>
        split at h
        · simp at h
        · next rsC offsetC hC =>
          simp only [Option.some.injEq] at h
          subst h
          have kA := topLevelLookup_names (nameStartsWith (topLevelName v)) _ _ _
            (fun node rs0 offset0 res hc => (highlight_extends fuel).1 _ _ _ _ _ _ hc)
            _ _ _ _ hA
          have kB := topLevelLookup_names (nameStartsWith (topLevelName v)) _ _ _
            (fun node rs0 offset0 res hc => by
              simp only [Option.some.injEq] at hc
              subst hc
              exact highlightEnum_extends _ _ _ _ _)
            _ _ _ _ hB
          have kC := topLevelLookup_names (nameStartsWith (topLevelName v)) _ _ _
            (fun node rs0 offset0 res hc => (highlight_extends fuel).2 _ _ _ _ _ _ _ hc)
            _ _ _ _ hC
          rcases kC p hp with h1 | h1
          · rcases kB p h1 with h2 | h2
            · exact kA p h2
            · exact Or.inr h2
          · exact Or.inr h1

/-- C11 at `struct S { u8 a; } S s[2] @ 0;`: both regions are named `s[2].a`. -/
theorem topLevel_custom_array_names_witness :
    evaluateVariable 1 [.Struct smallStruct] ⟨CustomType, "s", "S", some 0, 2⟩ [] =
      some [.Unsigned 0 1 "s[2].a", .Unsigned 1 1 "s[2].a"] ∧
    ∀ p ∈ [PatternData.Unsigned 0 1 "s[2].a", .Unsigned 1 1 "s[2].a"],
      p ∈ ([] : List PatternData) ∨
        ∃ t : String, p.name = "s" ++ "[" ++ toString 2 ++ "]" ++ t :=
  ⟨by rfl, topLevel_custom_array_names 1 [.Struct smallStruct]
    ⟨CustomType, "s", "S", some 0, 2⟩ [] _ rfl (by decide) (by rfl)⟩

/-- C11 as stated fails for a built-in type: for `u8 v[2] @ 0;` the one region is named `v`,
which does not begin with `v[2]`. -/
theorem topLevel_builtin_array_name_counterexample :
    evaluateVariable 1 [] ⟨u8, "v", "", some 0, 2⟩ [] = some [.Unsigned 0 2 "v"] ∧
    ¬ ∃ t : String, (PatternData.Unsigned 0 2 "v").name = "v" ++ "[" ++ toString 2 ++ "]" ++ t := by
  refine ⟨by rfl, ?_⟩
  rintro ⟨t, ht⟩
  have := congrArg String.length ht
  simp only [PatternData.name, String.length_append] at this
  have h1 : "v".length = 1 := by decide
  have h2 : "[".length = 1 := by decide
  rw [h1, h2] at this
  omega

/-! ## Declarations without an offset -/

theorem findNodes_removeOffsetless (ast : List ASTNode) :
    findNodes ASTNode.asStruct (removeOffsetless ast) = findNodes ASTNode.asStruct ast ∧
    findNodes ASTNode.asEnum (removeOffsetless ast) = findNodes ASTNode.asEnum ast ∧
    findNodes ASTNode.asTypeDecl (removeOffsetless ast) = findNodes ASTNode.asTypeDecl ast ∧
    findNodes ASTNode.asVariableDecl (removeOffsetless ast) =
      (findNodes ASTNode.asVariableDecl ast).filter fun v => v.offset.isSome := by
  induction ast with
  | nil => exact ⟨rfl, rfl, rfl, rfl⟩
  | cons n ns ih =>
    obtain ⟨h1, h2, h3, h4⟩ := ih
    unfold removeOffsetless findNodes at *
    cases n with
    | VariableDecl v =>
      by_cases hv : v.offset.isSome = true
      · simp [List.filter_cons, hv, ASTNode.asStruct, ASTNode.asEnum, ASTNode.asTypeDecl,
          ASTNode.asVariableDecl, h1, h2, h3, h4]
      · simp [List.filter_cons, hv, ASTNode.asStruct, ASTNode.asEnum, ASTNode.asTypeDecl,
          ASTNode.asVariableDecl, h1, h2, h3, h4]
    | Struct s =>
      simp [List.filter_cons, ASTNode.asStruct, ASTNode.asEnum, ASTNode.asTypeDecl,
        ASTNode.asVariableDecl, h1, h2, h3, h4]
    | Enum e =>
      simp [List.filter_cons, ASTNode.asStruct, ASTNode.asEnum, ASTNode.asTypeDecl,
        ASTNode.asVariableDecl, h1, h2, h3, h4]
    | TypeDecl a =>
      simp [List.filter_cons, ASTNode.asStruct, ASTNode.asEnum, ASTNode.asTypeDecl,
        ASTNode.asVariableDecl, h1, h2, h3, h4]

theorem resolveCustom_congr (ast ast1 : List ASTNode)
    (hS : findNodes ASTNode.asStruct ast1 = findNodes ASTNode.asStruct ast)
    (hE : findNodes ASTNode.asEnum ast1 = findNodes ASTNode.asEnum ast)
    (hU : findNodes ASTNode.asTypeDecl ast1 = findNodes ASTNode.asTypeDecl ast) :
    resolveCustom ast1 = resolveCustom ast := by
  funext typeName arraySize structCall enumCall usingCall rs offset
  unfold resolveCustom
  rw [hS, hE, hU]

/-- The evaluator reads the syntax tree only through its structs, enums and type
declarations. -/
theorem highlight_congr (ast ast1 : List ASTNode)
    (hS : findNodes ASTNode.asStruct ast1 = findNodes ASTNode.asStruct ast)
    (hE : findNodes ASTNode.asEnum ast1 = findNodes ASTNode.asEnum ast)
    (hU : findNodes ASTNode.asTypeDecl ast1 = findNodes ASTNode.asTypeDecl ast) (fuel : Nat) :
    highlightStruct fuel ast1 = highlightStruct fuel ast ∧
      highlightUsingDecls fuel ast1 = highlightUsingDecls fuel ast := by
  have hen : highlightEnum ast1 = highlightEnum ast := rfl
  induction fuel with
  | zero =>
    constructor
    · funext s rs offset name; simp [highlightStruct]
    · funext a v rs offset name; simp [highlightUsingDecls]
  | succ fuel ih =>
    obtain ⟨ihS, ihU⟩ := ih
    constructor
    · funext s rs offset name
      rw [highlightStruct_succ, highlightStruct_succ, ihS, ihU]
      have : highlightStructMember ast1 name (highlightStruct fuel ast)
          (highlightUsingDecls fuel ast) =
          highlightStructMember ast name (highlightStruct fuel ast)
            (highlightUsingDecls fuel ast) := by
        funext v rs1 offset1
        unfold highlightStructMember
        rw [resolveCustom_congr ast ast1 hS hE hU, hen]
      rw [this]
    · funext a v rs offset name
      rw [highlightUsingDecls, highlightUsingDecls, ihS, ihU,
        resolveCustom_congr ast ast1 hS hE hU, hen]

theorem evaluate_filter (fuel : Nat) (ast : List ASTNode) (vars : List ASTNodeVariableDecl) :
    ∀ rs : List PatternData,
      evaluate fuel ast (vars.filter fun v => v.offset.isSome) rs =
        evaluate fuel ast vars rs := by
  induction vars with
  | nil => intro rs; rfl
  | cons v vs ih =>
    intro rs
    cases ho : v.offset with
    | none =>
      have hv : evaluateVariable fuel ast v rs = some rs := by
        simp [evaluateVariable, ho]
      simp only [List.filter_cons, ho, Option.isSome_none, Bool.false_eq_true, if_false,
        evaluate, hv]
      exact ih rs
    | some O =>
      simp only [List.filter_cons, ho, Option.isSome_some, if_true, evaluate]
      cases evaluateVariable fuel ast v rs with
      | none => rfl
      | some rs1 => exact ih rs1

theorem evaluate_congr (ast ast1 : List ASTNode)
    (hS : findNodes ASTNode.asStruct ast1 = findNodes ASTNode.asStruct ast)
    (hE : findNodes ASTNode.asEnum ast1 = findNodes ASTNode.asEnum ast)
    (hU : findNodes ASTNode.asTypeDecl ast1 = findNodes ASTNode.asTypeDecl ast) (fuel : Nat)
    (vars : List ASTNodeVariableDecl) :
    ∀ rs : List PatternData, evaluate fuel ast1 vars rs = evaluate fuel ast vars rs := by
  obtain ⟨h1, h2⟩ := highlight_congr ast ast1 hS hE hU fuel
  have hen : highlightEnum ast1 = highlightEnum ast := rfl
  have hv : evaluateVariable fuel ast1 = evaluateVariable fuel ast := by
    funext v rs
    unfold evaluateVariable
    rw [hS, hE, hU, h1, h2, hen]
  induction vars with
  | nil => intro rs; rfl
  | cons v vs ih =>
    intro rs
    simp only [evaluate, hv]
    cases evaluateVariable fuel ast v rs with
    | none => rfl
    | some rs1 => exact ih rs1

/-- C12. Top-level variable declarations without a fixed offset are passed over: the region
list the evaluation loop produces from a syntax tree is the list it produces from the same tree
with these declarations removed, for every fuel and every list to start from; so is the result
of `parsePattern`. -/
theorem evaluate_ignores_offsetless (fuel : Nat) (ast : List ASTNode)
    (rs : List PatternData) (buffer : String) :
    evaluate fuel ast (findNodes ASTNode.asVariableDecl ast) rs =
      evaluate fuel (removeOffsetless ast)
        (findNodes ASTNode.asVariableDecl (removeOffsetless ast)) rs ∧
    parsePattern (stagesYielding ast) fuel buffer rs =
      parsePattern (stagesYielding (removeOffsetless ast)) fuel buffer rs := by
  obtain ⟨hS, hE, hU, hV⟩ := findNodes_removeOffsetless ast
  have h : ∀ rs1 : List PatternData,
      evaluate fuel ast (findNodes ASTNode.asVariableDecl ast) rs1 =
        evaluate fuel (removeOffsetless ast)
          (findNodes ASTNode.asVariableDecl (removeOffsetless ast)) rs1 := by
    intro rs1
    rw [evaluate_congr ast (removeOffsetless ast) hS hE hU, hV, evaluate_filter]
  exact ⟨h rs, h _⟩

/-! ## Failure of a nested call -/

theorem structLoop_append (member : ASTNodeVariableDecl → List PatternData → Nat → Option Flow)
    (pre rest : List ASTNodeVariableDecl) :
    ∀ (rs : List PatternData) (offset : Nat) (rs1 : List PatternData) (offset1 : Nat),
      structLoop member pre rs offset = some (.next rs1 offset1) →
        structLoop member (pre ++ rest) rs offset = structLoop member rest rs1 offset1 := by
  induction pre with
  | nil =>
    intro rs offset rs1 offset1 h
    simp only [structLoop, Option.some.injEq, Flow.next.injEq] at h
    obtain ⟨h1, h2⟩ := h
    subst h1 h2
    rfl
  | cons p ps ih =>
    intro rs offset rs1 offset1 h
    rw [structLoop] at h
    rw [List.cons_append, structLoop]
    cases hm : member p rs offset with
    | none => simp [hm] at h
    | some flow =>
      cases flow with
      | failed rs2 => simp [hm] at h
      | next rs2 offset2 =>
        simp only [hm] at h ⊢
        exact ih _ _ _ _ h

theorem arrayLoop_add (call : Nat → List PatternData → Nat → Option (List PatternData × Int))
    (j m : Nat) :
    ∀ (i : Nat) (rs : List PatternData) (offset : Nat) (rs1 : List PatternData)
      (offset1 : Nat),
      arrayLoop call j i rs offset = some (.next rs1 offset1) →
        arrayLoop call (j + m) i rs offset = arrayLoop call m (i + j) rs1 offset1 := by
  induction j with
  | zero =>
    intro i rs offset rs1 offset1 h
    simp only [arrayLoop, Option.some.injEq, Flow.next.injEq] at h
    obtain ⟨h1, h2⟩ := h
    subst h1 h2
    simp
  | succ j ih =>
    intro i rs offset rs1 offset1 h
    rw [arrayLoop] at h
    rw [show j + 1 + m = (j + m) + 1 by omega, arrayLoop]
    cases hc : call i rs offset with
    | none => simp [hc] at h
    | some res =>
      obtain ⟨rs2, r⟩ := res
      simp only [hc] at h ⊢
      split_ifs at h ⊢
      · simp at h
      · rw [ih _ _ _ _ _ h]
        congr 1
        omega

/-- The element loop around a nested call returns the failure value as soon as one call does:
when the elements before `j` are resolved and the call for element `j` hands back `-1`, the
loop ends with the list that call left, whatever the array size. -/
theorem arrayLoop_failed (call : Nat → List PatternData → Nat → Option (List PatternData × Int))
    (arraySize j : Nat) (rs rs1 rs2 : List PatternData) (offset offset1 : Nat)
    (hj : j < arraySize)
    (hbefore : arrayLoop call j 0 rs offset = some (.next rs1 offset1))
    (hfail : call j rs1 offset1 = some (rs2, -1)) :
    arrayLoop call arraySize 0 rs offset = some (.failed rs2) := by
  obtain ⟨m, hm⟩ : ∃ m, arraySize = j + (m + 1) := ⟨arraySize - j - 1, by omega⟩
  rw [hm, arrayLoop_add call j (m + 1) 0 rs offset rs1 offset1 hbefore, Nat.zero_add,
    arrayLoop]
  simp [hfail]

theorem highlightStruct_of_member_failed (fuel : Nat) (ast : List ASTNode)
    (structName : String) (pre post : List ASTNodeVariableDecl) (v : ASTNodeVariableDecl)
    (rs : List PatternData) (O : Nat) (name : String) (rs1 rs2 : List PatternData)
    (offset1 : Nat)
    (hpre : structLoop (highlightStructMember ast name (highlightStruct fuel ast)
      (highlightUsingDecls fuel ast)) pre rs O = some (.next rs1 offset1))
    (hm : highlightStructMember ast name (highlightStruct fuel ast)
      (highlightUsingDecls fuel ast) v rs1 offset1 = some (.failed rs2)) :
    highlightStruct (fuel + 1) ast ⟨structName, pre ++ v :: post⟩ rs O name =
      some (rs2, -1) := by
  rw [highlightStruct_succ]
  simp only [structLoop_append _ pre (v :: post) rs O rs1 offset1 hpre, structLoop, hm]

theorem structLoop_append_failed
    (member : ASTNodeVariableDecl → List PatternData → Nat → Option Flow)
    (pre rest : List ASTNodeVariableDecl) :
    ∀ (rs : List PatternData) (offset : Nat) (rs1 : List PatternData),
      structLoop member pre rs offset = some (.failed rs1) →
        structLoop member (pre ++ rest) rs offset = some (.failed rs1) := by
  induction pre with
  | nil => intro rs offset rs1 h; simp [structLoop] at h
  | cons p ps ih =>
    intro rs offset rs1 h
    rw [structLoop] at h
    rw [List.cons_append, structLoop]
    cases hm : member p rs offset with
    | none => simp [hm] at h
    | some flow =>
      cases flow with
      | failed rs2 => simpa [hm] using h
      | next rs2 offset2 =>
        simp only [hm] at h ⊢
        exact ih _ _ _ h

/-- C14 as amended. Take a struct with the custom typed member `v`, the members `pre` before
it and the members `post` after it. If the resolution of the members before `v` returns and the
type name of `v` names no struct, no enum and no type declaration, `highlightStruct` hands back
the failure value, with the list that was reached. If the member loop reaches `v` and the nested
call of `highlightStruct`, of `highlightEnum` or of `highlightUsingDecls` for an element `j` of
`v` hands back the failure value (the elements before `j`, and the kinds looked up before, being
resolved), `highlightStruct` hands back the failure value with the list that call left. In each
case the result is the same whatever members follow `v`: no later member is processed. -/
theorem highlightStruct_failure_propagates (fuel : Nat) (ast : List ASTNode)
    (structName : String) (pre post : List ASTNodeVariableDecl) (v : ASTNodeVariableDecl)
    (rs : List PatternData) (O : Nat) (name : String)
    (hv : v.variableType = CustomType) :
    (∀ flow : Flow,
      structLoop (highlightStructMember ast name (highlightStruct fuel ast)
        (highlightUsingDecls fuel ast)) pre rs O = some flow →
      (∀ s ∈ findNodes ASTNode.asStruct ast, s.name ≠ v.customVariableTypeName) →
      (∀ e ∈ findNodes ASTNode.asEnum ast, e.name ≠ v.customVariableTypeName) →
      (∀ a ∈ findNodes ASTNode.asTypeDecl ast, a.typeName ≠ v.customVariableTypeName) →
      highlightStruct (fuel + 1) ast ⟨structName, pre ++ v :: post⟩ rs O name =
        some (flow.regions, -1)) ∧
    (∀ (rs1 : List PatternData) (offset1 : Nat),
      structLoop (highlightStructMember ast name (highlightStruct fuel ast)
        (highlightUsingDecls fuel ast)) pre rs O = some (.next rs1 offset1) →
    (∀ (S : ASTNodeStruct) (j : Nat) (rsB : List PatternData) (offsetB : Nat)
        (rsC : List PatternData),
      (findNodes ASTNode.asStruct ast).find? (fun n => n.name == v.customVariableTypeName)
        = some S →
      j < v.arraySize →
      arrayLoop (fun i rs0 offset0 =>
          highlightStruct fuel ast S rs0 offset0 (memberName v name i)) j 0 rs1 offset1
        = some (.next rsB offsetB) →
      highlightStruct fuel ast S rsB offsetB (memberName v name j) = some (rsC, -1) →
      highlightStruct (fuel + 1) ast ⟨structName, pre ++ v :: post⟩ rs O name =
        some (rsC, -1)) ∧
    (∀ (E : ASTNodeEnum) (j : Nat) (rsA : List PatternData) (offsetA : Nat) (found : Bool)
        (rsB : List PatternData) (offsetB : Nat) (rsC : List PatternData),
      lookupLoop (findNodes ASTNode.asStruct ast)
          (fun n => n.name == v.customVariableTypeName) v.arraySize
          (fun structNode i rs0 offset0 =>
            highlightStruct fuel ast structNode rs0 offset0 (memberName v name i))
          rs1 offset1 false = some (.next rsA offsetA, found) →
      (findNodes ASTNode.asEnum ast).find? (fun n => n.name == v.customVariableTypeName)
        = some E →
      j < v.arraySize →
      arrayLoop (fun i rs0 offset0 =>
          some (highlightEnum ast E rs0 offset0 (memberName v name i))) j 0 rsA offsetA
        = some (.next rsB offsetB) →
      highlightEnum ast E rsB offsetB (memberName v name j) = (rsC, -1) →
      highlightStruct (fuel + 1) ast ⟨structName, pre ++ v :: post⟩ rs O name =
        some (rsC, -1)) ∧
    (∀ (A : ASTNodeTypeDecl) (j : Nat) (rsA : List PatternData) (offsetA : Nat) (found : Bool)
        (rsA1 : List PatternData) (offsetA1 : Nat) (found1 : Bool)
        (rsB : List PatternData) (offsetB : Nat) (rsC : List PatternData),
      lookupLoop (findNodes ASTNode.asStruct ast)
          (fun n => n.name == v.customVariableTypeName) v.arraySize
          (fun structNode i rs0 offset0 =>
            highlightStruct fuel ast structNode rs0 offset0 (memberName v name i))
          rs1 offset1 false = some (.next rsA offsetA, found) →
      lookupLoop (findNodes ASTNode.asEnum ast)
          (fun n => n.name == v.customVariableTypeName) v.arraySize
          (fun enumNode i rs0 offset0 =>
            some (highlightEnum ast enumNode rs0 offset0 (memberName v name i)))
          rsA offsetA found = some (.next rsA1 offsetA1, found1) →
      (findNodes ASTNode.asTypeDecl ast).find?
        (fun n => n.typeName == v.customVariableTypeName) = some A →
      j < v.arraySize →
      arrayLoop (fun i rs0 offset0 =>
          highlightUsingDecls fuel ast A v rs0 offset0 (memberName v name i)) j 0 rsA1
          offsetA1 = some (.next rsB offsetB) →
      highlightUsingDecls fuel ast A v rsB offsetB (memberName v name j) = some (rsC, -1) →
      highlightStruct (fuel + 1) ast ⟨structName, pre ++ v :: post⟩ rs O name =
        some (rsC, -1))) := by
  refine ⟨?_, fun rs1 offset1 hpre => ⟨?_, ?_, ?_⟩⟩
  · intro flow hpre hS hE hA
    have hfS : (findNodes ASTNode.asStruct ast).find?
        (fun n => n.name == v.customVariableTypeName) = none :=
      find?_eq_none_of_ne _ ASTNodeStruct.name _ hS
    have hfE : (findNodes ASTNode.asEnum ast).find?
        (fun n => n.name == v.customVariableTypeName) = none :=
      find?_eq_none_of_ne _ ASTNodeEnum.name _ hE
    have hfA : (findNodes ASTNode.asTypeDecl ast).find?
        (fun n => n.typeName == v.customVariableTypeName) = none :=
      find?_eq_none_of_ne _ ASTNodeTypeDecl.typeName _ hA
    cases flow with
    | failed rsF =>
      rw [highlightStruct_succ]
      simp only [structLoop_append_failed _ pre (v :: post) rs O rsF hpre, Flow.regions]
    | next rs1 offset1 =>
      apply highlightStruct_of_member_failed fuel ast structName pre post v rs O name rs1 rs1
        offset1 hpre
      simp only [highlightStructMember, hv, bne_self_eq_false, Bool.false_eq_true, if_false,
        resolveCustom, lookupLoop, hfS, hfE, hfA, Bool.not_false, if_true]
  · intro S j rsB offsetB rsC hfS hj hbefore hfail
    have hloop := arrayLoop_failed
      (fun i rs0 offset0 => highlightStruct fuel ast S rs0 offset0 (memberName v name i))
      v.arraySize j rs1 rsB rsC offset1 offsetB hj hbefore hfail
    apply highlightStruct_of_member_failed fuel ast structName pre post v rs O name rs1 rsC
      offset1 hpre
    simp only [highlightStructMember, hv, bne_self_eq_false, Bool.false_eq_true, if_false,
      resolveCustom, lookupLoop, hfS, hloop]
  · intro E j rsA offsetA found rsB offsetB rsC hlS hfE hj hbefore hfail
    have hloop := arrayLoop_failed
      (fun i rs0 offset0 => some (highlightEnum ast E rs0 offset0 (memberName v name i)))
      v.arraySize j rsA rsB rsC offsetA offsetB hj hbefore (congrArg some hfail)
    apply highlightStruct_of_member_failed fuel ast structName pre post v rs O name rs1 rsC
      offset1 hpre
    simp only [highlightStructMember, hv, bne_self_eq_false, Bool.false_eq_true, if_false,
      resolveCustom, hlS]
    simp only [lookupLoop, hfE, hloop]
  · intro A j rsA offsetA found rsA1 offsetA1 found1 rsB offsetB rsC hlS hlE hfA hj hbefore
      hfail
    have hloop := arrayLoop_failed
      (fun i rs0 offset0 => highlightUsingDecls fuel ast A v rs0 offset0 (memberName v name i))
      v.arraySize j rsA1 rsB rsC offsetA1 offsetB hj hbefore hfail
    apply highlightStruct_of_member_failed fuel ast structName pre post v rs O name rs1 rsC
      offset1 hpre
    simp only [highlightStructMember, hv, bne_self_eq_false, Bool.false_eq_true, if_false,
      resolveCustom, hlS, hlE]
    simp only [lookupLoop, hfA, hloop]

/-- C14 as amended, at `struct S { u8 a; Missing m; u8 c; }` and at `struct T { u8 a; E e; u8 c; }` with
`enum E : s8 {}`: the region of `a` is emitted, the call fails, and no region of `c` is
emitted. -/
theorem highlightStruct_failure_propagates_witness :
    highlightStruct (0 + 1) []
        ⟨"S", [⟨u8, "a", "", none, 1⟩] ++ ⟨CustomType, "m", "Missing", none, 1⟩ ::
          [⟨u8, "c", "", none, 1⟩]⟩ [] 0 "s" =
      some ([.Unsigned 0 1 "s.a"], -1) ∧
    highlightStruct (0 + 1) [.Enum ⟨"E", s8, []⟩]
        ⟨"T", [⟨u8, "a", "", none, 1⟩] ++ ⟨CustomType, "e", "E", none, 1⟩ ::
          [⟨u8, "c", "", none, 1⟩]⟩ [] 0 "t" =
      some ([.Unsigned 0 1 "t.a"], -1) :=
  ⟨(highlightStruct_failure_propagates 0 [] "S" [⟨u8, "a", "", none, 1⟩]
      [⟨u8, "c", "", none, 1⟩] ⟨CustomType, "m", "Missing", none, 1⟩ [] 0 "s" rfl).1
      (.next [.Unsigned 0 1 "s.a"] 1) (by rfl) (by decide) (by decide) (by decide),
    ((highlightStruct_failure_propagates 0 [.Enum ⟨"E", s8, []⟩] "T" [⟨u8, "a", "", none, 1⟩]
      [⟨u8, "c", "", none, 1⟩] ⟨CustomType, "e", "E", none, 1⟩ [] 0 "t" rfl).2
      [.Unsigned 0 1 "t.a"] 1 (by rfl)).2.1 ⟨"E", s8, []⟩ 0 [.Unsigned 0 1 "t.a"] 1 false
      [.Unsigned 0 1 "t.a"] 1 [.Unsigned 0 1 "t.a"] (by rfl) (by rfl) (by decide) (by rfl)
      (by rfl)⟩

theorem highlightStruct_selfStruct (fuel : Nat) :
    ∀ (rs : List PatternData) (offset : Nat) (name : String),
      highlightStruct fuel [.Struct selfStruct] selfStruct rs offset name = none := by
  induction fuel with
  | zero => intro rs offset name; simp [highlightStruct]
  | succ fuel ih =>
    intro rs offset name
    have hf : (findNodes ASTNode.asStruct [.Struct selfStruct]).find?
        (fun n => n.name == "S") = some selfStruct := by decide
    have hm : highlightStructMember [.Struct selfStruct] name
        (highlightStruct fuel [.Struct selfStruct])
        (highlightUsingDecls fuel [.Struct selfStruct])
        ⟨CustomType, "x", "S", none, 1⟩ rs offset = none := by
      simp only [highlightStructMember, bne_self_eq_false, Bool.false_eq_true, if_false,
        resolveCustom, lookupLoop, hf, arrayLoop, ih]
    rw [highlightStruct_succ]
    show (match structLoop _ [⟨CustomType, "x", "S", none, 1⟩,
        ⟨CustomType, "m", "Missing", none, 1⟩] rs offset with
      | none => none
      | some (.failed rs1) => some (rs1, -1)
      | some (.next rs1 offset1) => some (rs1, s32 (u64sub offset1 offset))) = none
    rw [structLoop, hm]

/-- C14 as stated fails. In `struct S { S x; Missing m; }` the member `m` has a type name that
names no struct, enum or type declaration, but the resolution of the member `x` before it calls
`highlightStruct` for `S` again without end: no fuel makes `highlightStruct` return, so it
never hands back the failure value. -/
theorem highlightStruct_failure_counterexample :
    (∀ s ∈ findNodes ASTNode.asStruct [.Struct selfStruct], s.name ≠ "Missing") ∧
    ¬ ∃ (fuel : Nat) (res : List PatternData × Int),
      highlightStruct fuel [.Struct selfStruct] selfStruct [] 0 "s" = some res := by
  refine ⟨by decide, ?_⟩
  rintro ⟨fuel, res, h⟩
  rw [highlightStruct_selfStruct] at h
  exact Option.noConfusion h

/-! ## Type declarations that lead in a circle -/

/-- C16. In a syntax tree with type declarations that lead in a circle (each names the next
one; one that names itself is the shortest case), where type names are unique among structs,
enums and type declarations as the data model has it, so that no struct and no enum bears a name
of the circle, `highlightUsingDecls`, called for one of them and a declaration of array length
at least one, returns neither a size nor the failure value: no amount of fuel yields a
result. -/
theorem highlightUsingDecls_cycle (ast : List ASTNode) (onCycle : ASTNodeTypeDecl → Prop)
    (hc : AliasCycle ast onCycle) (v : ASTNodeVariableDecl) (hN : 1 ≤ v.arraySize)
    (fuel : Nat) :
    ∀ (a : ASTNodeTypeDecl), onCycle a →
      ∀ (rs : List PatternData) (offset : Nat) (name : String),
        highlightUsingDecls fuel ast a v rs offset name = none := by
  induction fuel with
  | zero => intro a _ rs offset name; simp [highlightUsingDecls]
  | succ fuel ih =>
    intro a ha rs offset name
    obtain ⟨h1, hS, hE, b, hb, hbc⟩ := hc a ha
    have hfS : (findNodes ASTNode.asStruct ast).find?
        (fun n => n.name == a.assignedCustomTypeName) = none :=
      find?_eq_none_of_ne _ ASTNodeStruct.name _ hS
    have hfE : (findNodes ASTNode.asEnum ast).find?
        (fun n => n.name == a.assignedCustomTypeName) = none :=
      find?_eq_none_of_ne _ ASTNodeEnum.name _ hE
    obtain ⟨k, hk⟩ : ∃ k, v.arraySize = k + 1 := ⟨v.arraySize - 1, by omega⟩
    rw [highlightUsingDecls]
    simp only [h1, bne_self_eq_false, Bool.false_eq_true, if_false, resolveCustom, lookupLoop,
      hfS, hfE, hb, hk, arrayLoop, ih b hbc]

/-- C16 at `using A = A;` and at the circle `using A = B; using B = A;`, for the declaration
`A v @ 4;`. -/
theorem highlightUsingDecls_cycle_witness :
    (∀ fuel : Nat,
      highlightUsingDecls fuel [.TypeDecl usingAA] usingAA aliasVariable [] 4 "v" = none) ∧
    (∀ fuel : Nat,
      highlightUsingDecls fuel [.TypeDecl usingAB, .TypeDecl usingBA] usingAB aliasVariable
        [] 4 "v" = none) :=
  ⟨fun fuel => highlightUsingDecls_cycle [.TypeDecl usingAA] (fun a => a = usingAA)
      (by
        intro a ha
        subst ha
        exact ⟨rfl, by decide, by decide, usingAA, by decide, rfl⟩)
      aliasVariable (by decide) fuel usingAA rfl [] 4 "v",
    fun fuel => highlightUsingDecls_cycle [.TypeDecl usingAB, .TypeDecl usingBA]
      (fun a => a = usingAB ∨ a = usingBA)
      (by
        intro a ha
        rcases ha with ha | ha
        · subst ha
          exact ⟨rfl, by decide, by decide, usingBA, by decide, Or.inr rfl⟩
        · subst ha
          exact ⟨rfl, by decide, by decide, usingAB, by decide, Or.inl rfl⟩)
      aliasVariable (by decide) fuel usingAB (Or.inl rfl) [] 4 "v"⟩

/-- Where a struct bears the name of a type declaration of the circle, which the data model
rules out, the lookup among the structs comes first: in `struct A { Missing m; } using A = A;`
the struct `A` fails and `highlightUsingDecls` hands back the failure value before the type
declarations are looked up. -/
theorem highlightUsingDecls_same_name_struct :
    usingAA.assignedCustomTypeName = usingAA.typeName ∧
    highlightUsingDecls 2 [.Struct failingStruct, .TypeDecl usingAA] usingAA
        ⟨CustomType, "v", "A", some 0, 1⟩ [] 0 "v" = some ([], -1) := by
  refine ⟨rfl, by rfl⟩

theorem resolveCustom_alias_fails (ast : List ASTNode) (typeName : String) (k : Nat)
    (structCall : ASTNodeStruct → Nat → List PatternData → Nat → Option (List PatternData × Int))
    (enumCall : ASTNodeEnum → Nat → List PatternData → Nat → Option (List PatternData × Int))
    (usingCall :
      ASTNodeTypeDecl → Nat → List PatternData → Nat → Option (List PatternData × Int))
    (b : ASTNodeTypeDecl)
    (hb : (findNodes ASTNode.asTypeDecl ast).find? (fun n => n.typeName == typeName) = some b)
    (hcall : ∀ rs offset res, usingCall b 0 rs offset = some res → res.2 = -1)
    (rs : List PatternData) (offset : Nat) (flow : Flow)
    (h : resolveCustom ast typeName (k + 1) structCall enumCall usingCall rs offset =
      some flow) :
    ∃ rs1, flow = .failed rs1 := by
  unfold resolveCustom at h
  split at h
  · simp at h
  · simp only [Option.some.injEq] at h
    exact ⟨_, h.symm⟩
  · split at h
    · simp at h
    · simp only [Option.some.injEq] at h
      exact ⟨_, h.symm⟩
    · next rs2 offset2 found2 _ =>
      rw [lookupLoop_some _ _ _ _ _ _ _ b hb, arrayLoop] at h
      cases hc : usingCall b 0 rs2 offset2 with
      | none => simp [hc] at h
      | some res =>
        obtain ⟨rs3, r⟩ := res
        have hr : r = -1 := hcall _ _ _ hc
        subst hr
        simp only [hc, beq_self_eq_true, if_true, Option.map_some', Option.some.injEq] at h
        exact ⟨_, h.symm⟩

/-- Type declarations that lead in a circle, whatever else bears their names: called for one of
them and a declaration of array length at least one, `highlightUsingDecls` never hands back a
size. When it returns at all it hands back the failure value, which a struct or an enum that
bears a name of the circle has produced. -/
theorem highlightUsingDecls_circle_no_size (ast : List ASTNode)
    (onCycle : ASTNodeTypeDecl → Prop)
    (hc : ∀ a, onCycle a → a.assignedType = CustomType ∧
      ∃ b, (findNodes ASTNode.asTypeDecl ast).find?
        (fun n => n.typeName == a.assignedCustomTypeName) = some b ∧ onCycle b)
    (v : ASTNodeVariableDecl) (hN : 1 ≤ v.arraySize) (fuel : Nat) :
    ∀ (a : ASTNodeTypeDecl), onCycle a →
      ∀ (rs : List PatternData) (offset : Nat) (name : String) (res : List PatternData × Int),
        highlightUsingDecls fuel ast a v rs offset name = some res → res.2 = -1 := by
  induction fuel with
  | zero => intro a _ rs offset name res h; simp [highlightUsingDecls] at h
  | succ fuel ih =>
    intro a ha rs offset name res h
    obtain ⟨h1, b, hb, hbc⟩ := hc a ha
    obtain ⟨k, hk⟩ : ∃ k, v.arraySize = k + 1 := ⟨v.arraySize - 1, by omega⟩
    rw [highlightUsingDecls] at h
    simp only [h1, bne_self_eq_false, Bool.false_eq_true, if_false, hk] at h
    split at h
    · simp at h
    · simp only [Option.some.injEq] at h
      rw [← h]
    · next rs1 offset1 hres =>
      obtain ⟨rs2, hf⟩ := resolveCustom_alias_fails ast _ k _ _ _ b hb
        (fun rs0 offset0 res0 h0 => ih b hbc rs0 offset0 name res0 h0) rs offset _ hres
      simp at hf

/-- The circle `struct A { u8 x; } using A = A;`, where a struct that resolves bears the name of
the type declaration: with no fuel does `highlightUsingDecls` return. -/
theorem highlightUsingDecls_circle_beside_struct (fuel : Nat) (rs : List PatternData)
    (offset : Nat) (name : String) (ho : offset < 2 ^ 64) :
    highlightUsingDecls fuel [.Struct ⟨"A", [⟨u8, "x", "", none, 1⟩]⟩, .TypeDecl usingAA] usingAA
      aliasVariable rs offset name = none := by
  induction fuel generalizing rs offset with
  | zero => simp [highlightUsingDecls]
  | succ fuel ih =>
    cases fuel with
    | zero => rfl
    | succ fuel =>
      have hS := highlightStruct_builtin fuel
        [.Struct ⟨"A", [⟨u8, "x", "", none, 1⟩]⟩, .TypeDecl usingAA]
        ⟨"A", [⟨u8, "x", "", none, 1⟩]⟩ rs offset name (by decide) ho
      have hfS : (findNodes ASTNode.asStruct
          [.Struct ⟨"A", [⟨u8, "x", "", none, 1⟩]⟩, .TypeDecl usingAA]).find?
          (fun n => n.name == usingAA.assignedCustomTypeName) =
          some ⟨"A", [⟨u8, "x", "", none, 1⟩]⟩ := by rfl
      have hfE : (findNodes ASTNode.asEnum
          [.Struct ⟨"A", [⟨u8, "x", "", none, 1⟩]⟩, .TypeDecl usingAA]).find?
          (fun n => n.name == usingAA.assignedCustomTypeName) = none := by rfl
      have hfA : (findNodes ASTNode.asTypeDecl
          [.Struct ⟨"A", [⟨u8, "x", "", none, 1⟩]⟩, .TypeDecl usingAA]).find?
          (fun n => n.typeName == usingAA.assignedCustomTypeName) = some usingAA := by rfl
      have hw : s32 (u64 (totalWidth [(⟨u8, "x", "", none, 1⟩ : ASTNodeVariableDecl)])) = 1 := by
        decide
      have h1 : sizeT 1 = 1 := by decide
      have hne : (1 == sizeT (-1)) = false := by decide
      have hA1 : usingAA.assignedType = CustomType := rfl
      have hN : aliasVariable.arraySize = 1 := rfl
      rw [highlightUsingDecls]
      simp only [hA1, bne_self_eq_false, Bool.false_eq_true, if_false, resolveCustom, lookupLoop,
        hfS, hfE, hfA, hN, arrayLoop, hS, hw, h1, hne, ih _ _ (u64_lt _)]

/-! ## Termination on a syntax tree without circles -/

theorem arrayLoop_isSome (call : Nat → List PatternData → Nat → Option (List PatternData × Int))
    (h : ∀ i rs offset, (call i rs offset).isSome) (k : Nat) :
    ∀ (i : Nat) (rs : List PatternData) (offset : Nat),
      (arrayLoop call k i rs offset).isSome := by
  induction k with
  | zero => intro i rs offset; simp [arrayLoop]
  | succ k ih =>
    intro i rs offset
    rw [arrayLoop]
    have hc := h i rs offset
    cases hcall : call i rs offset with
    | none => simp [hcall] at hc
    | some res =>
      obtain ⟨rs1, r⟩ := res
      dsimp only
      split_ifs
      · rfl
      · exact ih _ _ _

theorem lookupLoop_isSome {α : Type} (nodes : List α) (isNamed : α → Bool) (arraySize : Nat)
    (call : α → Nat → List PatternData → Nat → Option (List PatternData × Int))
    (h : ∀ node, nodes.find? isNamed = some node →
      ∀ i rs offset, (call node i rs offset).isSome)
    (rs : List PatternData) (offset : Nat) (foundType : Bool) :
    (lookupLoop nodes isNamed arraySize call rs offset foundType).isSome := by
  unfold lookupLoop
  cases hf : nodes.find? isNamed with
  | none => rfl
  | some node =>
    have := arrayLoop_isSome (call node) (h node hf) arraySize 0 rs offset
    dsimp only
    cases ha : arrayLoop (call node) arraySize 0 rs offset with
    | none => simp [ha] at this
    | some flow => rfl

theorem resolveCustom_isSome (ast : List ASTNode) (typeName : String) (arraySize : Nat)
    (structCall : ASTNodeStruct → Nat → List PatternData → Nat → Option (List PatternData × Int))
    (enumCall : ASTNodeEnum → Nat → List PatternData → Nat → Option (List PatternData × Int))
    (usingCall :
      ASTNodeTypeDecl → Nat → List PatternData → Nat → Option (List PatternData × Int))
    (hS : ∀ node, (findNodes ASTNode.asStruct ast).find? (fun n => n.name == typeName)
      = some node → ∀ i rs offset, (structCall node i rs offset).isSome)
    (hE : ∀ node, (findNodes ASTNode.asEnum ast).find? (fun n => n.name == typeName)
      = some node → ∀ i rs offset, (enumCall node i rs offset).isSome)
    (hU : ∀ node, (findNodes ASTNode.asTypeDecl ast).find? (fun n => n.typeName == typeName)
      = some node → ∀ i rs offset, (usingCall node i rs offset).isSome)
    (rs : List PatternData) (offset : Nat) :
    (resolveCustom ast typeName arraySize structCall enumCall usingCall rs offset).isSome := by
  unfold resolveCustom
  have h1 := lookupLoop_isSome _ _ arraySize structCall hS rs offset false
  split
  · next h => simp [h] at h1
  · rfl
  · next rs1 offset1 found1 _ =>
    have h2 := lookupLoop_isSome _ _ arraySize enumCall hE rs1 offset1 found1
    split
    · next h => simp [h] at h2
    · rfl
    · next rs2 offset2 found2 _ =>
      have h3 := lookupLoop_isSome _ _ arraySize usingCall hU rs2 offset2 found2
      split
      · next h => simp [h] at h3
      · rfl
      · split_ifs <;> rfl

theorem structLoop_isSome (member : ASTNodeVariableDecl → List PatternData → Nat → Option Flow)
    (nodes : List ASTNodeVariableDecl)
    (h : ∀ v ∈ nodes, ∀ rs offset, (member v rs offset).isSome) :
    ∀ (rs : List PatternData) (offset : Nat), (structLoop member nodes rs offset).isSome := by
  induction nodes with
  | nil => intro rs offset; rfl
  | cons v vs ih =>
    intro rs offset
    rw [structLoop]
    have hv := h v (List.mem_cons_self _ _) rs offset
    split
    · next hm => simp [hm] at hv
    · rfl
    · exact ih (fun w hw => h w (List.mem_cons_of_mem _ hw)) _ _

theorem find?_name_eq {α : Type} (nodes : List α) (getName : α → String) (typeName : String)
    (node : α) (h : nodes.find? (fun n => getName n == typeName) = some node) :
    node ∈ nodes ∧ getName node = typeName := by
  refine ⟨List.mem_of_find?_eq_some h, ?_⟩
  have := List.find?_some h
  simpa using this

/-- With a fuel above its rank, every struct and every type declaration of a ranked syntax
tree is resolved: the calls return. -/
theorem highlight_isSome (ast : List ASTNode) (rank : String → Nat) (hr : Ranked ast rank)
    (fuel : Nat) :
    (∀ s ∈ findNodes ASTNode.asStruct ast, rank s.name < fuel →
      ∀ rs offset name, (highlightStruct fuel ast s rs offset name).isSome) ∧
    (∀ a ∈ findNodes ASTNode.asTypeDecl ast, rank a.typeName < fuel →
      ∀ v rs offset name, (highlightUsingDecls fuel ast a v rs offset name).isSome) := by
  induction fuel with
  | zero =>
    exact ⟨fun s _ h => absurd h (Nat.not_lt_zero _), fun a _ h => absurd h (Nat.not_lt_zero _)⟩
  | succ fuel ih =>
    obtain ⟨ihS, ihU⟩ := ih
    obtain ⟨hrS, hrU⟩ := hr
    constructor
    · intro s hs hlt rs offset name
      rw [highlightStruct_succ]
      have hl := structLoop_isSome
        (highlightStructMember ast name (highlightStruct fuel ast)
          (highlightUsingDecls fuel ast)) s.nodes
        (by
          intro v hv rs1 offset1
          unfold highlightStructMember
          by_cases hb : v.variableType = CustomType
          · have hrank := hrS s hs v hv hb
            simp only [hb, bne_self_eq_false, Bool.false_eq_true, if_false]
            apply resolveCustom_isSome
            · intro node hf i rs2 offset2
              obtain ⟨hm, hn⟩ := find?_name_eq _ ASTNodeStruct.name _ _ hf
              exact ihS node hm (by rw [hn]; omega) _ _ _
            · intro node _ i rs2 offset2
              rfl
            · intro node hf i rs2 offset2
              obtain ⟨hm, hn⟩ := find?_name_eq _ ASTNodeTypeDecl.typeName _ _ hf
              exact ihU node hm (by rw [hn]; omega) _ _ _ _
          · have : (v.variableType != CustomType) = true := by simpa using hb
            simp [this])
        rs offset
      split
      · next h => simp [h] at hl
      · rfl
      · rfl
    · intro a ha hlt v rs offset name
      rw [highlightUsingDecls]
      dsimp only
      by_cases hb : a.assignedType = CustomType
      · have hrank := hrU a ha hb
        simp only [hb, bne_self_eq_false, Bool.false_eq_true, if_false]
        have hl := resolveCustom_isSome ast a.assignedCustomTypeName v.arraySize
          (fun structNode _ rs1 offset1 => highlightStruct fuel ast structNode rs1 offset1 name)
          (fun enumNode _ rs1 offset1 => some (highlightEnum ast enumNode rs1 offset1 name))
          (fun typeDeclNode _ rs1 offset1 =>
            highlightUsingDecls fuel ast typeDeclNode v rs1 offset1 name)
          (by
            intro node hf i rs2 offset2
            obtain ⟨hm, hn⟩ := find?_name_eq _ ASTNodeStruct.name _ _ hf
            exact ihS node hm (by rw [hn]; omega) _ _ _)
          (by intro node _ i rs2 offset2; rfl)
          (by
            intro node hf i rs2 offset2
            obtain ⟨hm, hn⟩ := find?_name_eq _ ASTNodeTypeDecl.typeName _ _ hf
            exact ihU node hm (by rw [hn]; omega) _ _ _ _)
          rs offset
        split
        · next h => simp [h] at hl
        · rfl
        · rfl
      · have : (a.assignedType != CustomType) = true := by simpa using hb
        simp [this]

theorem topLevelArrayLoop_isSome
    (call : List PatternData → Nat → Option (List PatternData × Int))
    (h : ∀ rs offset, (call rs offset).isSome) (k : Nat) (hk : k < 2 ^ 32) :
    ∀ (rs : List PatternData) (offset : Nat), (topLevelArrayLoop call k rs offset).isSome := by
  induction k with
  | zero => intro rs offset; rw [topLevelArrayLoop_zero]; rfl
  | succ k ih =>
    intro rs offset
    rw [topLevelArrayLoop_succ _ _ hk]
    have hc := h rs offset
    cases hcall : call rs offset with
    | none => simp [hcall] at hc
    | some res =>
      obtain ⟨rs1, r⟩ := res
      dsimp only
      split_ifs
      · exact ih (by omega) _ _
      · exact ih (by omega) _ _

theorem topLevelLookup_isSome {α : Type} (isNamed : α → Bool) (arraySize : Nat)
    (call : α → List PatternData → Nat → Option (List PatternData × Int)) (nodes : List α)
    (h : ∀ node ∈ nodes, ∀ rs offset, (call node rs offset).isSome)
    (hN : (∃ n ∈ nodes, isNamed n = true) → arraySize < 2 ^ 32) :
    ∀ (rs : List PatternData) (offset : Nat),
      (topLevelLookup isNamed arraySize call nodes rs offset).isSome := by
  induction nodes with
  | nil => intro rs offset; rfl
  | cons n ns ih =>
    intro rs offset
    have ih1 := ih (fun m hm => h m (List.mem_cons_of_mem _ hm))
      (fun ⟨m, hm, hnm⟩ => hN ⟨m, List.mem_cons_of_mem _ hm, hnm⟩)
    rw [topLevelLookup]
    split_ifs with hn
    · have hl := topLevelArrayLoop_isSome (call n) (h n (List.mem_cons_self _ _)) arraySize
        (hN ⟨n, List.mem_cons_self _ _, hn⟩) rs offset
      split
      · next hnone => simp [hnone] at hl
      · exact ih1 _ _
    · exact ih1 _ _

theorem topLevelLookup_wide {α : Type} (isNamed : α → Bool) (arraySize : Nat)
    (call : α → List PatternData → Nat → Option (List PatternData × Int)) (nodes : List α)
    (hn : ∃ n ∈ nodes, isNamed n = true) (hN : 2 ^ 32 ≤ arraySize) :
    ∀ (rs : List PatternData) (offset : Nat),
      topLevelLookup isNamed arraySize call nodes rs offset = none := by
  induction nodes with
  | nil => obtain ⟨n, hm, _⟩ := hn; simp at hm
  | cons n ns ih =>
    intro rs offset
    rw [topLevelLookup]
    split_ifs with hnamed
    · rw [topLevelArrayLoop_wide _ _ hN]
    · obtain ⟨m, hm, hnm⟩ := hn
      rcases List.mem_cons.mp hm with h1 | h1
      · subst h1; exact absurd hnm hnamed
      · exact ih ⟨m, h1, hnm⟩ _ _

theorem le_sum_map_of_mem {α : Type} (f : α → Nat) (l : List α) (a : α) (h : a ∈ l) :
    f a ≤ (l.map f).sum := by
  induction l with
  | nil => simp at h
  | cons b bs ih =>
    rw [List.map_cons, List.sum_cons]
    rcases List.mem_cons.mp h with h1 | h1
    · subst h1; omega
    · have := ih h1; omega

/-- On a syntax tree whose custom type references fall in rank (no struct contains itself
through a chain of members and type declarations, no chain of type declarations returns to
itself), every fuel from `rankBound` on lets the resolving calls return: `highlightStruct` for
every struct of the tree and `highlightUsingDecls` for every type declaration of the tree
(`highlightEnum` makes no nested call and always returns). The evaluation of a top-level
declaration returns as well unless `parsePattern` runs an element loop for it over an array size
of `2 ^ 32` or more, and so does the whole evaluation loop. -/
theorem evaluation_terminates (ast : List ASTNode) (rank : String → Nat)
    (hr : Ranked ast rank) (fuel : Nat) (hf : rankBound ast rank ≤ fuel) :
    (∀ s ∈ findNodes ASTNode.asStruct ast, ∀ (rs : List PatternData) (offset : Nat)
        (name : String), (highlightStruct fuel ast s rs offset name).isSome) ∧
    (∀ a ∈ findNodes ASTNode.asTypeDecl ast, ∀ (v : ASTNodeVariableDecl)
        (rs : List PatternData) (offset : Nat) (name : String),
        (highlightUsingDecls fuel ast a v rs offset name).isSome) ∧
    (∀ (v : ASTNodeVariableDecl) (rs : List PatternData),
      (runsElementLoop ast v → v.arraySize < 2 ^ 32) →
      (evaluateVariable fuel ast v rs).isSome) ∧
    (∀ (vars : List ASTNodeVariableDecl) (rs : List PatternData),
      (∀ v ∈ vars, runsElementLoop ast v → v.arraySize < 2 ^ 32) →
      (evaluate fuel ast vars rs).isSome) := by
  obtain ⟨hS0, hU0⟩ := highlight_isSome ast rank hr fuel
  have hS : ∀ s ∈ findNodes ASTNode.asStruct ast, ∀ (rs : List PatternData) (offset : Nat)
      (name : String), (highlightStruct fuel ast s rs offset name).isSome := by
    intro s hs
    have := le_sum_map_of_mem (fun s => rank s.name) _ s hs
    dsimp only at this
    exact hS0 s hs (by unfold rankBound at hf; omega)
  have hU : ∀ a ∈ findNodes ASTNode.asTypeDecl ast, ∀ (v : ASTNodeVariableDecl)
      (rs : List PatternData) (offset : Nat) (name : String),
      (highlightUsingDecls fuel ast a v rs offset name).isSome := by
    intro a ha
    have := le_sum_map_of_mem (fun a => rank a.typeName) _ a ha
    dsimp only at this
    exact hU0 a ha (by unfold rankBound at hf; omega)
  have hV : ∀ (v : ASTNodeVariableDecl) (rs : List PatternData),
      (runsElementLoop ast v → v.arraySize < 2 ^ 32) →
      (evaluateVariable fuel ast v rs).isSome := by
    intro v rs hfit
    unfold evaluateVariable
    cases ho : v.offset with
    | none => rfl
    | some O =>
      dsimp only
      split_ifs with hb
      any_goals rfl
      have hv : v.variableType = CustomType := by simpa using hb
      have hoff : v.offset.isSome = true := by rw [ho]; rfl
      have h1 := topLevelLookup_isSome (fun n => v.customVariableTypeName == n.name)
        v.arraySize
        (fun structNode rs1 offset1 =>
          highlightStruct fuel ast structNode rs1 offset1 (topLevelName v))
        (findNodes ASTNode.asStruct ast) (fun node hn rs1 offset1 => hS node hn _ _ _)
        (fun ⟨n, hn, hnm⟩ => hfit ⟨hoff, hv, Or.inl ⟨n, hn, by simpa using Eq.symm (by simpa using hnm)⟩⟩)
        rs O
      split
      · next h => simp [h] at h1
      · next rsA offsetA _ =>
        have h2 := topLevelLookup_isSome (fun n => v.customVariableTypeName == n.name)
          v.arraySize
          (fun enumNode rs2 offset2 =>
            some (highlightEnum ast enumNode rs2 offset2 (topLevelName v)))
          (findNodes ASTNode.asEnum ast) (fun node _ rs1 offset1 => rfl)
          (fun ⟨n, hn, hnm⟩ =>
            hfit ⟨hoff, hv, Or.inr (Or.inl ⟨n, hn, by simpa using Eq.symm (by simpa using hnm)⟩)⟩)
          rsA offsetA
        split
        · next h => simp [h] at h2
        · next rsB offsetB _ =>
          have h3 := topLevelLookup_isSome (fun n => v.customVariableTypeName == n.typeName)
            v.arraySize
            (fun usingNode rs3 offset3 =>
              highlightUsingDecls fuel ast usingNode v rs3 offset3 (topLevelName v))
            (findNodes ASTNode.asTypeDecl ast) (fun node hn rs1 offset1 => hU node hn _ _ _ _)
            (fun ⟨n, hn, hnm⟩ =>
              hfit ⟨hoff, hv, Or.inr (Or.inr ⟨n, hn, by simpa using Eq.symm (by simpa using hnm)⟩)⟩)
            rsB offsetB
          split
          · next h => simp [h] at h3
          · rfl
  refine ⟨hS, hU, hV, ?_⟩
  intro vars
  induction vars with
  | nil => intro rs _; rfl
  | cons v vs ih =>
    intro rs hfit
    rw [evaluate]
    have := hV v rs (hfit v (List.mem_cons_self _ _))
    split
    · next h => simp [h] at this
    · exact ih _ fun w hw => hfit w (List.mem_cons_of_mem _ hw)

/-- The lemma `evaluation_terminates` at `struct Inner { u8 a; } using A = Inner;
struct Outer { Inner i[2]; A x; } Outer o @ 0;` with the rank `Outer` above `A` above `Inner`:
the evaluation returns with the fuel 4. -/
theorem evaluation_terminates_witness :
    Ranked nestedAst nestedRank ∧ rankBound nestedAst nestedRank ≤ 4 ∧
    (evaluate 4 nestedAst (findNodes ASTNode.asVariableDecl nestedAst) []).isSome ∧
    evaluate 4 nestedAst (findNodes ASTNode.asVariableDecl nestedAst) [] =
      some [.Unsigned 0 1 "o.i[0].a", .Unsigned 1 1 "o.i[1].a", .Unsigned 2 1 "o.x.a"] :=
  ⟨by decide, by decide,
    (evaluation_terminates nestedAst nestedRank (by decide) 4 (by decide)).2.2.2 _ []
      (fun v hv _ => by
        have hl : findNodes ASTNode.asVariableDecl nestedAst =
            [⟨CustomType, "o", "Outer", some 0, 1⟩] := by rfl
        rw [hl, List.mem_singleton] at hv
        subst hv
        decide),
    by rfl⟩

/-- A top-level declaration that `parsePattern` runs an element loop for over an array size of
`2 ^ 32` or more is never evaluated to its end, whatever the fuel. -/
theorem evaluateVariable_wide (ast : List ASTNode) (v : ASTNodeVariableDecl)
    (h : runsElementLoop ast v) (hN : 2 ^ 32 ≤ v.arraySize) (fuel : Nat)
    (rs : List PatternData) : evaluateVariable fuel ast v rs = none := by
  obtain ⟨hoff, hv, hnames⟩ := h
  obtain ⟨O, ho⟩ := Option.isSome_iff_exists.mp hoff
  unfold evaluateVariable
  simp only [ho, hv, bne_self_eq_false, Bool.false_eq_true, if_false]
  by_cases hS : ∃ n ∈ findNodes ASTNode.asStruct ast,
      (v.customVariableTypeName == n.name) = true
  · rw [topLevelLookup_wide _ _ _ _ hS hN]
  · rw [topLevelLookup_none _ _ _ _ _ _ fun n hn => by
      simpa using fun hnm => hS ⟨n, hn, by simpa using hnm⟩]
    dsimp only
    by_cases hE : ∃ n ∈ findNodes ASTNode.asEnum ast,
        (v.customVariableTypeName == n.name) = true
    · rw [topLevelLookup_wide _ _ _ _ hE hN]
    · rw [topLevelLookup_none _ _ _ _ _ _ fun n hn => by
        simpa using fun hnm => hE ⟨n, hn, by simpa using hnm⟩]
      dsimp only
      have hA : ∃ n ∈ findNodes ASTNode.asTypeDecl ast,
          (v.customVariableTypeName == n.typeName) = true := by
        rcases hnames with ⟨n, hn, hnm⟩ | ⟨n, hn, hnm⟩ | ⟨n, hn, hnm⟩
        · exact absurd ⟨n, hn, by simpa using hnm.symm⟩ hS
        · exact absurd ⟨n, hn, by simpa using hnm.symm⟩ hE
        · exact ⟨n, hn, by simpa using hnm.symm⟩
      rw [topLevelLookup_wide _ _ _ _ hA hN]

/-- C19 fails on `struct S { u8 a; } S v[4294967296] @ 0;`. The tree has no custom typed
member and no type declaration, so that its reference relation has no circle (every rank falls
along it) and `highlightStruct` for `S` returns with every fuel from 1 on. The element loop of
`parsePattern` (line 163) counts with a `u32` against the array size `2 ^ 32`: given any number
of iterations it has not ended, and with no fuel does the evaluation of the declaration or
`parsePattern` return. The same tree with the array size 3 is evaluated to its end. -/
theorem top_level_wide_array_no_end :
    Ranked wideArrayAst (fun _ => 0) ∧
    (∀ (fuel : Nat) (rs : List PatternData) (offset : Nat) (name : String),
      (highlightStruct (fuel + 1) wideArrayAst smallStruct rs offset name).isSome = true) ∧
    (∀ (fuel steps : Nat) (rs : List PatternData) (offset : Nat),
      topLevelCounterLoop
        (fun rs0 offset0 =>
          highlightStruct fuel wideArrayAst smallStruct rs0 offset0
            (topLevelName wideArrayVariable))
        wideArrayVariable.arraySize steps 0 rs offset = none) ∧
    (∀ (fuel : Nat) (rs : List PatternData),
      evaluateVariable fuel wideArrayAst wideArrayVariable rs = none) ∧
    (∀ fuel : Nat, parsePattern (stagesYielding wideArrayAst) fuel "" [] = none) ∧
    parsePattern
        (stagesYielding [.Struct smallStruct, .VariableDecl ⟨CustomType, "v", "S", some 0, 3⟩])
        1 "" [] =
      some [.Unsigned 0 1 "v[3].a", .Unsigned 1 1 "v[3].a", .Unsigned 2 1 "v[3].a"] := by
  have hrun : runsElementLoop wideArrayAst wideArrayVariable :=
    ⟨rfl, rfl, Or.inl ⟨smallStruct, by decide, rfl⟩⟩
  have hV := evaluateVariable_wide wideArrayAst wideArrayVariable hrun (by decide)
  refine ⟨by decide, ?_, ?_, hV, ?_, by rfl⟩
  · intro fuel rs offset name
    rw [highlightStruct_succ]
    have hm : ∀ rs1 offset1,
        highlightStructMember wideArrayAst name (highlightStruct fuel wideArrayAst)
          (highlightUsingDecls fuel wideArrayAst) ⟨u8, "a", "", none, 1⟩ rs1 offset1 =
        some (.next (rs1 ++ [.Unsigned offset1 1 (name ++ "." ++ "a")]) (u64 (offset1 + 1))) :=
      fun rs1 offset1 => by rfl
    simp only [smallStruct, structLoop, hm]
    rfl
  · intro fuel steps rs offset
    exact topLevelCounterLoop_no_end _ _ (by decide) steps 0 rs offset (by norm_num)
  · intro fuel
    have hl : findNodes ASTNode.asVariableDecl wideArrayAst = [wideArrayVariable] := by rfl
    simp only [parsePattern, stagesYielding, Bool.not_true, Bool.false_eq_true, if_false, hl,
      evaluate, hV]

/-! ## Tiling and the width of the return value -/

/-- C17, the code at the failing input. With `struct S { s8 a[2147483648]; }` and
`struct Outer { S i; S j; u8 b; }` every built-in type is signed or unsigned, and
`highlightStruct` for `Outer` at offset 0 succeeds with the size 1, below `2 ^ 31`. The regions it
appended do not tile the bytes from 0 to 1: each nested call for `S` hands back `-2 ^ 31` for its
size `2 ^ 31`, so the second region starts at `2 ^ 64 - 2 ^ 31` instead of `2 ^ 31`, the third at
`2 ^ 64 - 2 ^ 32`, and the sizes sum to `2 ^ 32 + 1`. -/
theorem nested_size_truncated :
    highlightStruct 1 [.Struct halfStruct, .Struct outerStruct] halfStruct [] 0 "o.i" =
      some ([.String 0 2147483648 "o.i.a"], -2147483648) ∧
    highlightStruct 2 [.Struct halfStruct, .Struct outerStruct] outerStruct [] 0 "o" =
      some ([.String 0 2147483648 "o.i.a", .String (2 ^ 64 - 2 ^ 31) 2147483648 "o.j.a",
        .Unsigned (2 ^ 64 - 2 ^ 32) 1 "o.b"], 1) ∧
    (PatternData.String (2 ^ 64 - 2 ^ 31) 2147483648 "o.j.a").offset ≠
      (PatternData.String 0 2147483648 "o.i.a").offset +
        (PatternData.String 0 2147483648 "o.i.a").size ∧
    (PatternData.String 0 2147483648 "o.i.a").size +
      (PatternData.String (2 ^ 64 - 2 ^ 31) 2147483648 "o.j.a").size +
      (PatternData.Unsigned (2 ^ 64 - 2 ^ 32) 1 "o.b").size = 2 ^ 32 + 1 := by
  refine ⟨by rfl, by rfl, by decide, by decide⟩

/-! ## Regions laid one after the other when no size is narrowed -/

theorem sumSizes_append (xs ys : List PatternData) :
    sumSizes (xs ++ ys) = sumSizes xs + sumSizes ys := by
  simp [sumSizes]

theorem endOf_append (xs ys : List PatternData) :
    ∀ offset : Nat, endOf offset (xs ++ ys) = endOf (endOf offset xs) ys := by
  induction xs with
  | nil => intro offset; rfl
  | cons x xs ih =>
    intro offset
    rw [List.cons_append, endOf, endOf, ih]

theorem Chained_append (xs ys : List PatternData) :
    ∀ offset : Nat, Chained offset xs → Chained (endOf offset xs) ys →
      Chained offset (xs ++ ys) := by
  induction xs with
  | nil => intro offset _ h; exact h
  | cons x xs ih =>
    intro offset h1 h2
    exact ⟨h1.1, ih _ h1.2 h2⟩

theorem endOf_eq (xs : List PatternData) :
    ∀ offset : Nat, offset < 2 ^ 64 → endOf offset xs = u64 (offset + sumSizes xs) := by
  induction xs with
  | nil => intro offset h; simp [endOf, sumSizes, u64_of_lt h]
  | cons x xs ih =>
    intro offset _
    rw [endOf, ih _ (u64_lt _), u64_add_u64_left]
    simp [sumSizes, Nat.add_assoc]

theorem endOf_lt (xs : List PatternData) (offset : Nat) (h : offset < 2 ^ 64) :
    endOf offset xs < 2 ^ 64 := by
  rw [endOf_eq xs offset h]
  exact u64_lt _

theorem tiles_of_flow (offset offset1 : Nat) (added : List PatternData)
    (ho : offset < 2 ^ 64) (hs : sumSizes added < 2 ^ 31)
    (he : endOf offset added = offset1) :
    s32 (u64sub offset1 offset) = (sumSizes added : Int) := by
  rw [← he, endOf_eq added offset ho, u64sub_add, u64_of_lt (by omega)]
  exact s32_of_lt hs

theorem FlowTiles.here (offset : Nat) (rs : List PatternData) (ho : offset < 2 ^ 64) :
    FlowTiles offset rs (.next rs offset) :=
  ⟨ho, [], by simp, fun _ => ⟨trivial, rfl⟩⟩

theorem FlowTiles.andThen {offset offset1 : Nat} {rs rs1 : List PatternData} {flow : Flow}
    (h1 : FlowTiles offset rs (.next rs1 offset1)) (h2 : FlowTiles offset1 rs1 flow) :
    FlowTiles offset rs flow := by
  obtain ⟨_, a1, e1, c1⟩ := h1
  cases flow with
  | failed rs2 =>
    obtain ⟨a2, e2⟩ := h2
    exact ⟨a1 ++ a2, by rw [e2, e1, List.append_assoc]⟩
  | next rs2 offset2 =>
    obtain ⟨hlt, a2, e2, c2⟩ := h2
    refine ⟨hlt, a1 ++ a2, by rw [e2, e1, List.append_assoc], ?_⟩
    intro hs
    rw [sumSizes_append] at hs
    obtain ⟨k1, n1⟩ := c1 (by omega)
    subst n1
    obtain ⟨k2, n2⟩ := c2 (by omega)
    exact ⟨Chained_append _ _ _ k1 k2, by rw [endOf_append, n2]⟩

theorem FlowTiles.of_call {offset : Nat} {rs rs1 : List PatternData} {r : Int}
    (ho : offset < 2 ^ 64) (h : CallTiles offset rs (rs1, r)) (hr : sizeT r ≠ sizeT (-1)) :
    FlowTiles offset rs (.next rs1 (u64 (offset + sizeT r))) := by
  obtain ⟨a, e, c⟩ := h
  refine ⟨u64_lt _, a, e, ?_⟩
  intro hs
  rcases c hs with h1 | ⟨k1, n1⟩
  · simp only at h1
    rw [h1] at hr
    exact absurd rfl hr
  · simp only at n1
    rw [n1, sizeT_natCast (by omega), endOf_eq a offset ho]
    exact ⟨k1, rfl⟩

theorem CallTiles.of_flow {offset : Nat} {rs : List PatternData} {flow : Flow}
    (ho : offset < 2 ^ 64) (h : FlowTiles offset rs flow) :
    CallTiles offset rs
      (match flow with
        | .failed rs1 => (rs1, -1)
        | .next rs1 offset1 => (rs1, s32 (u64sub offset1 offset))) := by
  cases flow with
  | failed rs1 =>
    obtain ⟨a, e⟩ := h
    exact ⟨a, e, fun _ => Or.inl rfl⟩
  | next rs1 offset1 =>
    obtain ⟨_, a, e, c⟩ := h
    refine ⟨a, e, fun hs => Or.inr ?_⟩
    obtain ⟨k1, n1⟩ := c hs
    exact ⟨k1, tiles_of_flow offset offset1 a ho hs n1⟩

theorem arrayLoop_tiles (call : Nat → List PatternData → Nat → Option (List PatternData × Int))
    (hcall : ∀ i rs offset res, offset < 2 ^ 64 → call i rs offset = some res →
      CallTiles offset rs res) (k : Nat) :
    ∀ (i : Nat) (rs : List PatternData) (offset : Nat) (flow : Flow), offset < 2 ^ 64 →
      arrayLoop call k i rs offset = some flow → FlowTiles offset rs flow := by
  induction k with
  | zero =>
    intro i rs offset flow ho h
    simp only [arrayLoop, Option.some.injEq] at h
    subst h
    exact FlowTiles.here _ _ ho
  | succ k ih =>
    intro i rs offset flow ho h
    rw [arrayLoop] at h
    cases hc : call i rs offset with
    | none => simp [hc] at h
    | some res =>
      obtain ⟨rs1, r⟩ := res
      have h1 := hcall i rs offset _ ho hc
      simp only [hc] at h
      split_ifs at h with hr
      · simp only [Option.some.injEq] at h
        subst h
        obtain ⟨a, e, _⟩ := h1
        exact ⟨a, e⟩
      · have hr1 : sizeT r ≠ sizeT (-1) := by simpa using hr
        exact (FlowTiles.of_call ho h1 hr1).andThen (ih _ _ _ _ (u64_lt _) h)

theorem lookupLoop_tiles {α : Type} (nodes : List α) (isNamed : α → Bool) (arraySize : Nat)
    (call : α → Nat → List PatternData → Nat → Option (List PatternData × Int))
    (hcall : ∀ node ∈ nodes, ∀ i rs offset res, offset < 2 ^ 64 →
      call node i rs offset = some res → CallTiles offset rs res)
    (rs : List PatternData) (offset : Nat) (foundType : Bool) (res : Flow × Bool)
    (ho : offset < 2 ^ 64)
    (h : lookupLoop nodes isNamed arraySize call rs offset foundType = some res) :
    FlowTiles offset rs res.1 := by
  unfold lookupLoop at h
  cases hf : nodes.find? isNamed with
  | none =>
    simp only [hf, Option.some.injEq] at h
    subst h
    exact FlowTiles.here _ _ ho
  | some node =>
    simp only [hf] at h
    cases ha : arrayLoop (call node) arraySize 0 rs offset with
    | none => simp [ha] at h
    | some flow =>
      simp only [ha, Option.some.injEq] at h
      subst h
      exact arrayLoop_tiles _ (hcall node (List.mem_of_find?_eq_some hf)) _ _ _ _ _ ho ha

theorem FlowTiles.next_lt {offset offset1 : Nat} {rs rs1 : List PatternData}
    (h : FlowTiles offset rs (.next rs1 offset1)) : offset1 < 2 ^ 64 := h.1

theorem FlowTiles.to_failed {offset offset1 : Nat} {rs rs1 : List PatternData}
    (h : FlowTiles offset rs (.next rs1 offset1)) : FlowTiles offset rs (.failed rs1) := by
  obtain ⟨_, a, e, _⟩ := h
  exact ⟨a, e⟩

theorem resolveCustom_tiles (ast : List ASTNode) (typeName : String) (arraySize : Nat)
    (structCall : ASTNodeStruct → Nat → List PatternData → Nat → Option (List PatternData × Int))
    (enumCall : ASTNodeEnum → Nat → List PatternData → Nat → Option (List PatternData × Int))
    (usingCall :
      ASTNodeTypeDecl → Nat → List PatternData → Nat → Option (List PatternData × Int))
    (hS : ∀ node ∈ findNodes ASTNode.asStruct ast, ∀ i rs offset res, offset < 2 ^ 64 →
      structCall node i rs offset = some res → CallTiles offset rs res)
    (hE : ∀ node ∈ findNodes ASTNode.asEnum ast, ∀ i rs offset res, offset < 2 ^ 64 →
      enumCall node i rs offset = some res → CallTiles offset rs res)
    (hU : ∀ node ∈ findNodes ASTNode.asTypeDecl ast, ∀ i rs offset res, offset < 2 ^ 64 →
      usingCall node i rs offset = some res → CallTiles offset rs res)
    (rs : List PatternData) (offset : Nat) (flow : Flow) (ho : offset < 2 ^ 64)
    (h : resolveCustom ast typeName arraySize structCall enumCall usingCall rs offset
      = some flow) :
    FlowTiles offset rs flow := by
  unfold resolveCustom at h
  split at h
  · simp at h
  · next rs1 b1 h1 =>
    simp only [Option.some.injEq] at h
    subst h
    exact lookupLoop_tiles _ _ _ _ hS _ _ _ _ ho h1
  · next rs1 offset1 found1 h1 =>
    have e1 : FlowTiles offset rs (.next rs1 offset1) :=
      lookupLoop_tiles _ _ _ _ hS _ _ _ _ ho h1
    split at h
    · simp at h
    · next rs2 b2 h2 =>
      simp only [Option.some.injEq] at h
      subst h
      exact e1.andThen (lookupLoop_tiles _ _ _ _ hE _ _ _ _ e1.next_lt h2)
    · next rs2 offset2 found2 h2 =>
      have e2 : FlowTiles offset1 rs1 (.next rs2 offset2) :=
        lookupLoop_tiles _ _ _ _ hE _ _ _ _ e1.next_lt h2
      split at h
      · simp at h
      · next rs3 b3 h3 =>
        simp only [Option.some.injEq] at h
        subst h
        exact (e1.andThen e2).andThen (lookupLoop_tiles _ _ _ _ hU _ _ _ _ e2.next_lt h3)
      · next rs3 offset3 found3 h3 =>
        have e3 : FlowTiles offset2 rs2 (.next rs3 offset3) :=
          lookupLoop_tiles _ _ _ _ hU _ _ _ _ e2.next_lt h3
        split_ifs at h
        · simp only [Option.some.injEq] at h
          subst h
          exact ((e1.andThen e2).andThen e3).to_failed
        · simp only [Option.some.injEq] at h
          subst h
          exact (e1.andThen e2).andThen e3

theorem structLoop_tiles (member : ASTNodeVariableDecl → List PatternData → Nat → Option Flow)
    (nodes : List ASTNodeVariableDecl)
    (hm : ∀ v ∈ nodes, ∀ rs offset flow, offset < 2 ^ 64 → member v rs offset = some flow →
      FlowTiles offset rs flow) :
    ∀ (rs : List PatternData) (offset : Nat) (flow : Flow), offset < 2 ^ 64 →
      structLoop member nodes rs offset = some flow → FlowTiles offset rs flow := by
  induction nodes with
  | nil =>
    intro rs offset flow ho h
    simp only [structLoop, Option.some.injEq] at h
    subst h
    exact FlowTiles.here _ _ ho
  | cons v vs ih =>
    intro rs offset flow ho h
    rw [structLoop] at h
    split at h
    · simp at h
    · next rs1 h1 =>
      simp only [Option.some.injEq] at h
      subst h
      exact hm v (List.mem_cons_self _ _) _ _ _ ho h1
    · next rs1 offset1 h1 =>
      have e1 := hm v (List.mem_cons_self _ _) _ _ _ ho h1
      exact e1.andThen (ih (fun w hw => hm w (List.mem_cons_of_mem _ hw)) _ _ _ e1.next_lt h)

theorem FlowTiles.single (offset : Nat) (rs : List PatternData) (x : PatternData)
    (hx : x.offset = offset) :
    FlowTiles offset rs (.next (addPatternData rs x) (u64 (offset + x.size))) :=
  ⟨u64_lt _, [x], rfl, fun _ => ⟨⟨hx, trivial⟩, rfl⟩⟩

theorem highlightStructBuiltin_tiles (varNode : ASTNodeVariableDecl) (name : String)
    (hc : isUnsigned varNode.variableType = true ∨ isSigned varNode.variableType = true ∨
      isFloatingPoint varNode.variableType = true) (k : Nat) :
    ∀ (i : Nat) (rs : List PatternData) (offset : Nat), offset < 2 ^ 64 →
      FlowTiles offset rs
        (.next (highlightStructBuiltin varNode name k i rs offset).1
          (highlightStructBuiltin varNode name k i rs offset).2) := by
  induction k with
  | zero => intro i rs offset ho; exact FlowTiles.here _ _ ho
  | succ k ih =>
    intro i rs offset ho
    simp only [highlightStructBuiltin]
    split_ifs with c1 c2 c3 c4 c5
    · exact FlowTiles.andThen (FlowTiles.single offset rs _ (by rfl)) (ih _ _ _ (u64_lt _))
    · exact FlowTiles.andThen (FlowTiles.single offset rs _ (by rfl)) (ih _ _ _ (u64_lt _))
    · exact FlowTiles.single offset rs _ (by rfl)
    · exact FlowTiles.andThen (FlowTiles.single offset rs _ (by rfl)) (ih _ _ _ (u64_lt _))
    · exact FlowTiles.andThen (FlowTiles.single offset rs _ (by rfl)) (ih _ _ _ (u64_lt _))
    · rcases hc with h | h | h <;> simp_all

theorem highlightEnum_invalid (ast : List ASTNode) (e : ASTNodeEnum) (rs : List PatternData)
    (offset : Nat) (name : String)
    (h : isUnsigned e.underlyingType = false ∨ 8 < getTypeSize e.underlyingType) :
    highlightEnum ast e rs offset name = (rs, -1) := by
  have hlt := getTypeSize_lt e.underlyingType
  have hs : s32 (u32 e.underlyingType >>> 4) = (getTypeSize e.underlyingType : Int) :=
    s32_of_lt (by unfold getTypeSize at hlt; omega)
  unfold highlightEnum
  rcases h with h | h
  · simp [h]
  · by_cases hu : isUnsigned e.underlyingType = true
    · have : (8 : Int) < (getTypeSize e.underlyingType : Int) := by exact_mod_cast h
      simp [hu, hs, this]
    · simp [hu]

theorem highlightEnum_tiles (ast : List ASTNode) (e : ASTNodeEnum) (rs : List PatternData)
    (offset : Nat) (name : String) :
    CallTiles offset rs (highlightEnum ast e rs offset name) := by
  by_cases h : isUnsigned e.underlyingType = false ∨ 8 < getTypeSize e.underlyingType
  · rw [highlightEnum_invalid ast e rs offset name h]
    exact ⟨[], by simp, fun _ => Or.inl rfl⟩
  · have hu : isUnsigned e.underlyingType = true := by
      cases hc : isUnsigned e.underlyingType
      · exact absurd (Or.inl hc) h
      · rfl
    have hle : getTypeSize e.underlyingType ≤ 8 := by
      by_contra hc
      exact h (Or.inr (by omega))
    rw [highlightEnum_valid ast e rs offset name hu hle]
    exact ⟨[_], rfl, fun _ => Or.inr ⟨⟨rfl, trivial⟩, by simp [sumSizes, PatternData.size]⟩⟩

theorem highlightStructMember_tiles (ast : List ASTNode) (name : String)
    (structCall : ASTNodeStruct → List PatternData → Nat → String →
      Option (List PatternData × Int))
    (usingCall : ASTNodeTypeDecl → ASTNodeVariableDecl → List PatternData → Nat → String →
      Option (List PatternData × Int))
    (hS : ∀ s ∈ findNodes ASTNode.asStruct ast, ∀ rs offset nm res, offset < 2 ^ 64 →
      structCall s rs offset nm = some res → CallTiles offset rs res)
    (hU : ∀ a ∈ findNodes ASTNode.asTypeDecl ast, ∀ v rs offset nm res, offset < 2 ^ 64 →
      usingCall a v rs offset nm = some res → CallTiles offset rs res)
    (varNode : ASTNodeVariableDecl)
    (hc : varNode.variableType ≠ CustomType →
      isUnsigned varNode.variableType = true ∨ isSigned varNode.variableType = true ∨
        isFloatingPoint varNode.variableType = true)
    (rs : List PatternData) (offset : Nat) (flow : Flow) (ho : offset < 2 ^ 64)
    (h : highlightStructMember ast name structCall usingCall varNode rs offset = some flow) :
    FlowTiles offset rs flow := by
  unfold highlightStructMember at h
  split_ifs at h with hb
  · simp only [Option.some.injEq] at h
    subst h
    exact highlightStructBuiltin_tiles _ _ (hc (by simpa using hb)) _ _ _ _ ho
  · refine resolveCustom_tiles _ _ _ _ _ _ ?_ ?_ ?_ _ _ _ ho h
    · intro node hn i rs1 offset1 res ho1 hcall
      exact hS node hn _ _ _ _ ho1 hcall
    · intro node _ i rs1 offset1 res _ hcall
      simp only [Option.some.injEq] at hcall
      subst hcall
      exact highlightEnum_tiles _ _ _ _ _
    · intro node hn i rs1 offset1 res ho1 hcall
      exact hU node hn _ _ _ _ _ ho1 hcall

/-- On a syntax tree whose built-in descriptors are all unsigned, signed or floating point,
every call of `highlightStruct` and of `highlightUsingDecls` for a node of the tree that returns
appends regions that, when their sizes sum to less than `2 ^ 31`, lie one after the other from
the start offset on while the value handed back is the sum of their sizes (or the call handed
back the failure value). -/
theorem highlight_tiles (ast : List ASTNode) (hw : WellClassed ast) (fuel : Nat) :
    (∀ s ∈ findNodes ASTNode.asStruct ast, ∀ rs offset name res, offset < 2 ^ 64 →
      highlightStruct fuel ast s rs offset name = some res → CallTiles offset rs res) ∧
    (∀ a ∈ findNodes ASTNode.asTypeDecl ast, ∀ v rs offset name res, offset < 2 ^ 64 →
      highlightUsingDecls fuel ast a v rs offset name = some res →
        CallTiles offset rs res) := by
  induction fuel with
  | zero =>
    constructor
    · intro s _ rs offset name res _ h; simp [highlightStruct] at h
    · intro a _ v rs offset name res _ h; simp [highlightUsingDecls] at h
  | succ fuel ih =>
    obtain ⟨ihS, ihU⟩ := ih
    obtain ⟨hwS, hwU⟩ := hw
    constructor
    · intro s hs rs offset name res ho h
      rw [highlightStruct_succ] at h
      have hl := structLoop_tiles
        (highlightStructMember ast name (highlightStruct fuel ast)
          (highlightUsingDecls fuel ast)) s.nodes
        (fun v hv rs1 offset1 flow ho1 hf =>
          highlightStructMember_tiles ast name _ _
            (fun s1 hs1 rs2 offset2 nm res2 ho2 hc => ihS s1 hs1 rs2 offset2 nm res2 ho2 hc)
            (fun a1 ha1 v1 rs2 offset2 nm res2 ho2 hc =>
              ihU a1 ha1 v1 rs2 offset2 nm res2 ho2 hc)
            v (hwS s hs v hv) rs1 offset1 flow ho1 hf)
        rs offset
      split at h
      · simp at h
      · next rs1 h1 =>
        simp only [Option.some.injEq] at h
        subst h
        exact CallTiles.of_flow ho (hl _ ho h1)
      · next rs1 offset1 h1 =>
        simp only [Option.some.injEq] at h
        subst h
        exact CallTiles.of_flow ho (hl _ ho h1)
    · intro a ha v rs offset name res ho h
      by_cases hb : a.assignedType = CustomType
      · rw [highlightUsingDecls] at h
        simp only [hb, bne_self_eq_false, Bool.false_eq_true, if_false] at h
        have hl := resolveCustom_tiles ast a.assignedCustomTypeName v.arraySize
          (fun structNode _ rs1 offset1 => highlightStruct fuel ast structNode rs1 offset1 name)
          (fun enumNode _ rs1 offset1 => some (highlightEnum ast enumNode rs1 offset1 name))
          (fun typeDeclNode _ rs1 offset1 =>
            highlightUsingDecls fuel ast typeDeclNode v rs1 offset1 name)
          (fun node hn i rs1 offset1 res ho1 hc => ihS node hn _ _ _ _ ho1 hc)
          (fun node _ i rs1 offset1 res _ hc => by
            simp only [Option.some.injEq] at hc
            subst hc
            exact highlightEnum_tiles _ _ _ _ _)
          (fun node hn i rs1 offset1 res ho1 hc => ihU node hn _ _ _ _ _ ho1 hc)
          rs offset
        split at h
        · simp at h
        · next rs1 h1 =>
          simp only [Option.some.injEq] at h
          subst h
          exact CallTiles.of_flow ho (hl _ ho h1)
        · next rs1 offset1 h1 =>
          simp only [Option.some.injEq] at h
          subst h
          exact CallTiles.of_flow ho (hl _ ho h1)
      · rw [highlightUsingDecls_builtin fuel ast a v rs offset name hb] at h
        simp only [Option.some.injEq] at h
        subst h
        have hlt := getTypeSize_lt a.assignedType
        rcases hwU a ha hb with c | c | c
        · simp only [c, if_true]
          exact ⟨[_], rfl, fun _ => Or.inr ⟨⟨rfl, trivial⟩, by
            simp [sumSizes, PatternData.size]⟩⟩
        · simp only [isUnsigned_of_isSigned c, c, Bool.false_eq_true, if_false, if_true]
          exact ⟨[_], rfl, fun _ => Or.inr ⟨⟨rfl, trivial⟩, by
            simp [sumSizes, PatternData.size]⟩⟩
        · simp only [isUnsigned_of_isFloatingPoint c, isSigned_of_isFloatingPoint c, c,
            Bool.false_eq_true, if_false, if_true]
          exact ⟨[_], rfl, fun _ => Or.inr ⟨⟨rfl, trivial⟩, by
            simp [sumSizes, PatternData.size]⟩⟩

/-- Tiling without the narrowing of the return value: on a syntax tree whose built-in
descriptors are all unsigned, signed or floating point, when `highlightStruct` for a struct of
the tree, started at the `u64` offset `O`, succeeds and the sizes of the regions it appended sum
to less than `2 ^ 31`, these regions lie one after the other from `O` on and the size handed
back is the sum of their sizes. -/
theorem highlightStruct_tiles (ast : List ASTNode) (hw : WellClassed ast) (fuel : Nat)
    (s : ASTNodeStruct) (hs : s ∈ findNodes ASTNode.asStruct ast) (rs : List PatternData)
    (O : Nat) (name : String) (rs1 : List PatternData) (W : Int) (hO : O < 2 ^ 64)
    (h : highlightStruct fuel ast s rs O name = some (rs1, W)) (hW : W ≠ -1) :
    ∃ added : List PatternData, rs1 = rs ++ added ∧
      (sumSizes added < 2 ^ 31 →
        Chained O added ∧ W = (sumSizes added : Int) ∧ endOf O added = u64 (O + W.toNat)) := by
  obtain ⟨added, e, c⟩ := (highlight_tiles ast hw fuel).1 s hs rs O name _ hO h
  refine ⟨added, e, fun hsum => ?_⟩
  rcases c hsum with h1 | ⟨k1, n1⟩
  · exact absurd h1 hW
  · simp only at n1
    refine ⟨k1, n1, ?_⟩
    rw [endOf_eq added O hO, n1]
    simp

end ViewPattern
